import Mathlib

/-! Support/resistance and chart-pattern detection of `ai-trade` (`main.go`).

A shallow embedding of the analytic core of `main.go`:
`clusterLevels`, `detectSupportResistance`, the seven pattern detectors,
`calculateSlope` and `detectPatterns`.

Modelling conventions.

* Prices are exact rationals: a `decimal.Decimal` value is a rational.  The
  arithmetic of `main.go` is `float64` arithmetic on the values that
  `InexactFloat64` returns, and it is embedded twice.
  The definitions under the names of the source read it as exact arithmetic
  (`InexactFloat64` is the identity).  They carry the properties that do not
  turn on rounding: orders, counts, shapes, ranges and the algebra of the
  regression.  A `float64` division by zero gives `NaN` or `±Inf` in Go; every
  place of the source where the divisor can be zero is modelled explicitly
  (see `withinTolerance`, `relDiff`, `calculateSlope`).
  The definitions with the suffix `64` read it as IEEE 754 binary64
  arithmetic, as the code runs (see the section on `float64` arithmetic),
  with both zeros, the infinities and not-a-number.
  They are used where the two readings part: at and near a threshold (the 2%
  and 3% tolerances, the slope guard `0.001`) rounding decides the
  comparison.
* Go slices are lists; `candles[len(candles)-k:]` is `List.drop`.
* `sort.Slice` belongs to the Go standard library, not to the repository.
  The functions calling it take the sorting procedure as their first
  argument; `SortSliceContract` states what the library promises and
  `insertionSortLessFunc` is the procedure the library (Go 1.19 and later)
  runs on slices of at most 12 elements.  The `float64` functions take
  `sort.Float64s` in the same way (`SortFloat64sContract`,
  `sortFloat64s`).
-/

namespace AiTrade

/-! ## Data model -/

/-- One OHLCV bar (`type Candle struct`); `Time` is a Unix time stamp. -/
structure Candle where
  Time : Int
  Open : ℚ
  High : ℚ
  Low : ℚ
  Close : ℚ
  Volume : ℚ
deriving DecidableEq

instance : Inhabited Candle := ⟨⟨0, 0, 0, 0, 0, 0⟩⟩

/-- Output level (`type SupportResistance struct`); the Go field `Type` is
spelled `Type_` because `Type` is reserved. -/
structure SupportResistance where
  Price : ℚ
  Strength : Int
  Type_ : String
  Touches : Int
deriving DecidableEq

/-- A group of nearby swing prices (`type cluster struct`). -/
structure cluster where
  Price : ℚ
  Count : Int
  Elements : List ℚ
deriving DecidableEq

/-- A detected chart pattern (`type Pattern struct`). -/
structure Pattern where
  Name : String
  Type_ : String
  Confidence : ℚ
  Description : String
  Breakout : Bool
deriving DecidableEq

/-- The value `Pattern{Confidence: 0}`: every other field is Go's zero value. -/
def sentinel : Pattern :=
  { Name := "", Type_ := "", Confidence := 0, Description := "", Breakout := false }

/-! ## Sorting (Go standard library) -/

/-- Inner loop of Go's `insertionSortLessFunc`: the element `x` travels left
past every element it is `less` than.  The sorted prefix is held last element
first. -/
def insertBack {α : Type} (less : α → α → Bool) (x : α) : List α → List α
  | [] => [x]
  | y :: ys => if less x y then y :: insertBack less x ys else x :: y :: ys

/-- Go's `insertionSortLessFunc`, which `sort.Slice` (Go 1.19 and later) runs
on slices of at most 12 elements. -/
def insertionSortLessFunc {α : Type} (less : α → α → Bool) (data : List α) : List α :=
  (data.foldl (fun done x => insertBack less x done) []).reverse

/-- What `sort.Slice(x, less)` promises: the slice afterwards is a
rearrangement of the slice before, and no element is `less` than an element
standing before it.  Nothing is promised about the order of equal elements. -/
def SortSliceContract {α : Type} (sortSlice : (α → α → Bool) → List α → List α)
    (less : α → α → Bool) : Prop :=
  ∀ l : List α, (sortSlice less l).Perm l ∧
    (sortSlice less l).Pairwise (fun a b => less b a = false)

/-- A sorting procedure that meets `SortSliceContract` without keeping equal
elements in their order: insertion sort of the reversed slice. -/
def reversedInsertionSort {α : Type} (less : α → α → Bool) (data : List α) : List α :=
  insertionSortLessFunc less data.reverse

/-- The comparison closure handed to `sort.Slice` in `detectSupportResistance`. -/
def strengthLess (a b : SupportResistance) : Bool := decide (a.Strength > b.Strength)

/-- The comparison closure handed to `sort.Slice` in `detectPatterns`. -/
def confidenceLess (a b : Pattern) : Bool := decide (a.Confidence > b.Confidence)

/-! ## clusterLevels -/

/-- The test `math.Abs(price-avg)/avg <= tolerance`.  For `avg = 0` the Go
quotient is `NaN` or `+Inf` and the comparison is false. -/
def withinTolerance (price avg tolerance : ℚ) : Bool :=
  decide (avg ≠ 0 ∧ |price - avg| / avg ≤ tolerance)

/-- Body of the `if` in `clusterLevels`: append the price, recount, and
recompute the mean by summing the elements from the left. -/
def joinCluster (c : cluster) (price : ℚ) : cluster :=
  let elements := c.Elements ++ [price]
  { Price := elements.foldl (fun sum p => sum + p) 0 / (elements.length : ℚ)
    Count := (elements.length : Int)
    Elements := elements }

/-- One pass of the inner loop of `clusterLevels` for one price: the first
cluster within tolerance takes the price (`break`), otherwise a new
single-element cluster is appended. -/
def placePrice (tolerance price : ℚ) : List cluster → List cluster
  | [] => [{ Price := price, Count := 1, Elements := [price] }]
  | c :: cs =>
    if withinTolerance price c.Price tolerance then joinCluster c price :: cs
    else c :: placePrice tolerance price cs

/-- The slice `clusters` of `clusterLevels` after the loop
`for _, price := range prices` over the sorted prices. -/
def buildClusters (sorted : List ℚ) (tolerance : ℚ) : List cluster :=
  sorted.foldl (fun clusters price => placePrice tolerance price clusters) []

/-- Go `clusterLevels`.  `sort.Float64s` is an ascending sort of numbers, whose
result does not depend on the sorting procedure. -/
def clusterLevels (prices : List ℚ) (tolerance : ℚ) : List cluster :=
  if prices.length = 0 then []
  else
    let sorted := prices.insertionSort (fun a b => a ≤ b)
    let clusters := buildClusters sorted tolerance
    clusters.filter (fun c => decide (c.Count ≥ 2))

/-! ## detectSupportResistance -/

/-- The `High` of `candles[i]` as a number. -/
def highAt (candles : List Candle) (i : Nat) : ℚ := (candles.getD i default).High

/-- The `Low` of `candles[i]` as a number. -/
def lowAt (candles : List Candle) (i : Nat) : ℚ := (candles.getD i default).Low

/-- The indices visited by `for i := 2; i < len(candles)-2; i++`. -/
def swingIndices (candles : List Candle) : List Nat := List.range' 2 (candles.length - 4)

/-- The swing-high test: strictly above the two neighbours on either side. -/
def isSwingHigh (candles : List Candle) (i : Nat) : Bool :=
  decide (highAt candles i > highAt candles (i - 2) ∧ highAt candles i > highAt candles (i - 1) ∧
    highAt candles i > highAt candles (i + 1) ∧ highAt candles i > highAt candles (i + 2))

/-- The swing-low test: strictly below the two neighbours on either side. -/
def isSwingLow (candles : List Candle) (i : Nat) : Bool :=
  decide (lowAt candles i < lowAt candles (i - 2) ∧ lowAt candles i < lowAt candles (i - 1) ∧
    lowAt candles i < lowAt candles (i + 1) ∧ lowAt candles i < lowAt candles (i + 2))

/-- The slice `swingHighs` built by the first loop of `detectSupportResistance`. -/
def swingHighs (candles : List Candle) : List ℚ :=
  ((swingIndices candles).filter (isSwingHigh candles)).map (highAt candles)

/-- The slice `swingLows` built by the first loop of `detectSupportResistance`. -/
def swingLows (candles : List Candle) : List ℚ :=
  ((swingIndices candles).filter (isSwingLow candles)).map (lowAt candles)

/-- The level appended for a cluster that passed `cluster.Count >= 2`. -/
def levelOf (type_ : String) (c : cluster) : SupportResistance :=
  { Price := c.Price, Strength := c.Count, Type_ := type_, Touches := c.Count }

/-- The slice `srLevels` before it is sorted: resistance levels first, then
support levels. -/
def collectLevels (candles : List Candle) : List SupportResistance :=
  let resistanceLevels := clusterLevels (swingHighs candles) 0.02
  let supportLevels := clusterLevels (swingLows candles) 0.02
  ((resistanceLevels.filter (fun c => decide (c.Count ≥ 2))).map (levelOf "resistance")) ++
    ((supportLevels.filter (fun c => decide (c.Count ≥ 2))).map (levelOf "support"))

/-- Go `detectSupportResistance`, with the library sort as first argument. -/
def detectSupportResistance
    (sortSlice : (SupportResistance → SupportResistance → Bool) →
      List SupportResistance → List SupportResistance)
    (candles : List Candle) : List SupportResistance :=
  let srLevels := sortSlice strengthLess (collectLevels candles)
  if srLevels.length > 5 then srLevels.take 5 else srLevels

/-- The clusters of the given swing prices (tolerance 2%) that hold at least
two member prices: the qualifying clusters of one side. -/
def qualifyingClusters (prices : List ℚ) : List cluster :=
  (buildClusters (prices.insertionSort (fun a b => a ≤ b)) 0.02).filter
    (fun c => decide (c.Elements.length ≥ 2))

/-- A qualifying cluster as a level: strength and touches are its member
count, the type is its side. -/
def levelOfMembers (type_ : String) (c : cluster) : SupportResistance :=
  { Price := c.Price, Strength := (c.Elements.length : Int), Type_ := type_,
    Touches := (c.Elements.length : Int) }

/-- All qualifying clusters of a candle sequence as levels: those of the swing
highs as resistance, then those of the swing lows as support. -/
def qualifyingLevels (candles : List Candle) : List SupportResistance :=
  (qualifyingClusters (swingHighs candles)).map (levelOfMembers "resistance") ++
    (qualifyingClusters (swingLows candles)).map (levelOfMembers "support")

/-! ## Pattern detectors -/

/-- The slice `candles[len(candles)-k:]`. -/
def trailing (k : Nat) (candles : List Candle) : List Candle :=
  candles.drop (candles.length - k)

/-- The quotient `math.Abs(a-b) / math.Max(a, b)`.  For a zero divisor the Go
value is `NaN` or `+Inf`, here `none`; every comparison `<=` with it is false. -/
def relDiff (a b : ℚ) : Option ℚ :=
  if max a b = 0 then none else some (|a - b| / max a b)

/-- The slice `peaks` of the detectors working on highs: pairs `(Index, High)`
of the swing highs of the window, in position order.  The loop and its four
strict comparisons are those of `detectSupportResistance` (the source writes
the comparisons with `i-1` before `i-2`). -/
def highPeaks (recent : List Candle) : List (Nat × ℚ) :=
  ((swingIndices recent).filter (isSwingHigh recent)).map (fun i => (i, highAt recent i))

/-- The slice `troughs` of the detectors working on lows: pairs `(Index, Low)`
of the swing lows of the window, in position order.  The loop and its four
strict comparisons are those of `detectSupportResistance` (the source writes
the comparisons with `i-1` before `i-2`). -/
def lowTroughs (recent : List Candle) : List (Nat × ℚ) :=
  ((swingIndices recent).filter (isSwingLow recent)).map (fun i => (i, lowAt recent i))

/-- The pattern returned by `detectHeadAndShoulders` for an accepted triple. -/
def headAndShouldersPattern (shoulderDiff : ℚ) : Pattern :=
  { Name := "Head and Shoulders"
    Type_ := "bearish"
    Confidence := min (0.7 + (0.3 * (1 - shoulderDiff))) 0.95
    Description := "Reversal pattern menunjukkan trend bearish"
    Breakout := false }

/-- The loop `for i := 0; i < len(peaks)-2; i++` of `detectHeadAndShoulders`
together with the final `return Pattern{Confidence: 0}`. -/
def scanHeadAndShoulders : List (Nat × ℚ) → Pattern
  | [] => sentinel
  | left :: rest =>
    match rest with
    | head :: right :: _ =>
      if head.2 > left.2 ∧ head.2 > right.2 then
        match relDiff left.2 right.2 with
        | some shoulderDiff =>
          if shoulderDiff ≤ 0.03 then headAndShouldersPattern shoulderDiff
          else scanHeadAndShoulders rest
        | none => scanHeadAndShoulders rest
      else scanHeadAndShoulders rest
    | _ => sentinel

/-- Go `detectHeadAndShoulders`. -/
def detectHeadAndShoulders (candles : List Candle) : Pattern :=
  if candles.length < 20 then sentinel
  else
    let recent := trailing 20 candles
    let peaks := highPeaks recent
    if peaks.length < 3 then sentinel
    else scanHeadAndShoulders peaks

/-- The pattern returned by `detectInverseHeadAndShoulders` for an accepted
triple. -/
def inverseHeadAndShouldersPattern (shoulderDiff : ℚ) : Pattern :=
  { Name := "Inverse Head and Shoulders"
    Type_ := "bullish"
    Confidence := min (0.7 + (0.3 * (1 - shoulderDiff))) 0.95
    Description := "Reversal pattern menunjukkan trend bullish"
    Breakout := false }

/-- The loop `for i := 0; i < len(troughs)-2; i++` of
`detectInverseHeadAndShoulders` together with the final sentinel. -/
def scanInverseHeadAndShoulders : List (Nat × ℚ) → Pattern
  | [] => sentinel
  | left :: rest =>
    match rest with
    | head :: right :: _ =>
      if head.2 < left.2 ∧ head.2 < right.2 then
        match relDiff left.2 right.2 with
        | some shoulderDiff =>
          if shoulderDiff ≤ 0.03 then inverseHeadAndShouldersPattern shoulderDiff
          else scanInverseHeadAndShoulders rest
        | none => scanInverseHeadAndShoulders rest
      else scanInverseHeadAndShoulders rest
    | _ => sentinel

/-- Go `detectInverseHeadAndShoulders`. -/
def detectInverseHeadAndShoulders (candles : List Candle) : Pattern :=
  if candles.length < 20 then sentinel
  else
    let recent := trailing 20 candles
    let troughs := lowTroughs recent
    if troughs.length < 3 then sentinel
    else scanInverseHeadAndShoulders troughs

/-- The inner loop `for j := i + 1; j < len(peaks); j++` of the double
detectors for a fixed first point: the `diff` of the first partner within 2%. -/
def findPartner (first : Nat × ℚ) : List (Nat × ℚ) → Option ℚ
  | [] => none
  | second :: rest =>
    match relDiff first.2 second.2 with
    | some diff => if diff ≤ 0.02 then some diff else findPartner first rest
    | none => findPartner first rest

/-- The nested loops of the double detectors: the `diff` of the first pair
`i < j`, in loop order, that is within 2%. -/
def scanPairs : List (Nat × ℚ) → Option ℚ
  | [] => none
  | first :: rest =>
    match findPartner first rest with
    | some diff => some diff
    | none => scanPairs rest

/-- The pattern returned by `detectDoubleTop` for an accepted pair. -/
def doubleTopPattern (diff : ℚ) : Pattern :=
  { Name := "Double Top"
    Type_ := "bearish"
    Confidence := 0.8 * (1 - diff)
    Description := "Reversal pattern menunjukkan resistance kuat"
    Breakout := false }

/-- Go `detectDoubleTop`. -/
def detectDoubleTop (candles : List Candle) : Pattern :=
  if candles.length < 15 then sentinel
  else
    let recent := trailing 15 candles
    let peaks := highPeaks recent
    if peaks.length < 2 then sentinel
    else
      match scanPairs peaks with
      | some diff => doubleTopPattern diff
      | none => sentinel

/-- The pattern returned by `detectDoubleBottom` for an accepted pair. -/
def doubleBottomPattern (diff : ℚ) : Pattern :=
  { Name := "Double Bottom"
    Type_ := "bullish"
    Confidence := 0.8 * (1 - diff)
    Description := "Reversal pattern menunjukkan support kuat"
    Breakout := false }

/-- Go `detectDoubleBottom`. -/
def detectDoubleBottom (candles : List Candle) : Pattern :=
  if candles.length < 15 then sentinel
  else
    let recent := trailing 15 candles
    let troughs := lowTroughs recent
    if troughs.length < 2 then sentinel
    else
      match scanPairs troughs with
      | some diff => doubleBottomPattern diff
      | none => sentinel

/-! ## calculateSlope and the triangle detectors -/

/-- The four running sums of `calculateSlope`. -/
structure SlopeSums where
  sumX : ℚ
  sumY : ℚ
  sumXY : ℚ
  sumX2 : ℚ
deriving DecidableEq

/-- The loop `for i, candle := range candles` of `calculateSlope`, started at
index `i` with the sums `s`. -/
def slopeLoop (useHigh : Bool) : List Candle → Nat → SlopeSums → SlopeSums
  | [], _, s => s
  | candle :: rest, i, s =>
    let x : ℚ := (i : ℚ)
    let y : ℚ := if useHigh then candle.High else candle.Low
    slopeLoop useHigh rest (i + 1)
      { sumX := s.sumX + x, sumY := s.sumY + y, sumXY := s.sumXY + x * y,
        sumX2 := s.sumX2 + x * x }

/-- Go `calculateSlope`.  When the divisor `n*sumX2 - sumX*sumX` is zero
(which happens for at most one candle, where the dividend is zero as well) the
Go value is `NaN`, here `none`; every comparison with it is false. -/
def calculateSlope (candles : List Candle) (useHigh : Bool) : Option ℚ :=
  let n : ℚ := (candles.length : ℚ)
  let s := slopeLoop useHigh candles 0 ⟨0, 0, 0, 0⟩
  if n * s.sumX2 - s.sumX * s.sumX = 0 then none
  else some ((n * s.sumXY - s.sumX * s.sumY) / (n * s.sumX2 - s.sumX * s.sumX))

/-- The pattern returned by `detectAscendingTriangle` when it fires. -/
def ascendingTrianglePattern (lowSlope : ℚ) : Pattern :=
  { Name := "Ascending Triangle"
    Type_ := "bullish"
    Confidence := min (0.6 + 0.4 * min |lowSlope| 0.01 / 0.01) 0.9
    Description := "Continuation pattern, bias bullish breakout"
    Breakout := false }

/-- Go `detectAscendingTriangle`. -/
def detectAscendingTriangle (candles : List Candle) : Pattern :=
  if candles.length < 10 then sentinel
  else
    let recent := trailing 10 candles
    match calculateSlope recent true, calculateSlope recent false with
    | some highSlope, some lowSlope =>
      if highSlope < 0.001 ∧ lowSlope > 0.001 then ascendingTrianglePattern lowSlope
      else sentinel
    | _, _ => sentinel

/-- The pattern returned by `detectDescendingTriangle` when it fires. -/
def descendingTrianglePattern (highSlope : ℚ) : Pattern :=
  { Name := "Descending Triangle"
    Type_ := "bearish"
    Confidence := min (0.6 + 0.4 * min |highSlope| 0.01 / 0.01) 0.9
    Description := "Continuation pattern, bias bearish breakout"
    Breakout := false }

/-- Go `detectDescendingTriangle`. -/
def detectDescendingTriangle (candles : List Candle) : Pattern :=
  if candles.length < 10 then sentinel
  else
    let recent := trailing 10 candles
    match calculateSlope recent true, calculateSlope recent false with
    | some highSlope, some lowSlope =>
      if lowSlope > -0.001 ∧ highSlope < -0.001 then descendingTrianglePattern highSlope
      else sentinel
    | _, _ => sentinel

/-- The pattern returned by `detectSymmetricalTriangle` when it fires. -/
def symmetricalTrianglePattern (highSlope lowSlope : ℚ) : Pattern :=
  { Name := "Symmetrical Triangle"
    Type_ := "continuation"
    Confidence := min (0.5 + 0.5 * min (|highSlope| + |lowSlope|) 0.02 / 0.02) 0.85
    Description := "Consolidation pattern, breakout menentukan arah"
    Breakout := false }

/-- Go `detectSymmetricalTriangle`. -/
def detectSymmetricalTriangle (candles : List Candle) : Pattern :=
  if candles.length < 10 then sentinel
  else
    let recent := trailing 10 candles
    match calculateSlope recent true, calculateSlope recent false with
    | some highSlope, some lowSlope =>
      if highSlope < -0.001 ∧ lowSlope > 0.001 ∧ |highSlope - lowSlope| < 0.002 then
        symmetricalTrianglePattern highSlope lowSlope
      else sentinel
    | _, _ => sentinel

/-! ## detectPatterns -/

/-- One block `if p := detect(candles); p.Confidence > 0 { patterns = append(patterns, p) }`. -/
def appendIfDetected (patterns : List Pattern) (p : Pattern) : List Pattern :=
  if p.Confidence > 0 then patterns ++ [p] else patterns

/-- The slice `patterns` of `detectPatterns` before it is sorted. -/
def collectPatterns (candles : List Candle) : List Pattern :=
  let patterns : List Pattern := []
  let patterns := appendIfDetected patterns (detectHeadAndShoulders candles)
  let patterns := appendIfDetected patterns (detectInverseHeadAndShoulders candles)
  let patterns := appendIfDetected patterns (detectDoubleTop candles)
  let patterns := appendIfDetected patterns (detectDoubleBottom candles)
  let patterns := appendIfDetected patterns (detectAscendingTriangle candles)
  let patterns := appendIfDetected patterns (detectDescendingTriangle candles)
  let patterns := appendIfDetected patterns (detectSymmetricalTriangle candles)
  patterns

/-- Go `detectPatterns`, with the library sort as first argument. -/
def detectPatterns
    (sortSlice : (Pattern → Pattern → Bool) → List Pattern → List Pattern)
    (candles : List Candle) : List Pattern :=
  sortSlice confidenceLess (collectPatterns candles)

/-- The outputs of the seven detectors in evaluation order. -/
def detectorOutputs (candles : List Candle) : List Pattern :=
  [detectHeadAndShoulders candles, detectInverseHeadAndShoulders candles,
   detectDoubleTop candles, detectDoubleBottom candles,
   detectAscendingTriangle candles, detectDescendingTriangle candles,
   detectSymmetricalTriangle candles]

/-! ## Notions used to state the properties -/

/-- The detector evaluation order of `detectPatterns`, by pattern name. -/
def evaluationOrder : List String :=
  ["Head and Shoulders", "Inverse Head and Shoulders", "Double Top", "Double Bottom",
    "Ascending Triangle", "Descending Triangle", "Symmetrical Triangle"]

/-- The position of a pattern's detector in the evaluation order. -/
def evaluationRank (p : Pattern) : Nat := evaluationOrder.indexOf p.Name

/-- The arithmetic mean of a list of prices. -/
def mean (prices : List ℚ) : ℚ := prices.sum / (prices.length : ℚ)

/-- The price `calculateSlope` selects from a candle. -/
def selectedPrice (useHigh : Bool) (candle : Candle) : ℚ :=
  if useHigh then candle.High else candle.Low

/-- The divisor `n*sumX2 - sumX*sumX` of `calculateSlope`. -/
def slopeDivisor (candles : List Candle) (useHigh : Bool) : ℚ :=
  (candles.length : ℚ) * (slopeLoop useHigh candles 0 ⟨0, 0, 0, 0⟩).sumX2 -
    (slopeLoop useHigh candles 0 ⟨0, 0, 0, 0⟩).sumX *
      (slopeLoop useHigh candles 0 ⟨0, 0, 0, 0⟩).sumX

/-- The candles with `k` added to the high and to the low of each. -/
def shiftPrices (k : ℚ) (candles : List Candle) : List Candle :=
  candles.map (fun c => { c with High := c.High + k, Low := c.Low + k })

/-- Clusters in creation order are separated for the tolerance: every cluster
has a member, positive members and their mean as price, and every member of a
later cluster lies more than the tolerance above the price of an earlier one. -/
def separatedClusters (tolerance : ℚ) (clusters : List cluster) : Prop :=
  (∀ c ∈ clusters, c.Elements ≠ [] ∧ c.Price = mean c.Elements ∧ ∀ x ∈ c.Elements, 0 < x) ∧
    clusters.Pairwise (fun a b => ∀ x ∈ b.Elements, (1 + tolerance) * a.Price < x)

/-! ## float64 arithmetic

The functions of `main.go` compute in `float64`.  The definitions above read
that arithmetic as exact arithmetic on the decimal prices; the definitions of
this section and the next read it as IEEE 754 binary64 arithmetic: every
operation returns the representable number nearest to the exact result, ties
to the even significand, with gradual underflow and overflow to an infinity.
Negative zero is a value of its own: it compares equal to zero and differs
from it as a divisor and under `math.Max` and `math.Min`.  Products and sums
are rounded one by one (no fused multiply-add), as the Go compiler does on
amd64. -/

/-- The power `2^e` of two as a rational. -/
def pow2 (e : ℤ) : ℚ :=
  if 0 ≤ e then ((2 ^ e.toNat : ℕ) : ℚ) else 1 / ((2 ^ (-e).toNat : ℕ) : ℚ)

/-- Halving loop behind `bitLength`. -/
def bitLengthLoop : Nat → Nat → Nat
  | 0, _ => 0
  | fuel + 1, n => if n = 0 then 0 else bitLengthLoop fuel (n / 2) + 1

/-- The number of binary digits of a natural number. -/
def bitLength (n : Nat) : Nat := bitLengthLoop n n

/-- The binary exponent `⌊log₂ q⌋` of a positive rational. -/
def log2Floor (q : ℚ) : ℤ :=
  let e : ℤ := (bitLength q.num.natAbs : ℤ) - (bitLength q.den : ℤ)
  if pow2 e ≤ q then e else e - 1

/-- Rounding to the nearest integer, ties to the even one. -/
def roundHalfEven (x : ℚ) : ℤ :=
  let f := ⌊x⌋
  if x - f < 1 / 2 then f else if 1 / 2 < x - f then f + 1 else if f % 2 = 0 then f else f + 1

/-- The exponent of the last binary digit binary64 keeps for a positive
rational: 53 significant digits, and never below `2^-1074`. -/
def lastPlace (q : ℚ) : ℤ := max (log2Floor q - 52) (-1074)

/-- The multiple of `2^lastPlace` nearest to a positive rational, ties to even. -/
def roundPositive (q : ℚ) : ℚ :=
  (roundHalfEven (q / pow2 (lastPlace q)) : ℚ) * pow2 (lastPlace q)

/-- Rounding to binary64 precision before the overflow check. -/
def roundFinite (q : ℚ) : ℚ :=
  if q = 0 then 0 else if 0 < q then roundPositive q else -roundPositive (-q)

/-- A `float64` value: a finite number, negative zero, an infinity, or
not-a-number.  `finite 0` is positive zero. -/
inductive float64 where
  | finite (value : ℚ)
  | negZero
  | posInf
  | negInf
  | nan
deriving DecidableEq

instance : Inhabited float64 := ⟨float64.finite 0⟩

/-- The zero with the given sign bit. -/
def float64.zero (negative : Bool) : float64 :=
  if negative then float64.negZero else float64.finite 0

/-- The `float64` nearest to a rational; a result of magnitude `2^1024` or more
overflows to an infinity, and a negative rational that rounds to zero gives
negative zero. -/
def roundToFloat64 (q : ℚ) : float64 :=
  if pow2 1024 ≤ roundFinite q then float64.posInf
  else if roundFinite q ≤ -pow2 1024 then float64.negInf
  else if q < 0 ∧ roundFinite q = 0 then float64.negZero
  else float64.finite (roundFinite q)

/-- `Decimal.InexactFloat64`: the nearest `float64` of a decimal (the library
converts the magnitude and then sets the sign). -/
def InexactFloat64 (d : ℚ) : float64 := roundToFloat64 d

/-- The conversion `float64(n)` of an integer. -/
def float64.ofInt (n : Int) : float64 := roundToFloat64 (n : ℚ)

/-- A Go floating-point constant used as a `float64`. -/
def float64.lit (q : ℚ) : float64 := roundToFloat64 q

/-- The sign bit of a `float64`; not-a-number counts as unsigned. -/
def float64.signbit : float64 → Bool
  | .finite a => decide (a < 0)
  | .negZero => true
  | .posInf => false
  | .negInf => true
  | .nan => false

/-- Whether a `float64` is one of the two zeros. -/
def float64.isZero : float64 → Bool
  | .finite a => decide (a = 0)
  | .negZero => true
  | _ => false

/-- Unary minus. -/
def float64.neg : float64 → float64
  | .finite a => if a = 0 then .negZero else .finite (-a)
  | .negZero => .finite 0
  | .posInf => .negInf
  | .negInf => .posInf
  | .nan => .nan

/-- The sum `x + y`.  An exact sum of zero is positive zero, unless both
operands are negative zero. -/
def float64.add : float64 → float64 → float64
  | .finite a, .finite b => roundToFloat64 (a + b)
  | .finite a, .negZero => .finite a
  | .negZero, .finite b => .finite b
  | .negZero, .negZero => .negZero
  | .nan, _ => .nan
  | _, .nan => .nan
  | .posInf, .negInf => .nan
  | .negInf, .posInf => .nan
  | .posInf, _ => .posInf
  | _, .posInf => .posInf
  | .negInf, _ => .negInf
  | _, .negInf => .negInf

/-- The difference `x - y`, which is `x + (-y)`. -/
def float64.sub (x y : float64) : float64 := x.add y.neg

/-- The product `x * y`; the sign of a zero product is the product of the
signs, and zero times an infinity is not-a-number. -/
def float64.mul : float64 → float64 → float64
  | .finite a, .finite b =>
    if a * b = 0 then float64.zero (xor (decide (a < 0)) (decide (b < 0)))
    else roundToFloat64 (a * b)
  | .finite a, .negZero => float64.zero (decide (0 ≤ a))
  | .negZero, .finite b => float64.zero (decide (0 ≤ b))
  | .negZero, .negZero => .finite 0
  | .nan, _ => .nan
  | _, .nan => .nan
  | x, y =>
    if x.isZero || y.isZero then .nan
    else if xor x.signbit y.signbit then .negInf else .posInf

/-- The quotient `x / y`.  A non-zero number over a zero is an infinity whose
sign is the product of the signs; zero over zero and infinity over infinity
are not-a-number. -/
def float64.div : float64 → float64 → float64
  | .finite a, .finite b =>
    if b = 0 then (if a = 0 then .nan else if 0 < a then .posInf else .negInf)
    else if a = 0 then float64.zero (decide (b < 0))
    else roundToFloat64 (a / b)
  | .finite a, .negZero => if a = 0 then .nan else if 0 < a then .negInf else .posInf
  | .negZero, .finite b => if b = 0 then .nan else float64.zero (decide (0 < b))
  | .negZero, .negZero => .nan
  | .nan, _ => .nan
  | _, .nan => .nan
  | .finite a, .posInf => float64.zero (decide (a < 0))
  | .finite a, .negInf => float64.zero (decide (0 ≤ a))
  | .negZero, .posInf => .negZero
  | .negZero, .negInf => .finite 0
  | .posInf, .finite b => if b < 0 then .negInf else .posInf
  | .posInf, .negZero => .negInf
  | .negInf, .finite b => if b < 0 then .posInf else .negInf
  | .negInf, .negZero => .posInf
  | _, _ => .nan

/-- Go `math.Abs`. -/
def float64.abs : float64 → float64
  | .finite a => .finite |a|
  | .negZero => .finite 0
  | .posInf => .posInf
  | .negInf => .posInf
  | .nan => .nan

/-- The comparison `x < y`; false when an operand is not-a-number.  The two
zeros compare equal. -/
def float64.lt : float64 → float64 → Bool
  | .finite a, .finite b => decide (a < b)
  | .finite a, .negZero => decide (a < 0)
  | .negZero, .finite b => decide (0 < b)
  | .finite _, .posInf => true
  | .negZero, .posInf => true
  | .negInf, .finite _ => true
  | .negInf, .negZero => true
  | .negInf, .posInf => true
  | _, _ => false

/-- The comparison `x <= y`; false when an operand is not-a-number. -/
def float64.le : float64 → float64 → Bool
  | .finite a, .finite b => decide (a ≤ b)
  | .finite a, .negZero => decide (a ≤ 0)
  | .negZero, .finite b => decide (0 ≤ b)
  | .negZero, .negZero => true
  | .finite _, .posInf => true
  | .negZero, .posInf => true
  | .negInf, .finite _ => true
  | .negInf, .negZero => true
  | .negInf, .posInf => true
  | .posInf, .posInf => true
  | .negInf, .negInf => true
  | _, _ => false

/-- The comparison `x > y`. -/
def float64.gt (x y : float64) : Bool := y.lt x

/-- Go `math.Max`: of the two zeros the positive one is the larger. -/
def float64.max (x y : float64) : float64 :=
  if x = .posInf ∨ y = .posInf then .posInf
  else if x = .nan ∨ y = .nan then .nan
  else if x.isZero && y.isZero then (if x.signbit then y else x)
  else if x.gt y then x else y

/-- Go `math.Min`: of the two zeros the negative one is the smaller. -/
def float64.min (x y : float64) : float64 :=
  if x = .negInf ∨ y = .negInf then .negInf
  else if x = .nan ∨ y = .nan then .nan
  else if x.isZero && y.isZero then (if x.signbit then x else y)
  else if x.lt y then x else y

/-- The order of `sort.Float64s`: `x < y`, with not-a-number before every
number. -/
def float64sLess (x y : float64) : Bool :=
  x.lt y || (decide (x = .nan) && !decide (y = .nan))

/-- What `sort.Float64s(x)` promises: the slice afterwards is a rearrangement
of the slice before, in ascending order.  Nothing is promised about the order
of elements that compare equal, such as the two zeros. -/
def SortFloat64sContract (sortFloats : List float64 → List float64) : Prop :=
  ∀ l : List float64, (sortFloats l).Perm l ∧
    (sortFloats l).Pairwise (fun a b => float64sLess b a = false)

/-- The insertion sort `sort.Float64s` runs on slices of at most 12
elements. -/
def sortFloat64s (x : List float64) : List float64 := insertionSortLessFunc float64sLess x

/-! ## The functions of main.go in float64 arithmetic -/

/-- The level type `SupportResistance` with a `float64` price. -/
structure SupportResistance64 where
  Price : float64
  Strength : Int
  Type_ : String
  Touches : Int
deriving DecidableEq

/-- The type `cluster` with `float64` prices. -/
structure cluster64 where
  Price : float64
  Count : Int
  Elements : List float64
deriving DecidableEq

/-- The type `Pattern` with a `float64` confidence. -/
structure Pattern64 where
  Name : String
  Type_ : String
  Confidence : float64
  Description : String
  Breakout : Bool
deriving DecidableEq

/-- The value `Pattern{Confidence: 0}`. -/
def sentinel64 : Pattern64 :=
  { Name := "", Type_ := "", Confidence := .finite 0, Description := "", Breakout := false }

/-- The test `math.Abs(price-avg)/avg <= tolerance` in `float64`. -/
def withinTolerance64 (price avg tolerance : float64) : Bool :=
  (((price.sub avg).abs).div avg).le tolerance

/-- The loop `sum := 0.0; for _, p := range elements { sum += p }`. -/
def sum64 (elements : List float64) : float64 :=
  elements.foldl (fun sum p => sum.add p) (.finite 0)

/-- The `float64` mean `sum / float64(len(elements))` of `clusterLevels`. -/
def mean64 (elements : List float64) : float64 :=
  (sum64 elements).div (float64.ofInt (elements.length : Int))

/-- Body of the `if` in `clusterLevels`: append the price, recount, and
recompute the mean by summing the elements from the left. -/
def joinCluster64 (c : cluster64) (price : float64) : cluster64 :=
  let elements := c.Elements ++ [price]
  { Price := mean64 elements
    Count := (elements.length : Int)
    Elements := elements }

/-- One pass of the inner loop of `clusterLevels` for one price. -/
def placePrice64 (tolerance price : float64) : List cluster64 → List cluster64
  | [] => [{ Price := price, Count := 1, Elements := [price] }]
  | c :: cs =>
    if withinTolerance64 price c.Price tolerance then joinCluster64 c price :: cs
    else c :: placePrice64 tolerance price cs

/-- The slice `clusters` of `clusterLevels` after the loop over the sorted
prices. -/
def buildClusters64 (sorted : List float64) (tolerance : float64) : List cluster64 :=
  sorted.foldl (fun clusters price => placePrice64 tolerance price clusters) []

/-- Go `clusterLevels` in `float64`, with the library procedure
`sort.Float64s` as first argument. -/
def clusterLevels64 (sortFloats : List float64 → List float64) (prices : List float64)
    (tolerance : float64) : List cluster64 :=
  if prices.length = 0 then []
  else
    let sorted := sortFloats prices
    let clusters := buildClusters64 sorted tolerance
    clusters.filter (fun c => decide (c.Count ≥ 2))

/-- The value `candles[i].High.InexactFloat64()`. -/
def highAt64 (candles : List Candle) (i : Nat) : float64 := InexactFloat64 (highAt candles i)

/-- The value `candles[i].Low.InexactFloat64()`. -/
def lowAt64 (candles : List Candle) (i : Nat) : float64 := InexactFloat64 (lowAt candles i)

/-- The swing-high test on the `float64` highs. -/
def isSwingHigh64 (candles : List Candle) (i : Nat) : Bool :=
  (highAt64 candles i).gt (highAt64 candles (i - 2)) &&
    (highAt64 candles i).gt (highAt64 candles (i - 1)) &&
    (highAt64 candles i).gt (highAt64 candles (i + 1)) &&
    (highAt64 candles i).gt (highAt64 candles (i + 2))

/-- The swing-low test on the `float64` lows. -/
def isSwingLow64 (candles : List Candle) (i : Nat) : Bool :=
  (lowAt64 candles i).lt (lowAt64 candles (i - 2)) &&
    (lowAt64 candles i).lt (lowAt64 candles (i - 1)) &&
    (lowAt64 candles i).lt (lowAt64 candles (i + 1)) &&
    (lowAt64 candles i).lt (lowAt64 candles (i + 2))

/-- The slice `swingHighs` of `detectSupportResistance`. -/
def swingHighs64 (candles : List Candle) : List float64 :=
  ((swingIndices candles).filter (isSwingHigh64 candles)).map (highAt64 candles)

/-- The slice `swingLows` of `detectSupportResistance`. -/
def swingLows64 (candles : List Candle) : List float64 :=
  ((swingIndices candles).filter (isSwingLow64 candles)).map (lowAt64 candles)

/-- The level appended for a cluster that passed `cluster.Count >= 2`. -/
def levelOf64 (type_ : String) (c : cluster64) : SupportResistance64 :=
  { Price := c.Price, Strength := c.Count, Type_ := type_, Touches := c.Count }

/-- The slice `srLevels` before it is sorted. -/
def collectLevels64 (sortFloats : List float64 → List float64) (candles : List Candle) :
    List SupportResistance64 :=
  let resistanceLevels := clusterLevels64 sortFloats (swingHighs64 candles) (float64.lit 0.02)
  let supportLevels := clusterLevels64 sortFloats (swingLows64 candles) (float64.lit 0.02)
  ((resistanceLevels.filter (fun c => decide (c.Count ≥ 2))).map (levelOf64 "resistance")) ++
    ((supportLevels.filter (fun c => decide (c.Count ≥ 2))).map (levelOf64 "support"))

/-- The comparison closure handed to `sort.Slice` in `detectSupportResistance`. -/
def strengthLess64 (a b : SupportResistance64) : Bool := decide (a.Strength > b.Strength)

/-- Go `detectSupportResistance` in `float64`, with the library procedures
`sort.Float64s` and `sort.Slice` as first arguments. -/
def detectSupportResistance64 (sortFloats : List float64 → List float64)
    (sortSlice : (SupportResistance64 → SupportResistance64 → Bool) →
      List SupportResistance64 → List SupportResistance64)
    (candles : List Candle) : List SupportResistance64 :=
  let srLevels := sortSlice strengthLess64 (collectLevels64 sortFloats candles)
  if srLevels.length > 5 then srLevels.take 5 else srLevels

/-- The quotient `math.Abs(a-b) / math.Max(a, b)` in `float64`. -/
def relDiff64 (a b : float64) : float64 := ((a.sub b).abs).div (a.max b)

/-- The slice `peaks` of the detectors working on highs. -/
def highPeaks64 (recent : List Candle) : List (Nat × float64) :=
  ((swingIndices recent).filter (isSwingHigh64 recent)).map (fun i => (i, highAt64 recent i))

/-- The slice `troughs` of the detectors working on lows. -/
def lowTroughs64 (recent : List Candle) : List (Nat × float64) :=
  ((swingIndices recent).filter (isSwingLow64 recent)).map (fun i => (i, lowAt64 recent i))

/-- The pattern returned by `detectHeadAndShoulders` for an accepted triple. -/
def headAndShouldersPattern64 (shoulderDiff : float64) : Pattern64 :=
  { Name := "Head and Shoulders"
    Type_ := "bearish"
    Confidence :=
      ((float64.lit 0.7).add ((float64.lit 0.3).mul ((float64.lit 1).sub shoulderDiff))).min
        (float64.lit 0.95)
    Description := "Reversal pattern menunjukkan trend bearish"
    Breakout := false }

/-- The loop over `peaks` of `detectHeadAndShoulders` with the final sentinel. -/
def scanHeadAndShoulders64 : List (Nat × float64) → Pattern64
  | [] => sentinel64
  | left :: rest =>
    match rest with
    | head :: right :: _ =>
      if head.2.gt left.2 && head.2.gt right.2 then
        if (relDiff64 left.2 right.2).le (float64.lit 0.03) then
          headAndShouldersPattern64 (relDiff64 left.2 right.2)
        else scanHeadAndShoulders64 rest
      else scanHeadAndShoulders64 rest
    | _ => sentinel64

/-- Go `detectHeadAndShoulders` in `float64`. -/
def detectHeadAndShoulders64 (candles : List Candle) : Pattern64 :=
  if candles.length < 20 then sentinel64
  else
    let recent := trailing 20 candles
    let peaks := highPeaks64 recent
    if peaks.length < 3 then sentinel64
    else scanHeadAndShoulders64 peaks

/-- The pattern returned by `detectInverseHeadAndShoulders`. -/
def inverseHeadAndShouldersPattern64 (shoulderDiff : float64) : Pattern64 :=
  { Name := "Inverse Head and Shoulders"
    Type_ := "bullish"
    Confidence :=
      ((float64.lit 0.7).add ((float64.lit 0.3).mul ((float64.lit 1).sub shoulderDiff))).min
        (float64.lit 0.95)
    Description := "Reversal pattern menunjukkan trend bullish"
    Breakout := false }

/-- The loop over `troughs` of `detectInverseHeadAndShoulders`. -/
def scanInverseHeadAndShoulders64 : List (Nat × float64) → Pattern64
  | [] => sentinel64
  | left :: rest =>
    match rest with
    | head :: right :: _ =>
      if head.2.lt left.2 && head.2.lt right.2 then
        if (relDiff64 left.2 right.2).le (float64.lit 0.03) then
          inverseHeadAndShouldersPattern64 (relDiff64 left.2 right.2)
        else scanInverseHeadAndShoulders64 rest
      else scanInverseHeadAndShoulders64 rest
    | _ => sentinel64

/-- Go `detectInverseHeadAndShoulders` in `float64`. -/
def detectInverseHeadAndShoulders64 (candles : List Candle) : Pattern64 :=
  if candles.length < 20 then sentinel64
  else
    let recent := trailing 20 candles
    let troughs := lowTroughs64 recent
    if troughs.length < 3 then sentinel64
    else scanInverseHeadAndShoulders64 troughs

/-- The inner loop of the double detectors for a fixed first point: the `diff`
of the first partner within 2%. -/
def findPartner64 (first : Nat × float64) : List (Nat × float64) → Option float64
  | [] => none
  | second :: rest =>
    if (relDiff64 first.2 second.2).le (float64.lit 0.02) then some (relDiff64 first.2 second.2)
    else findPartner64 first rest

/-- The nested loops of the double detectors: the `diff` of the first pair
`i < j`, in loop order, that is within 2%. -/
def scanPairs64 : List (Nat × float64) → Option float64
  | [] => none
  | first :: rest =>
    match findPartner64 first rest with
    | some diff => some diff
    | none => scanPairs64 rest

/-- The pattern returned by `detectDoubleTop` for an accepted pair. -/
def doubleTopPattern64 (diff : float64) : Pattern64 :=
  { Name := "Double Top"
    Type_ := "bearish"
    Confidence := (float64.lit 0.8).mul ((float64.lit 1).sub diff)
    Description := "Reversal pattern menunjukkan resistance kuat"
    Breakout := false }

/-- Go `detectDoubleTop` in `float64`. -/
def detectDoubleTop64 (candles : List Candle) : Pattern64 :=
  if candles.length < 15 then sentinel64
  else
    let recent := trailing 15 candles
    let peaks := highPeaks64 recent
    if peaks.length < 2 then sentinel64
    else
      match scanPairs64 peaks with
      | some diff => doubleTopPattern64 diff
      | none => sentinel64

/-- The pattern returned by `detectDoubleBottom` for an accepted pair. -/
def doubleBottomPattern64 (diff : float64) : Pattern64 :=
  { Name := "Double Bottom"
    Type_ := "bullish"
    Confidence := (float64.lit 0.8).mul ((float64.lit 1).sub diff)
    Description := "Reversal pattern menunjukkan support kuat"
    Breakout := false }

/-- Go `detectDoubleBottom` in `float64`. -/
def detectDoubleBottom64 (candles : List Candle) : Pattern64 :=
  if candles.length < 15 then sentinel64
  else
    let recent := trailing 15 candles
    let troughs := lowTroughs64 recent
    if troughs.length < 2 then sentinel64
    else
      match scanPairs64 troughs with
      | some diff => doubleBottomPattern64 diff
      | none => sentinel64

/-- The four running sums of `calculateSlope` in `float64`. -/
structure SlopeSums64 where
  sumX : float64
  sumY : float64
  sumXY : float64
  sumX2 : float64
deriving DecidableEq

/-- The loop of `calculateSlope`, started at index `i` with the sums `s`. -/
def slopeLoop64 (useHigh : Bool) : List Candle → Nat → SlopeSums64 → SlopeSums64
  | [], _, s => s
  | candle :: rest, i, s =>
    let x : float64 := float64.ofInt (i : Int)
    let y : float64 := if useHigh then InexactFloat64 candle.High else InexactFloat64 candle.Low
    slopeLoop64 useHigh rest (i + 1)
      { sumX := s.sumX.add x, sumY := s.sumY.add y, sumXY := s.sumXY.add (x.mul y),
        sumX2 := s.sumX2.add (x.mul x) }

/-- Go `calculateSlope` in `float64`. -/
def calculateSlope64 (candles : List Candle) (useHigh : Bool) : float64 :=
  let n : float64 := float64.ofInt (candles.length : Int)
  let s := slopeLoop64 useHigh candles 0 ⟨.finite 0, .finite 0, .finite 0, .finite 0⟩
  ((n.mul s.sumXY).sub (s.sumX.mul s.sumY)).div ((n.mul s.sumX2).sub (s.sumX.mul s.sumX))

/-- The pattern returned by `detectAscendingTriangle` when it fires. -/
def ascendingTrianglePattern64 (lowSlope : float64) : Pattern64 :=
  { Name := "Ascending Triangle"
    Type_ := "bullish"
    Confidence :=
      ((float64.lit 0.6).add
        (((float64.lit 0.4).mul (lowSlope.abs.min (float64.lit 0.01))).div (float64.lit 0.01))).min
        (float64.lit 0.9)
    Description := "Continuation pattern, bias bullish breakout"
    Breakout := false }

/-- Go `detectAscendingTriangle` in `float64`. -/
def detectAscendingTriangle64 (candles : List Candle) : Pattern64 :=
  if candles.length < 10 then sentinel64
  else
    let recent := trailing 10 candles
    let highSlope := calculateSlope64 recent true
    let lowSlope := calculateSlope64 recent false
    if highSlope.lt (float64.lit 0.001) && lowSlope.gt (float64.lit 0.001) then
      ascendingTrianglePattern64 lowSlope
    else sentinel64

/-- The pattern returned by `detectDescendingTriangle` when it fires. -/
def descendingTrianglePattern64 (highSlope : float64) : Pattern64 :=
  { Name := "Descending Triangle"
    Type_ := "bearish"
    Confidence :=
      ((float64.lit 0.6).add
        (((float64.lit 0.4).mul (highSlope.abs.min (float64.lit 0.01))).div (float64.lit 0.01))).min
        (float64.lit 0.9)
    Description := "Continuation pattern, bias bearish breakout"
    Breakout := false }

/-- Go `detectDescendingTriangle` in `float64`. -/
def detectDescendingTriangle64 (candles : List Candle) : Pattern64 :=
  if candles.length < 10 then sentinel64
  else
    let recent := trailing 10 candles
    let highSlope := calculateSlope64 recent true
    let lowSlope := calculateSlope64 recent false
    if lowSlope.gt (float64.lit (-0.001)) && highSlope.lt (float64.lit (-0.001)) then
      descendingTrianglePattern64 highSlope
    else sentinel64

/-- The pattern returned by `detectSymmetricalTriangle` when it fires. -/
def symmetricalTrianglePattern64 (highSlope lowSlope : float64) : Pattern64 :=
  { Name := "Symmetrical Triangle"
    Type_ := "continuation"
    Confidence :=
      ((float64.lit 0.5).add
        (((float64.lit 0.5).mul ((highSlope.abs.add lowSlope.abs).min (float64.lit 0.02))).div
          (float64.lit 0.02))).min (float64.lit 0.85)
    Description := "Consolidation pattern, breakout menentukan arah"
    Breakout := false }

/-- Go `detectSymmetricalTriangle` in `float64`. -/
def detectSymmetricalTriangle64 (candles : List Candle) : Pattern64 :=
  if candles.length < 10 then sentinel64
  else
    let recent := trailing 10 candles
    let highSlope := calculateSlope64 recent true
    let lowSlope := calculateSlope64 recent false
    if highSlope.lt (float64.lit (-0.001)) && lowSlope.gt (float64.lit 0.001) &&
        ((highSlope.sub lowSlope).abs).lt (float64.lit 0.002) then
      symmetricalTrianglePattern64 highSlope lowSlope
    else sentinel64

/-- One block `if p := detect(candles); p.Confidence > 0 { patterns = append(patterns, p) }`. -/
def appendIfDetected64 (patterns : List Pattern64) (p : Pattern64) : List Pattern64 :=
  if p.Confidence.gt (.finite 0) then patterns ++ [p] else patterns

/-- The slice `patterns` of `detectPatterns` before it is sorted. -/
def collectPatterns64 (candles : List Candle) : List Pattern64 :=
  let patterns : List Pattern64 := []
  let patterns := appendIfDetected64 patterns (detectHeadAndShoulders64 candles)
  let patterns := appendIfDetected64 patterns (detectInverseHeadAndShoulders64 candles)
  let patterns := appendIfDetected64 patterns (detectDoubleTop64 candles)
  let patterns := appendIfDetected64 patterns (detectDoubleBottom64 candles)
  let patterns := appendIfDetected64 patterns (detectAscendingTriangle64 candles)
  let patterns := appendIfDetected64 patterns (detectDescendingTriangle64 candles)
  let patterns := appendIfDetected64 patterns (detectSymmetricalTriangle64 candles)
  patterns

/-- The comparison closure handed to `sort.Slice` in `detectPatterns`. -/
def confidenceLess64 (a b : Pattern64) : Bool := a.Confidence.gt b.Confidence

/-- Go `detectPatterns` in `float64`, with the library sort as first argument. -/
def detectPatterns64
    (sortSlice : (Pattern64 → Pattern64 → Bool) → List Pattern64 → List Pattern64)
    (candles : List Candle) : List Pattern64 :=
  sortSlice confidenceLess64 (collectPatterns64 candles)

/-- The outputs of the seven detectors in evaluation order, in `float64`. -/
def detectorOutputs64 (candles : List Candle) : List Pattern64 :=
  [detectHeadAndShoulders64 candles, detectInverseHeadAndShoulders64 candles,
   detectDoubleTop64 candles, detectDoubleBottom64 candles,
   detectAscendingTriangle64 candles, detectDescendingTriangle64 candles,
   detectSymmetricalTriangle64 candles]

/-- The test the head-and-shoulders scan applies to three consecutive swing
highs, as `float64` values: the head is above both shoulders, and the
`float64` quotient `|left - right| / max(left, right)` is at most the
`float64` constant `0.03`. -/
def qualifyingTriple64 (left head right : float64) : Prop :=
  head.gt left = true ∧ head.gt right = true ∧
    (relDiff64 left right).le (float64.lit 0.03) = true

instance (left head right : float64) : Decidable (qualifyingTriple64 left head right) := by
  unfold qualifyingTriple64
  infer_instance

/-- The test the double detectors apply to two swing prices, as `float64`
values: the `float64` quotient `|a - b| / max(a, b)` is at most the `float64`
constant `0.02`. -/
def closePair64 (a b : float64) : Prop := (relDiff64 a b).le (float64.lit 0.02) = true

instance (a b : float64) : Decidable (closePair64 a b) := by
  unfold closePair64
  infer_instance

/-! ## Sample inputs -/

/-- A bar that opens at its low and closes at its high. -/
def bar (time : Int) (high low : ℚ) : Candle :=
  { Time := time, Open := low, High := high, Low := low, Close := high, Volume := 1 }

/-- One-minute bars with the given `(high, low)` prices. -/
def barsOf (prices : List (ℚ × ℚ)) : List Candle :=
  List.zipWith (fun i hl => bar (60 * (i : Int)) hl.1 hl.2) (List.range prices.length) prices

/-- 23 bars: swing highs 100, 200 and 300 (twice each), swing lows 10 (three
times), 20 and 30 (twice each): six qualifying clusters. -/
def sixLevelBars : List Candle := barsOf
  [(50, 40), (50, 40), (100, 10), (50, 40), (50, 40), (200, 20), (50, 40), (50, 40),
   (300, 30), (50, 40), (50, 40), (100, 10), (50, 40), (50, 40), (200, 20), (50, 40),
   (50, 40), (300, 30), (50, 40), (50, 40), (50, 10), (50, 40), (50, 40)]

/-- 20 bars on which four detectors fire: head and shoulders (peaks 10, 12,
10.1), double top (10.1 and 10), and, on the last ten bars with falling highs
and rising lows, the ascending and the descending triangle. -/
def richBars : List Candle := barsOf
  [(5, 4), (6, 4), (10, 4), (6, 4), (5, 4), (6, 4), (12, 4), (6, 4), (5, 4), (6, 4),
   (10.1, 1), (6, 1.5), (5, 2), (6, 2.5), (10, 3), (6, 3.5), (5, 4), (5, 4.5), (5, 4.6),
   (5, 4.7)]

/-- The last 14 bars of `richBars`: two swing highs within 2% of each other but
one bar too few for the double detectors. -/
def fourteenBars : List Candle := richBars.drop 6

/-- The last 9 bars of `richBars`. -/
def nineBars : List Candle := richBars.drop 11

/-- Ten bars of a converging triangle: highs fall by 1 per bar from 110, lows
rise by 1 per bar from 90. -/
def convergingBars : List Candle :=
  (List.range 10).map (fun i => bar (60 * (i : Int)) (110 - (i : ℚ)) (90 + (i : ℚ)))

/-- Ten bars whose highs rise by exactly 0.001 per bar from 260 and whose lows
rise by 1 per bar from 250. -/
def boundaryBars : List Candle :=
  (List.range 10).map (fun i => bar (60 * (i : Int)) (260 + (i : ℚ) / 1000) (250 + (i : ℚ)))

/-- Ten bars with a flat top at 260 and lows rising by 1 per bar from 250. -/
def flatTopBars : List Candle :=
  (List.range 10).map (fun i => bar (60 * (i : Int)) 260 (250 + (i : ℚ)))

/-- 15 bars with negative prices: swing highs -1 and -3. -/
def negativeBars : List Candle := barsOf
  [(-9, -10), (-9, -10), (-1, -10), (-9, -10), (-9, -10), (-9, -10), (-3, -10), (-9, -10),
   (-9, -10), (-9, -10), (-9, -10), (-9, -10), (-9, -10), (-9, -10), (-9, -10)]

/-- Three bars to stand before a window. -/
def earlierBars : List Candle := barsOf [(9, 1), (30, 2), (9, 1)]

/-- One other bar to stand before a window. -/
def otherEarlierBars : List Candle := barsOf [(7, 7)]

/-- 20 bars with a flat top at 20 and swing lows 10, 8 and 10.1: an inverse
head and shoulders. -/
def valleyBars : List Candle := barsOf
  [(20, 15), (20, 14), (20, 10), (20, 14), (20, 15), (20, 14), (20, 8), (20, 14), (20, 15),
   (20, 14), (20, 10.1), (20, 14), (20, 15), (20, 14), (20, 15), (20, 14), (20, 15), (20, 14),
   (20, 15), (20, 14)]

/-- Ten swing prices in two zones: five within 2% of 100, five within 2% of
150. -/
def twoZonePrices : List ℚ :=
  [100, 100.5, 100.3, 100.4, 100.2, 150, 150.5, 150.3, 150.4, 150.2]

/-- 32 bars whose swing highs are `twoZonePrices`, one every third bar over a
base high of 50, and whose lows are all 40 (no swing low). -/
def twoZoneBars : List Candle := barsOf
  [(50, 40), (50, 40), (100, 40), (50, 40), (50, 40), (100.5, 40), (50, 40), (50, 40),
   (100.3, 40), (50, 40), (50, 40), (100.4, 40), (50, 40), (50, 40), (100.2, 40), (50, 40),
   (50, 40), (150, 40), (50, 40), (50, 40), (150.5, 40), (50, 40), (50, 40), (150.3, 40),
   (50, 40), (50, 40), (150.4, 40), (50, 40), (50, 40), (150.2, 40), (50, 40), (50, 40)]

/-- Four prices that end in one cluster whose mean drifts away from the first. -/
def driftPrices : List ℚ := [100, 102, 103, 103.6]

/-- 15 bars with swing highs 100, 101.5 and 101.6: the first pair within 2% is
not the closest one. -/
def threePeakBars : List Candle := barsOf
  [(50, 40), (50, 40), (100, 40), (50, 40), (50, 40), (50, 40), (101.5, 40), (50, 40),
   (50, 40), (50, 40), (101.6, 40), (50, 40), (50, 40), (50, 40), (50, 40)]

/-- 20 bars with a swing high every third bar: six swing highs, the most a
window of 20 can hold. -/
def sixPeakBars : List Candle := barsOf
  [(50, 40), (50, 40), (100, 40), (50, 40), (50, 40), (110, 40), (50, 40), (50, 40),
   (120, 40), (50, 40), (50, 40), (130, 40), (50, 40), (50, 40), (140, 40), (50, 40),
   (50, 40), (150, 40), (50, 40), (50, 40)]

/-- The first 7 bars of `richBars`: one swing high, no swing low. -/
def sevenBars : List Candle := richBars.take 7

/-- 20 bars with swing highs 1, 2 and 0.97: the shoulders differ by exactly 3%
of the larger one. -/
def tieShoulderBars : List Candle := barsOf
  [(0.5, 0.4), (0.5, 0.4), (1, 0.4), (0.5, 0.4), (0.5, 0.4), (0.5, 0.4), (2, 0.4), (0.5, 0.4),
   (0.5, 0.4), (0.5, 0.4), (0.97, 0.4), (0.5, 0.4), (0.5, 0.4), (0.5, 0.4), (0.5, 0.4),
   (0.5, 0.4), (0.5, 0.4), (0.5, 0.4), (0.5, 0.4), (0.5, 0.4)]

/-- 15 bars with swing highs 1 and 0.98: they differ by exactly 2% of the
larger one. -/
def tiePeakBars : List Candle := barsOf
  [(0.5, 0.4), (0.5, 0.4), (1, 0.4), (0.5, 0.4), (0.5, 0.4), (0.5, 0.4), (0.98, 0.4), (0.5, 0.4),
   (0.5, 0.4), (0.5, 0.4), (0.5, 0.4), (0.5, 0.4), (0.5, 0.4), (0.5, 0.4), (0.5, 0.4)]

/-- Ten bars with prices of a few thousandths: the highs are 0.000004 with two
of 0.000005 and rise to 0.018338 on the last bar, the lows are 0.000001 and
rise to 0.018338 on the last bar. -/
def tieSlopeBars : List Candle := barsOf
  [(0.000004, 0.000001), (0.000004, 0.000001), (0.000005, 0.000001), (0.000004, 0.000001),
   (0.000005, 0.000001), (0.000004, 0.000001), (0.000004, 0.000001), (0.000004, 0.000001),
   (0.000004, 0.000001), (0.018338, 0.018338)]

/-- Four swing prices in two groups; the lower group spans exactly 2%. -/
def tiePrices : List ℚ := [1, 1.02, 2, 2.01]

/-- 14 bars whose swing highs are `tiePrices`, one every third bar over a base
high of 0.5, and whose lows are all 0.4 (no swing low). -/
def tieZoneBars : List Candle := barsOf
  [(0.5, 0.4), (0.5, 0.4), (1, 0.4), (0.5, 0.4), (0.5, 0.4), (1.02, 0.4), (0.5, 0.4),
   (0.5, 0.4), (2, 0.4), (0.5, 0.4), (0.5, 0.4), (2.01, 0.4), (0.5, 0.4), (0.5, 0.4)]

/-- 38 bars with a swing point every third bar: the swing highs are 100,
100.5, 150 and 150.5 over a base high of 50, the swing lows are 10, 15, 20 and
25, three times each, under a base low of 40. -/
def crowdedBars : List Candle := barsOf
  [(50, 40), (50, 40), (100, 10), (50, 40), (50, 40), (100.5, 10), (50, 40), (50, 40),
   (150, 10), (50, 40), (50, 40), (150.5, 15), (50, 40), (50, 40), (50, 15), (50, 40),
   (50, 40), (50, 15), (50, 40), (50, 40), (50, 20), (50, 40), (50, 40), (50, 20),
   (50, 40), (50, 40), (50, 20), (50, 40), (50, 40), (50, 25), (50, 40), (50, 40),
   (50, 25), (50, 40), (50, 40), (50, 25), (50, 40), (50, 40)]

/-! ## The library sort meets its contract -/

theorem insertBack_perm {α : Type} (less : α → α → Bool) (x : α) (l : List α) :
    (insertBack less x l).Perm (x :: l) := by
  induction l with
  | nil => exact List.Perm.refl _
  | cons y ys ih =>
    unfold insertBack
    split
    · exact (List.Perm.cons y ih).trans (List.Perm.swap x y ys)
    · exact List.Perm.refl _

theorem insertBack_foldl_perm {α : Type} (less : α → α → Bool) (data done : List α) :
    (data.foldl (fun done x => insertBack less x done) done).Perm (data.reverse ++ done) := by
  induction data generalizing done with
  | nil => simp
  | cons x xs ih =>
    simp only [List.foldl_cons, List.reverse_cons, List.append_assoc, List.singleton_append]
    exact (ih _).trans (List.Perm.append_left _ (insertBack_perm less x done))

theorem insertionSortLessFunc_perm {α : Type} (less : α → α → Bool) (data : List α) :
    (insertionSortLessFunc less data).Perm data := by
  unfold insertionSortLessFunc
  have h := insertBack_foldl_perm less data []
  simp only [List.append_nil] at h
  exact (List.reverse_perm _).trans (h.trans (List.reverse_perm _))

theorem insertBack_pairwise {α : Type} (less : α → α → Bool)
    (asym : ∀ a b, less a b = true → less b a = false)
    (negTrans : ∀ a b c, less a b = false → less b c = false → less a c = false)
    (x : α) (l : List α) (hl : l.Pairwise (fun a b => less a b = false)) :
    (insertBack less x l).Pairwise (fun a b => less a b = false) := by
  induction l with
  | nil => simp [insertBack]
  | cons y ys ih =>
    rw [List.pairwise_cons] at hl
    unfold insertBack
    split
    · rename_i hxy
      rw [List.pairwise_cons]
      refine ⟨?_, ih hl.2⟩
      intro z hz
      rcases List.mem_cons.mp ((insertBack_perm less x ys).mem_iff.mp hz) with rfl | hz
      · exact asym _ _ hxy
      · exact hl.1 z hz
    · rename_i hxy
      have hxy : less x y = false := by simpa using hxy
      rw [List.pairwise_cons]
      refine ⟨?_, List.pairwise_cons.mpr hl⟩
      intro z hz
      rcases List.mem_cons.mp hz with rfl | hz
      · exact hxy
      · exact negTrans _ _ _ hxy (hl.1 z hz)

theorem insertBack_foldl_pairwise {α : Type} (less : α → α → Bool)
    (asym : ∀ a b, less a b = true → less b a = false)
    (negTrans : ∀ a b c, less a b = false → less b c = false → less a c = false)
    (data done : List α) (hd : done.Pairwise (fun a b => less a b = false)) :
    (data.foldl (fun done x => insertBack less x done) done).Pairwise
      (fun a b => less a b = false) := by
  induction data generalizing done with
  | nil => simpa using hd
  | cons x xs ih =>
    simp only [List.foldl_cons]
    exact ih _ (insertBack_pairwise less asym negTrans x done hd)

/-- Go's insertion sort meets the contract of `sort.Slice` for every strict
weak order `less`. -/
theorem insertionSortLessFunc_contract {α : Type} (less : α → α → Bool)
    (asym : ∀ a b, less a b = true → less b a = false)
    (negTrans : ∀ a b c, less a b = false → less b c = false → less a c = false) :
    SortSliceContract insertionSortLessFunc less := by
  intro l
  refine ⟨insertionSortLessFunc_perm less l, ?_⟩
  unfold insertionSortLessFunc
  rw [List.pairwise_reverse]
  exact insertBack_foldl_pairwise less asym negTrans l [] List.Pairwise.nil

theorem insertionSort_strengthLess : SortSliceContract insertionSortLessFunc strengthLess := by
  apply insertionSortLessFunc_contract
  · intro a b h
    simp only [strengthLess, decide_eq_true_eq, decide_eq_false_iff_not] at h ⊢
    omega
  · intro a b c h₁ h₂
    simp only [strengthLess, decide_eq_false_iff_not] at h₁ h₂ ⊢
    omega

theorem insertionSort_confidenceLess :
    SortSliceContract insertionSortLessFunc confidenceLess := by
  apply insertionSortLessFunc_contract
  · intro a b h
    simp only [confidenceLess, decide_eq_true_eq, decide_eq_false_iff_not, gt_iff_lt,
      not_lt] at h ⊢
    exact le_of_lt h
  · intro a b c h₁ h₂
    simp only [confidenceLess, decide_eq_false_iff_not, gt_iff_lt, not_lt] at h₁ h₂ ⊢
    exact le_trans h₁ h₂

/-! ## What a detector can return -/

theorem scanHeadAndShoulders_cases (peaks : List (Nat × ℚ)) :
    scanHeadAndShoulders peaks = sentinel ∨
      ∃ d : ℚ, d ≤ 0.03 ∧ scanHeadAndShoulders peaks = headAndShouldersPattern d := by
  induction peaks with
  | nil => left; rfl
  | cons l rest ih =>
    unfold scanHeadAndShoulders
    split
    · split
      · split
        · split
          · rename_i d _ hd
            exact Or.inr ⟨d, hd, rfl⟩
          · exact ih
        · exact ih
      · exact ih
    · left; rfl

theorem scanInverseHeadAndShoulders_cases (troughs : List (Nat × ℚ)) :
    scanInverseHeadAndShoulders troughs = sentinel ∨
      ∃ d : ℚ, d ≤ 0.03 ∧
        scanInverseHeadAndShoulders troughs = inverseHeadAndShouldersPattern d := by
  induction troughs with
  | nil => left; rfl
  | cons l rest ih =>
    unfold scanInverseHeadAndShoulders
    split
    · split
      · split
        · split
          · rename_i d _ hd
            exact Or.inr ⟨d, hd, rfl⟩
          · exact ih
        · exact ih
      · exact ih
    · left; rfl

theorem detectHeadAndShoulders_cases (candles : List Candle) :
    detectHeadAndShoulders candles = sentinel ∨
      ∃ d : ℚ, d ≤ 0.03 ∧ detectHeadAndShoulders candles = headAndShouldersPattern d := by
  unfold detectHeadAndShoulders
  split
  · left; rfl
  · simp only
    split
    · left; rfl
    · exact scanHeadAndShoulders_cases _

theorem detectInverseHeadAndShoulders_cases (candles : List Candle) :
    detectInverseHeadAndShoulders candles = sentinel ∨
      ∃ d : ℚ, d ≤ 0.03 ∧
        detectInverseHeadAndShoulders candles = inverseHeadAndShouldersPattern d := by
  unfold detectInverseHeadAndShoulders
  split
  · left; rfl
  · simp only
    split
    · left; rfl
    · exact scanInverseHeadAndShoulders_cases _

theorem findPartner_some (first : Nat × ℚ) (l : List (Nat × ℚ)) (d : ℚ)
    (h : findPartner first l = some d) :
    d ≤ 0.02 ∧ ∃ second ∈ l, relDiff first.2 second.2 = some d := by
  induction l with
  | nil => simp [findPartner] at h
  | cons s rest ih =>
    unfold findPartner at h
    split at h
    · rename_i d' hd'
      split at h
      · rename_i hle
        cases h
        exact ⟨hle, s, List.mem_cons_self _ _, hd'⟩
      · obtain ⟨h1, t, ht, h2⟩ := ih h
        exact ⟨h1, t, List.mem_cons_of_mem _ ht, h2⟩
    · obtain ⟨h1, t, ht, h2⟩ := ih h
      exact ⟨h1, t, List.mem_cons_of_mem _ ht, h2⟩

theorem scanPairs_some (l : List (Nat × ℚ)) (d : ℚ) (h : scanPairs l = some d) :
    d ≤ 0.02 ∧ ∃ first ∈ l, ∃ second ∈ l, relDiff first.2 second.2 = some d := by
  induction l with
  | nil => simp [scanPairs] at h
  | cons f rest ih =>
    unfold scanPairs at h
    split at h
    · rename_i d' hd'
      cases h
      obtain ⟨h1, t, ht, h2⟩ := findPartner_some f rest _ hd'
      exact ⟨h1, f, List.mem_cons_self _ _, t, List.mem_cons_of_mem _ ht, h2⟩
    · obtain ⟨h1, a, ha, b, hb, h2⟩ := ih h
      exact ⟨h1, a, List.mem_cons_of_mem _ ha, b, List.mem_cons_of_mem _ hb, h2⟩

theorem detectDoubleTop_cases (candles : List Candle) :
    detectDoubleTop candles = sentinel ∨
      ∃ d : ℚ, scanPairs (highPeaks (trailing 15 candles)) = some d ∧
        detectDoubleTop candles = doubleTopPattern d := by
  unfold detectDoubleTop
  split
  · left; rfl
  · simp only
    split
    · left; rfl
    · split
      · rename_i d hd
        exact Or.inr ⟨d, hd, rfl⟩
      · left; rfl

theorem detectDoubleBottom_cases (candles : List Candle) :
    detectDoubleBottom candles = sentinel ∨
      ∃ d : ℚ, scanPairs (lowTroughs (trailing 15 candles)) = some d ∧
        detectDoubleBottom candles = doubleBottomPattern d := by
  unfold detectDoubleBottom
  split
  · left; rfl
  · simp only
    split
    · left; rfl
    · split
      · rename_i d hd
        exact Or.inr ⟨d, hd, rfl⟩
      · left; rfl

theorem detectAscendingTriangle_cases (candles : List Candle) :
    detectAscendingTriangle candles = sentinel ∨
      ∃ lowSlope : ℚ, detectAscendingTriangle candles = ascendingTrianglePattern lowSlope := by
  unfold detectAscendingTriangle
  split
  · left; rfl
  · simp only
    split
    · split
      · exact Or.inr ⟨_, rfl⟩
      · left; rfl
    · left; rfl

theorem detectDescendingTriangle_cases (candles : List Candle) :
    detectDescendingTriangle candles = sentinel ∨
      ∃ highSlope : ℚ,
        detectDescendingTriangle candles = descendingTrianglePattern highSlope := by
  unfold detectDescendingTriangle
  split
  · left; rfl
  · simp only
    split
    · split
      · exact Or.inr ⟨_, rfl⟩
      · left; rfl
    · left; rfl

theorem detectSymmetricalTriangle_cases (candles : List Candle) :
    detectSymmetricalTriangle candles = sentinel ∨
      ∃ highSlope lowSlope : ℚ,
        detectSymmetricalTriangle candles = symmetricalTrianglePattern highSlope lowSlope := by
  unfold detectSymmetricalTriangle
  split
  · left; rfl
  · simp only
    split
    · split
      · exact Or.inr ⟨_, _, rfl⟩
      · left; rfl
    · left; rfl

/-! ## Ranked levels -/

theorem detectSupportResistance_eq_take
    (sortSlice : (SupportResistance → SupportResistance → Bool) →
      List SupportResistance → List SupportResistance) (candles : List Candle) :
    detectSupportResistance sortSlice candles =
      (sortSlice strengthLess (collectLevels candles)).take 5 := by
  unfold detectSupportResistance
  simp only
  split
  · rfl
  · rename_i h
    exact (List.take_of_length_le (by omega)).symm

theorem detectSupportResistance_pairwise
    (sortSlice : (SupportResistance → SupportResistance → Bool) →
      List SupportResistance → List SupportResistance)
    (hsort : SortSliceContract sortSlice strengthLess) (candles : List Candle) :
    (detectSupportResistance sortSlice candles).Pairwise
      (fun a b => b.Strength ≤ a.Strength) := by
  rw [detectSupportResistance_eq_take]
  refine List.Pairwise.sublist (List.take_sublist _ _) ?_
  refine List.Pairwise.imp ?_ (hsort (collectLevels candles)).2
  intro a b h
  simpa [strengthLess] using h

/-- C1: for every candle sequence, and whatever order the library sort leaves
the levels in, `detectSupportResistance` returns at most 5 levels. -/
theorem detectSupportResistance_length_le_five
    (sortSlice : (SupportResistance → SupportResistance → Bool) →
      List SupportResistance → List SupportResistance) (candles : List Candle) :
    (detectSupportResistance sortSlice candles).length ≤ 5 := by
  rw [detectSupportResistance_eq_take, List.length_take]
  exact Nat.min_le_left _ _

/-- C2: for every candle sequence, the list returned by
`detectSupportResistance` is sorted non-increasing by `Strength`: for all
positions `i < j` of the result, `result[i].Strength ≥ result[j].Strength`
(for every sorting procedure that meets the contract of `sort.Slice`). -/
theorem detectSupportResistance_sorted_by_strength
    (sortSlice : (SupportResistance → SupportResistance → Bool) →
      List SupportResistance → List SupportResistance)
    (hsort : SortSliceContract sortSlice strengthLess) (candles : List Candle)
    (i j : Nat) (hij : i < j) (hj : j < (detectSupportResistance sortSlice candles).length) :
    ((detectSupportResistance sortSlice candles).get ⟨i, hij.trans hj⟩).Strength ≥
      ((detectSupportResistance sortSlice candles).get ⟨j, hj⟩).Strength :=
  List.pairwise_iff_get.mp (detectSupportResistance_pairwise sortSlice hsort candles)
    ⟨i, hij.trans hj⟩ ⟨j, hj⟩ hij

/-- Witness for C2 on `sixLevelBars`, sorted by Go's insertion sort: the
support level of strength 3 comes before the resistance level of strength 2. -/
theorem detectSupportResistance_sorted_by_strength_witness :
    SortSliceContract insertionSortLessFunc strengthLess ∧ (0 : Nat) < 1 ∧
    ((detectSupportResistance insertionSortLessFunc sixLevelBars).get
        ⟨0, by decide!⟩).Strength ≥
      ((detectSupportResistance insertionSortLessFunc sixLevelBars).get
        ⟨1, by decide!⟩).Strength :=
  ⟨insertionSort_strengthLess, by decide,
    detectSupportResistance_sorted_by_strength insertionSortLessFunc insertionSort_strengthLess
      sixLevelBars 0 1 (by decide) (by decide!)⟩

/-! ## Ranked patterns -/

theorem appendIfDetected_eq (patterns : List Pattern) (p : Pattern) :
    appendIfDetected patterns p =
      patterns ++ [p].filter (fun q => decide (q.Confidence > 0)) := by
  unfold appendIfDetected
  by_cases h : p.Confidence > 0
  · simp [h]
  · simp [h]

theorem collectPatterns_eq_filter (candles : List Candle) :
    collectPatterns candles =
      (detectorOutputs candles).filter (fun q => decide (q.Confidence > 0)) := by
  unfold collectPatterns detectorOutputs
  simp only [appendIfDetected_eq, List.nil_append]
  simp only [← List.filter_append]
  rfl

theorem detectPatterns_perm
    (sortSlice : (Pattern → Pattern → Bool) → List Pattern → List Pattern)
    (hsort : SortSliceContract sortSlice confidenceLess) (candles : List Candle) :
    (detectPatterns sortSlice candles).Perm
      ((detectorOutputs candles).filter (fun q => decide (q.Confidence > 0))) := by
  unfold detectPatterns
  rw [← collectPatterns_eq_filter]
  exact (hsort _).1

/-- C3: for every candle sequence, the list returned by `detectPatterns` is
sorted non-increasing by `Confidence`: for all positions `i < j` of the result,
`result[i].Confidence ≥ result[j].Confidence` (for every sorting procedure that
meets the contract of `sort.Slice`). -/
theorem detectPatterns_sorted_by_confidence
    (sortSlice : (Pattern → Pattern → Bool) → List Pattern → List Pattern)
    (hsort : SortSliceContract sortSlice confidenceLess) (candles : List Candle)
    (i j : Nat) (hij : i < j) (hj : j < (detectPatterns sortSlice candles).length) :
    ((detectPatterns sortSlice candles).get ⟨i, hij.trans hj⟩).Confidence ≥
      ((detectPatterns sortSlice candles).get ⟨j, hj⟩).Confidence := by
  have hp : (detectPatterns sortSlice candles).Pairwise
      (fun a b => b.Confidence ≤ a.Confidence) := by
    unfold detectPatterns
    refine List.Pairwise.imp ?_ (hsort (collectPatterns candles)).2
    intro a b h
    simpa [confidenceLess] using h
  exact List.pairwise_iff_get.mp hp ⟨i, hij.trans hj⟩ ⟨j, hj⟩ hij

/-- Witness for C3 on `richBars`, sorted by Go's insertion sort: the ascending
triangle (0.9) was collected after the double top (80/101) and is returned
before it. -/
theorem detectPatterns_sorted_by_confidence_witness :
    SortSliceContract insertionSortLessFunc confidenceLess ∧ (1 : Nat) < 3 ∧
    ((detectPatterns insertionSortLessFunc richBars).get ⟨1, by decide!⟩).Confidence ≥
      ((detectPatterns insertionSortLessFunc richBars).get ⟨3, by decide!⟩).Confidence :=
  ⟨insertionSort_confidenceLess, by decide,
    detectPatterns_sorted_by_confidence insertionSortLessFunc insertionSort_confidenceLess
      richBars 1 3 (by decide) (by decide!)⟩

theorem sentinel_confidence : sentinel.Confidence = 0 := rfl

theorem detectHeadAndShoulders_name (candles : List Candle)
    (h : (detectHeadAndShoulders candles).Confidence > 0) :
    (detectHeadAndShoulders candles).Name = "Head and Shoulders" := by
  rcases detectHeadAndShoulders_cases candles with hs | ⟨d, _, hd⟩
  · rw [hs, sentinel_confidence] at h; exact absurd h (lt_irrefl _)
  · rw [hd]; rfl

theorem detectInverseHeadAndShoulders_name (candles : List Candle)
    (h : (detectInverseHeadAndShoulders candles).Confidence > 0) :
    (detectInverseHeadAndShoulders candles).Name = "Inverse Head and Shoulders" := by
  rcases detectInverseHeadAndShoulders_cases candles with hs | ⟨d, _, hd⟩
  · rw [hs, sentinel_confidence] at h; exact absurd h (lt_irrefl _)
  · rw [hd]; rfl

theorem detectDoubleTop_name (candles : List Candle)
    (h : (detectDoubleTop candles).Confidence > 0) :
    (detectDoubleTop candles).Name = "Double Top" := by
  rcases detectDoubleTop_cases candles with hs | ⟨d, _, hd⟩
  · rw [hs, sentinel_confidence] at h; exact absurd h (lt_irrefl _)
  · rw [hd]; rfl

theorem detectDoubleBottom_name (candles : List Candle)
    (h : (detectDoubleBottom candles).Confidence > 0) :
    (detectDoubleBottom candles).Name = "Double Bottom" := by
  rcases detectDoubleBottom_cases candles with hs | ⟨d, _, hd⟩
  · rw [hs, sentinel_confidence] at h; exact absurd h (lt_irrefl _)
  · rw [hd]; rfl

theorem detectAscendingTriangle_name (candles : List Candle)
    (h : (detectAscendingTriangle candles).Confidence > 0) :
    (detectAscendingTriangle candles).Name = "Ascending Triangle" := by
  rcases detectAscendingTriangle_cases candles with hs | ⟨d, hd⟩
  · rw [hs, sentinel_confidence] at h; exact absurd h (lt_irrefl _)
  · rw [hd]; rfl

theorem detectDescendingTriangle_name (candles : List Candle)
    (h : (detectDescendingTriangle candles).Confidence > 0) :
    (detectDescendingTriangle candles).Name = "Descending Triangle" := by
  rcases detectDescendingTriangle_cases candles with hs | ⟨d, hd⟩
  · rw [hs, sentinel_confidence] at h; exact absurd h (lt_irrefl _)
  · rw [hd]; rfl

theorem detectSymmetricalTriangle_name (candles : List Candle)
    (h : (detectSymmetricalTriangle candles).Confidence > 0) :
    (detectSymmetricalTriangle candles).Name = "Symmetrical Triangle" := by
  rcases detectSymmetricalTriangle_cases candles with hs | ⟨d, e, hd⟩
  · rw [hs, sentinel_confidence] at h; exact absurd h (lt_irrefl _)
  · rw [hd]; rfl

theorem names_of_detected_sublist (ps : List Pattern) (ns : List String)
    (h : List.Forall₂ (fun p n => p.Confidence > 0 → p.Name = n) ps ns) :
    ((ps.filter (fun q => decide (q.Confidence > 0))).map Pattern.Name).Sublist ns := by
  induction h with
  | nil => exact List.Sublist.slnil
  | @cons p n ps ns hpn _ ih =>
    by_cases hp : p.Confidence > 0
    · rw [List.filter_cons_of_pos (by simpa using hp), List.map_cons, hpn hp]
      exact List.Sublist.cons₂ _ ih
    · rw [List.filter_cons_of_neg (by simpa using hp)]
      exact List.Sublist.cons _ ih

theorem collectPatterns_names_sublist (candles : List Candle) :
    ((collectPatterns candles).map Pattern.Name).Sublist
      ["Head and Shoulders", "Inverse Head and Shoulders", "Double Top", "Double Bottom",
        "Ascending Triangle", "Descending Triangle", "Symmetrical Triangle"] := by
  rw [collectPatterns_eq_filter]
  apply names_of_detected_sublist
  unfold detectorOutputs
  exact List.Forall₂.cons (detectHeadAndShoulders_name candles)
    (List.Forall₂.cons (detectInverseHeadAndShoulders_name candles)
    (List.Forall₂.cons (detectDoubleTop_name candles)
    (List.Forall₂.cons (detectDoubleBottom_name candles)
    (List.Forall₂.cons (detectAscendingTriangle_name candles)
    (List.Forall₂.cons (detectDescendingTriangle_name candles)
    (List.Forall₂.cons (detectSymmetricalTriangle_name candles) List.Forall₂.nil))))))

/-- C4: for every candle sequence, no two elements of the list returned by
`detectPatterns` have the same `Name`, and the list has at most 7 elements (for
every sorting procedure that meets the contract of `sort.Slice`). -/
theorem detectPatterns_names_nodup
    (sortSlice : (Pattern → Pattern → Bool) → List Pattern → List Pattern)
    (hsort : SortSliceContract sortSlice confidenceLess) (candles : List Candle) :
    ((detectPatterns sortSlice candles).map Pattern.Name).Nodup ∧
      (detectPatterns sortSlice candles).length ≤ 7 := by
  have hperm : (detectPatterns sortSlice candles).Perm (collectPatterns candles) :=
    (hsort _).1
  have hsub := collectPatterns_names_sublist candles
  constructor
  · refine ((hperm.map Pattern.Name).nodup_iff).mpr (List.Nodup.sublist hsub ?_)
    decide
  · have := hsub.length_le
    rw [hperm.length_eq]
    simpa using this

/-- Witness for C4 on `richBars`, where four detectors fire. -/
theorem detectPatterns_names_nodup_witness :
    SortSliceContract insertionSortLessFunc confidenceLess ∧
    ((detectPatterns insertionSortLessFunc richBars).map Pattern.Name).Nodup ∧
      (detectPatterns insertionSortLessFunc richBars).length ≤ 7 :=
  ⟨insertionSort_confidenceLess,
    detectPatterns_names_nodup insertionSortLessFunc insertionSort_confidenceLess richBars⟩

/-- C5: for every candle sequence, the list returned by `detectPatterns` is a
permutation of exactly those outputs of the seven detectors whose `Confidence`
is `> 0`: no element of the result has `Confidence ≤ 0` and every detector
output of positive confidence is in the result (for every sorting procedure
that meets the contract of `sort.Slice`). -/
theorem detectPatterns_perm_detected
    (sortSlice : (Pattern → Pattern → Bool) → List Pattern → List Pattern)
    (hsort : SortSliceContract sortSlice confidenceLess) (candles : List Candle) :
    (detectPatterns sortSlice candles).Perm
        ((detectorOutputs candles).filter (fun q => decide (q.Confidence > 0))) ∧
      (∀ p ∈ detectPatterns sortSlice candles, p.Confidence > 0) ∧
      (∀ p ∈ detectorOutputs candles, p.Confidence > 0 →
        p ∈ detectPatterns sortSlice candles) := by
  have hperm := detectPatterns_perm sortSlice hsort candles
  refine ⟨hperm, ?_, ?_⟩
  · intro p hp
    have := (List.mem_filter.mp (hperm.mem_iff.mp hp)).2
    simpa using this
  · intro p hp hpos
    exact hperm.mem_iff.mpr (List.mem_filter.mpr ⟨hp, by simpa using hpos⟩)

/-- Witness for C5 on `richBars`: four of the seven outputs are kept. -/
theorem detectPatterns_perm_detected_witness :
    SortSliceContract insertionSortLessFunc confidenceLess ∧
    (detectPatterns insertionSortLessFunc richBars).Perm
        ((detectorOutputs richBars).filter (fun q => decide (q.Confidence > 0))) ∧
      (∀ p ∈ detectPatterns insertionSortLessFunc richBars, p.Confidence > 0) ∧
      (∀ p ∈ detectorOutputs richBars, p.Confidence > 0 →
        p ∈ detectPatterns insertionSortLessFunc richBars) :=
  ⟨insertionSort_confidenceLess,
    detectPatterns_perm_detected insertionSortLessFunc insertionSort_confidenceLess richBars⟩

/-- C6: a candle sequence shorter than a detector's minimum window makes that
detector return the sentinel `Pattern{Confidence: 0}` whatever the prices:
fewer than 20 candles for the two head-and-shoulders detectors, fewer than 15
for the two double detectors, fewer than 10 for the three triangle detectors;
and `detectPatterns` returns the empty list for fewer than 10 candles (for
every sorting procedure that meets the contract of `sort.Slice`). -/
theorem short_window_gives_sentinel (candles : List Candle) :
    (candles.length < 20 →
      detectHeadAndShoulders candles = sentinel ∧
        detectInverseHeadAndShoulders candles = sentinel) ∧
    (candles.length < 15 →
      detectDoubleTop candles = sentinel ∧ detectDoubleBottom candles = sentinel) ∧
    (candles.length < 10 →
      detectAscendingTriangle candles = sentinel ∧
        detectDescendingTriangle candles = sentinel ∧
        detectSymmetricalTriangle candles = sentinel) ∧
    (candles.length < 10 →
      ∀ sortSlice : (Pattern → Pattern → Bool) → List Pattern → List Pattern,
        SortSliceContract sortSlice confidenceLess → detectPatterns sortSlice candles = []) := by
  have h20 : candles.length < 20 →
      detectHeadAndShoulders candles = sentinel ∧
        detectInverseHeadAndShoulders candles = sentinel := by
    intro h
    exact ⟨by unfold detectHeadAndShoulders; rw [if_pos h],
      by unfold detectInverseHeadAndShoulders; rw [if_pos h]⟩
  have h15 : candles.length < 15 →
      detectDoubleTop candles = sentinel ∧ detectDoubleBottom candles = sentinel := by
    intro h
    exact ⟨by unfold detectDoubleTop; rw [if_pos h],
      by unfold detectDoubleBottom; rw [if_pos h]⟩
  have h10 : candles.length < 10 →
      detectAscendingTriangle candles = sentinel ∧
        detectDescendingTriangle candles = sentinel ∧
        detectSymmetricalTriangle candles = sentinel := by
    intro h
    exact ⟨by unfold detectAscendingTriangle; rw [if_pos h],
      by unfold detectDescendingTriangle; rw [if_pos h],
      by unfold detectSymmetricalTriangle; rw [if_pos h]⟩
  refine ⟨h20, h15, h10, ?_⟩
  intro h sortSlice hsort
  have hc : collectPatterns candles = [] := by
    unfold collectPatterns
    rw [(h20 (by omega)).1, (h20 (by omega)).2, (h15 (by omega)).1, (h15 (by omega)).2,
      (h10 h).1, (h10 h).2.1, (h10 h).2.2]
    rfl
  have hperm : (detectPatterns sortSlice candles).Perm (collectPatterns candles) :=
    (hsort (collectPatterns candles)).1
  rw [hc] at hperm
  exact List.Perm.eq_nil hperm

/-- Witness for C6: `fourteenBars` has two swing highs within 2% of each other
and still gets the sentinel from both double detectors; `nineBars` gets the
sentinel from every detector and the empty list from `detectPatterns`. -/
theorem short_window_gives_sentinel_witness :
    (fourteenBars.length < 15 ∧
      detectDoubleTop fourteenBars = sentinel ∧ detectDoubleBottom fourteenBars = sentinel) ∧
    (nineBars.length < 20 ∧
      detectHeadAndShoulders nineBars = sentinel ∧
        detectInverseHeadAndShoulders nineBars = sentinel) ∧
    (nineBars.length < 10 ∧
      detectAscendingTriangle nineBars = sentinel ∧
        detectDescendingTriangle nineBars = sentinel ∧
        detectSymmetricalTriangle nineBars = sentinel) ∧
    (SortSliceContract insertionSortLessFunc confidenceLess ∧
      detectPatterns insertionSortLessFunc nineBars = []) :=
  ⟨⟨by decide, (short_window_gives_sentinel fourteenBars).2.1 (by decide)⟩,
    ⟨by decide, (short_window_gives_sentinel nineBars).1 (by decide)⟩,
    ⟨by decide, (short_window_gives_sentinel nineBars).2.2.1 (by decide)⟩,
    ⟨insertionSort_confidenceLess,
      (short_window_gives_sentinel nineBars).2.2.2 (by decide) insertionSortLessFunc
        insertionSort_confidenceLess⟩⟩

/-- C7, evaluated on `convergingBars` (highs falling by 1 per bar, lows rising
by 1 per bar): the high slope is -1 and the low slope is 1, and both
`detectAscendingTriangle` and `detectDescendingTriangle` return a pattern of
confidence 0.9, so two triangle detectors fire on one input. -/
theorem ascending_and_descending_both_fire :
    calculateSlope (trailing 10 convergingBars) true = some (-1) ∧
    calculateSlope (trailing 10 convergingBars) false = some 1 ∧
    (detectAscendingTriangle convergingBars).Confidence = 0.9 ∧
    (detectDescendingTriangle convergingBars).Confidence = 0.9 ∧
    (detectPatterns insertionSortLessFunc convergingBars).map Pattern.Name =
      ["Ascending Triangle", "Descending Triangle"] := by
  decide!

/-! ## The ascending triangle -/

theorem ascendingTrianglePattern_confidence (lowSlope : ℚ) :
    0.6 ≤ (ascendingTrianglePattern lowSlope).Confidence ∧
      (ascendingTrianglePattern lowSlope).Confidence ≤ 0.9 := by
  have h0 : (0 : ℚ) ≤ min |lowSlope| 0.01 := le_min (abs_nonneg _) (by norm_num)
  constructor
  · apply le_min
    · have : (0 : ℚ) ≤ 0.4 * min |lowSlope| 0.01 / 0.01 := by positivity
      linarith
    · norm_num
  · exact min_le_right _ _

/-! ## Confidence bounds -/

theorem highAt_nonneg (candles : List Candle) (h : ∀ c ∈ candles, 0 ≤ c.High) (i : Nat) :
    0 ≤ highAt candles i := by
  unfold highAt
  by_cases hi : i < candles.length
  · rw [List.getD_eq_getElem _ _ hi]
    exact h _ (List.getElem_mem hi)
  · rw [List.getD_eq_default _ _ (by omega)]
    exact le_refl _

theorem lowAt_nonneg (candles : List Candle) (h : ∀ c ∈ candles, 0 ≤ c.Low) (i : Nat) :
    0 ≤ lowAt candles i := by
  unfold lowAt
  by_cases hi : i < candles.length
  · rw [List.getD_eq_getElem _ _ hi]
    exact h _ (List.getElem_mem hi)
  · rw [List.getD_eq_default _ _ (by omega)]
    exact le_refl _

theorem highPeaks_nonneg (candles : List Candle) (h : ∀ c ∈ candles, 0 ≤ c.High) :
    ∀ pk ∈ highPeaks candles, 0 ≤ pk.2 := by
  intro pk hpk
  unfold highPeaks at hpk
  obtain ⟨i, _, rfl⟩ := List.mem_map.mp hpk
  exact highAt_nonneg candles h i

theorem lowTroughs_nonneg (candles : List Candle) (h : ∀ c ∈ candles, 0 ≤ c.Low) :
    ∀ tr ∈ lowTroughs candles, 0 ≤ tr.2 := by
  intro tr htr
  unfold lowTroughs at htr
  obtain ⟨i, _, rfl⟩ := List.mem_map.mp htr
  exact lowAt_nonneg candles h i

theorem relDiff_nonneg (a b d : ℚ) (h : relDiff a b = some d) (ha : 0 ≤ a) (_hb : 0 ≤ b) :
    0 ≤ d := by
  unfold relDiff at h
  split at h
  · cases h
  · cases h
    exact div_nonneg (abs_nonneg _) (le_trans ha (le_max_left _ _))

theorem scanPairs_nonneg (l : List (Nat × ℚ)) (hl : ∀ pt ∈ l, 0 ≤ pt.2) (d : ℚ)
    (h : scanPairs l = some d) : 0 ≤ d ∧ d ≤ 0.02 := by
  obtain ⟨hle, a, ha, b, hb, hab⟩ := scanPairs_some l d h
  exact ⟨relDiff_nonneg _ _ _ hab (hl a ha) (hl b hb), hle⟩

theorem headAndShouldersPattern_confidence (d : ℚ) (hd : d ≤ 0.03) :
    0 < (headAndShouldersPattern d).Confidence ∧ (headAndShouldersPattern d).Confidence ≤ 1 := by
  constructor
  · apply lt_min
    · linarith
    · norm_num
  · exact le_trans (min_le_right _ _) (by norm_num)

theorem inverseHeadAndShouldersPattern_confidence (d : ℚ) (hd : d ≤ 0.03) :
    0 < (inverseHeadAndShouldersPattern d).Confidence ∧
      (inverseHeadAndShouldersPattern d).Confidence ≤ 1 := by
  constructor
  · apply lt_min
    · linarith
    · norm_num
  · exact le_trans (min_le_right _ _) (by norm_num)

theorem doubleTopPattern_confidence (d : ℚ) (hd : 0 ≤ d ∧ d ≤ 0.02) :
    0 < (doubleTopPattern d).Confidence ∧ (doubleTopPattern d).Confidence ≤ 1 := by
  obtain ⟨h0, h1⟩ := hd
  have : (doubleTopPattern d).Confidence = 0.8 * (1 - d) := rfl
  rw [this]
  constructor <;> linarith

theorem doubleBottomPattern_confidence (d : ℚ) (hd : 0 ≤ d ∧ d ≤ 0.02) :
    0 < (doubleBottomPattern d).Confidence ∧ (doubleBottomPattern d).Confidence ≤ 1 := by
  obtain ⟨h0, h1⟩ := hd
  have : (doubleBottomPattern d).Confidence = 0.8 * (1 - d) := rfl
  rw [this]
  constructor <;> linarith

theorem descendingTrianglePattern_confidence (highSlope : ℚ) :
    0.6 ≤ (descendingTrianglePattern highSlope).Confidence ∧
      (descendingTrianglePattern highSlope).Confidence ≤ 0.9 := by
  have h0 : (0 : ℚ) ≤ min |highSlope| 0.01 := le_min (abs_nonneg _) (by norm_num)
  constructor
  · apply le_min
    · have : (0 : ℚ) ≤ 0.4 * min |highSlope| 0.01 / 0.01 := by positivity
      linarith
    · norm_num
  · exact min_le_right _ _

theorem symmetricalTrianglePattern_confidence (highSlope lowSlope : ℚ) :
    0.5 ≤ (symmetricalTrianglePattern highSlope lowSlope).Confidence ∧
      (symmetricalTrianglePattern highSlope lowSlope).Confidence ≤ 0.85 := by
  have h0 : (0 : ℚ) ≤ min (|highSlope| + |lowSlope|) 0.02 :=
    le_min (add_nonneg (abs_nonneg _) (abs_nonneg _)) (by norm_num)
  constructor
  · apply le_min
    · have : (0 : ℚ) ≤ 0.5 * min (|highSlope| + |lowSlope|) 0.02 / 0.02 := by positivity
      linarith
    · norm_num
  · exact min_le_right _ _

theorem sentinel_in_unit_interval : 0 ≤ sentinel.Confidence ∧ sentinel.Confidence ≤ 1 := by
  rw [sentinel_confidence]
  exact ⟨le_refl _, zero_le_one⟩

theorem trailing_subset (k : Nat) (candles : List Candle) :
    ∀ c ∈ trailing k candles, c ∈ candles :=
  fun _ hc => List.mem_of_mem_drop hc

/-- C9: for every well-formed candle sequence (every candle has
`High ≥ Low ≥ 0`), each of the seven detectors returns a pattern whose
`Confidence` lies in `[0, 1]`, and every pattern returned by `detectPatterns`
has `Confidence` in `(0, 1]` (for every sorting procedure that meets the
contract of `sort.Slice`). -/
theorem confidence_in_unit_interval (candles : List Candle)
    (wf : ∀ c ∈ candles, c.High ≥ c.Low ∧ c.Low ≥ 0) :
    (∀ p ∈ detectorOutputs candles, 0 ≤ p.Confidence ∧ p.Confidence ≤ 1) ∧
    (∀ sortSlice : (Pattern → Pattern → Bool) → List Pattern → List Pattern,
      SortSliceContract sortSlice confidenceLess →
        ∀ p ∈ detectPatterns sortSlice candles, 0 < p.Confidence ∧ p.Confidence ≤ 1) := by
  have hlow : ∀ c ∈ trailing 15 candles, 0 ≤ c.Low :=
    fun c hc => (wf c (trailing_subset 15 candles c hc)).2
  have hhigh : ∀ c ∈ trailing 15 candles, 0 ≤ c.High :=
    fun c hc => le_trans (hlow c hc) (wf c (trailing_subset 15 candles c hc)).1
  have hall : ∀ p ∈ detectorOutputs candles, 0 ≤ p.Confidence ∧ p.Confidence ≤ 1 := by
    intro p hp
    unfold detectorOutputs at hp
    simp only [List.mem_cons, List.mem_singleton, List.mem_nil_iff, or_false] at hp
    rcases hp with rfl | rfl | rfl | rfl | rfl | rfl | rfl
    · rcases detectHeadAndShoulders_cases candles with h | ⟨d, hd, h⟩
      · rw [h]; exact sentinel_in_unit_interval
      · rw [h]
        exact ⟨le_of_lt (headAndShouldersPattern_confidence d hd).1,
          (headAndShouldersPattern_confidence d hd).2⟩
    · rcases detectInverseHeadAndShoulders_cases candles with h | ⟨d, hd, h⟩
      · rw [h]; exact sentinel_in_unit_interval
      · rw [h]
        exact ⟨le_of_lt (inverseHeadAndShouldersPattern_confidence d hd).1,
          (inverseHeadAndShouldersPattern_confidence d hd).2⟩
    · rcases detectDoubleTop_cases candles with h | ⟨d, hd, h⟩
      · rw [h]; exact sentinel_in_unit_interval
      · rw [h]
        have hb := scanPairs_nonneg _ (highPeaks_nonneg _ hhigh) d hd
        exact ⟨le_of_lt (doubleTopPattern_confidence d hb).1,
          (doubleTopPattern_confidence d hb).2⟩
    · rcases detectDoubleBottom_cases candles with h | ⟨d, hd, h⟩
      · rw [h]; exact sentinel_in_unit_interval
      · rw [h]
        have hb := scanPairs_nonneg _ (lowTroughs_nonneg _ hlow) d hd
        exact ⟨le_of_lt (doubleBottomPattern_confidence d hb).1,
          (doubleBottomPattern_confidence d hb).2⟩
    · rcases detectAscendingTriangle_cases candles with h | ⟨s, h⟩
      · rw [h]; exact sentinel_in_unit_interval
      · rw [h]
        have hb := ascendingTrianglePattern_confidence s
        exact ⟨le_trans (by norm_num) hb.1, le_trans hb.2 (by norm_num)⟩
    · rcases detectDescendingTriangle_cases candles with h | ⟨s, h⟩
      · rw [h]; exact sentinel_in_unit_interval
      · rw [h]
        have hb := descendingTrianglePattern_confidence s
        exact ⟨le_trans (by norm_num) hb.1, le_trans hb.2 (by norm_num)⟩
    · rcases detectSymmetricalTriangle_cases candles with h | ⟨s, t, h⟩
      · rw [h]; exact sentinel_in_unit_interval
      · rw [h]
        have hb := symmetricalTrianglePattern_confidence s t
        exact ⟨le_trans (by norm_num) hb.1, le_trans hb.2 (by norm_num)⟩
  refine ⟨hall, ?_⟩
  intro sortSlice hsort p hp
  have hmem := List.mem_filter.mp ((detectPatterns_perm sortSlice hsort candles).mem_iff.mp hp)
  exact ⟨by simpa using hmem.2, (hall p hmem.1).2⟩

/-- Witness for C9 on `richBars`, which is well formed and on which four
detectors fire. -/
theorem confidence_in_unit_interval_witness :
    (∀ c ∈ richBars, c.High ≥ c.Low ∧ c.Low ≥ 0) ∧
    (∀ p ∈ detectorOutputs richBars, 0 ≤ p.Confidence ∧ p.Confidence ≤ 1) ∧
    (∀ sortSlice : (Pattern → Pattern → Bool) → List Pattern → List Pattern,
      SortSliceContract sortSlice confidenceLess →
        ∀ p ∈ detectPatterns sortSlice richBars, 0 < p.Confidence ∧ p.Confidence ≤ 1) :=
  ⟨by decide!, confidence_in_unit_interval richBars (by decide!)⟩

/-- Without the assumption of C9 the bound fails: on `negativeBars` the swing
highs are -1 and -3 and `detectDoubleTop` returns confidence 12/5. -/
theorem doubleTop_confidence_on_negative_prices :
    (detectDoubleTop negativeBars).Confidence = 12 / 5 := by
  decide!

/-! ## Clusters and the strongest levels -/

theorem placePrice_count (tolerance price : ℚ) (clusters : List cluster)
    (h : ∀ c ∈ clusters, c.Count = (c.Elements.length : Int)) :
    ∀ c ∈ placePrice tolerance price clusters, c.Count = (c.Elements.length : Int) := by
  induction clusters with
  | nil =>
    intro c hc
    simp only [placePrice, List.mem_singleton] at hc
    subst hc
    rfl
  | cons c₀ cs ih =>
    intro c hc
    unfold placePrice at hc
    split at hc
    · rcases List.mem_cons.mp hc with rfl | hc
      · rfl
      · exact h c (List.mem_cons_of_mem _ hc)
    · rcases List.mem_cons.mp hc with rfl | hc
      · exact h _ (List.mem_cons_self _ _)
      · exact ih (fun c hc => h c (List.mem_cons_of_mem _ hc)) c hc

theorem foldl_placePrice_count (tolerance : ℚ) (prices : List ℚ) (clusters : List cluster)
    (h : ∀ c ∈ clusters, c.Count = (c.Elements.length : Int)) :
    ∀ c ∈ prices.foldl (fun clusters price => placePrice tolerance price clusters) clusters,
      c.Count = (c.Elements.length : Int) := by
  induction prices generalizing clusters with
  | nil => simpa using h
  | cons p ps ih =>
    simp only [List.foldl_cons]
    exact ih _ (placePrice_count tolerance p clusters h)

theorem buildClusters_count (sorted : List ℚ) (tolerance : ℚ) :
    ∀ c ∈ buildClusters sorted tolerance, c.Count = (c.Elements.length : Int) :=
  foldl_placePrice_count tolerance sorted [] (fun _ h => absurd h (List.not_mem_nil _))

theorem clusterLevels_eq_filter (prices : List ℚ) (tolerance : ℚ) :
    clusterLevels prices tolerance =
      (buildClusters (prices.insertionSort (fun a b => a ≤ b)) tolerance).filter
        (fun c => decide (c.Count ≥ 2)) := by
  unfold clusterLevels
  split
  · rename_i h
    rw [List.length_eq_zero.mp h]
    rfl
  · rfl

theorem levels_of_clusterLevels (type_ : String) (prices : List ℚ) :
    ((clusterLevels prices 0.02).filter (fun c => decide (c.Count ≥ 2))).map (levelOf type_) =
      (qualifyingClusters prices).map (levelOfMembers type_) := by
  rw [clusterLevels_eq_filter, List.filter_filter]
  unfold qualifyingClusters
  have hinv := buildClusters_count (prices.insertionSort (fun a b => a ≤ b)) 0.02
  have hf : (buildClusters (prices.insertionSort (fun a b => a ≤ b)) 0.02).filter
      (fun c => decide (c.Count ≥ 2) && decide (c.Count ≥ 2)) =
      (buildClusters (prices.insertionSort (fun a b => a ≤ b)) 0.02).filter
        (fun c => decide (c.Elements.length ≥ 2)) := by
    apply List.filter_congr
    intro c hc
    rw [hinv c hc]
    simp
  rw [hf]
  apply List.map_congr_left
  intro c hc
  have := hinv c (List.mem_filter.mp hc).1
  simp [levelOf, levelOfMembers, this]

theorem collectLevels_eq_qualifyingLevels (candles : List Candle) :
    collectLevels candles = qualifyingLevels candles := by
  unfold collectLevels qualifyingLevels
  simp only
  rw [levels_of_clusterLevels, levels_of_clusterLevels]

/-- C10: for every candle sequence, with `q` the number of qualifying clusters
(swing-high and swing-low clusters with at least 2 members), the result of
`detectSupportResistance` has length `min 5 q`; the result together with some
list of dropped levels is a rearrangement of the levels of all qualifying
clusters, and every returned level has `Strength ≥` the strength (member
count) of every dropped one; when at most 5 clusters qualify nothing is
dropped, and when none qualifies the result is empty (for every sorting
procedure that meets the contract of `sort.Slice`). -/
theorem detectSupportResistance_keeps_strongest
    (sortSlice : (SupportResistance → SupportResistance → Bool) →
      List SupportResistance → List SupportResistance)
    (hsort : SortSliceContract sortSlice strengthLess) (candles : List Candle) :
    (detectSupportResistance sortSlice candles).length =
        min 5 (qualifyingLevels candles).length ∧
    (∃ dropped : List SupportResistance,
      (detectSupportResistance sortSlice candles ++ dropped).Perm (qualifyingLevels candles) ∧
        ∀ r ∈ detectSupportResistance sortSlice candles, ∀ d ∈ dropped,
          r.Strength ≥ d.Strength) ∧
    ((qualifyingLevels candles).length ≤ 5 →
      (detectSupportResistance sortSlice candles).Perm (qualifyingLevels candles)) ∧
    ((qualifyingLevels candles).length = 0 → detectSupportResistance sortSlice candles = []) := by
  obtain ⟨hperm', hpair⟩ := hsort (collectLevels candles)
  have hperm : (sortSlice strengthLess (collectLevels candles)).Perm
      (qualifyingLevels candles) := by
    rw [← collectLevels_eq_qualifyingLevels]
    exact hperm'
  have hlen : (detectSupportResistance sortSlice candles).length =
      min 5 (qualifyingLevels candles).length := by
    rw [detectSupportResistance_eq_take, List.length_take, hperm.length_eq]
  have hsmall : (qualifyingLevels candles).length ≤ 5 →
      (detectSupportResistance sortSlice candles).Perm (qualifyingLevels candles) := by
    intro h
    rw [detectSupportResistance_eq_take, List.take_of_length_le (by rw [hperm.length_eq]; exact h)]
    exact hperm
  refine ⟨hlen, ⟨(sortSlice strengthLess (collectLevels candles)).drop 5, ?_, ?_⟩, hsmall, ?_⟩
  · rw [detectSupportResistance_eq_take, List.take_append_drop]
    exact hperm
  · intro r hr d hd
    rw [detectSupportResistance_eq_take] at hr
    rw [← List.take_append_drop 5 (sortSlice strengthLess (collectLevels candles)),
      List.pairwise_append] at hpair
    have := hpair.2.2 r hr d hd
    simpa [strengthLess] using this
  · intro h
    apply List.eq_nil_of_length_eq_zero
    rw [hlen, h]
    rfl

/-- Witness for C10 on `sixLevelBars`, where six clusters qualify and five
levels are returned. -/
theorem detectSupportResistance_keeps_strongest_witness :
    SortSliceContract insertionSortLessFunc strengthLess ∧
    (qualifyingLevels sixLevelBars).length = 6 ∧
    (detectSupportResistance insertionSortLessFunc sixLevelBars).length =
        min 5 (qualifyingLevels sixLevelBars).length ∧
    (∃ dropped : List SupportResistance,
      (detectSupportResistance insertionSortLessFunc sixLevelBars ++ dropped).Perm
          (qualifyingLevels sixLevelBars) ∧
        ∀ r ∈ detectSupportResistance insertionSortLessFunc sixLevelBars, ∀ d ∈ dropped,
          r.Strength ≥ d.Strength) :=
  ⟨insertionSort_strengthLess, by decide!,
    (detectSupportResistance_keeps_strongest insertionSortLessFunc insertionSort_strengthLess
      sixLevelBars).1,
    (detectSupportResistance_keeps_strongest insertionSortLessFunc insertionSort_strengthLess
      sixLevelBars).2.1⟩

/-! ## The divisor of calculateSlope -/

theorem trailing_length (k : Nat) (candles : List Candle) (h : k ≤ candles.length) :
    (trailing k candles).length = k := by
  unfold trailing
  rw [List.length_drop]
  omega

theorem slopeLoop_sumX (useHigh : Bool) (candles : List Candle) (i : Nat) (s : SlopeSums) :
    (slopeLoop useHigh candles i s).sumX =
      s.sumX + (candles.length : ℚ) * i + (candles.length : ℚ) * ((candles.length : ℚ) - 1) / 2 := by
  induction candles generalizing i s with
  | nil => simp [slopeLoop]
  | cons c rest ih =>
    unfold slopeLoop
    simp only [ih, List.length_cons]
    push_cast
    ring

theorem slopeLoop_sumX2 (useHigh : Bool) (candles : List Candle) (i : Nat) (s : SlopeSums) :
    (slopeLoop useHigh candles i s).sumX2 =
      s.sumX2 + (candles.length : ℚ) * i * i +
        (i : ℚ) * (candles.length : ℚ) * ((candles.length : ℚ) - 1) +
        ((candles.length : ℚ) - 1) * (candles.length : ℚ) * (2 * (candles.length : ℚ) - 1) / 6 := by
  induction candles generalizing i s with
  | nil => simp [slopeLoop]
  | cons c rest ih =>
    unfold slopeLoop
    simp only [ih, List.length_cons]
    push_cast
    ring

/-- The divisor `n*sumX2 - sumX*sumX` of `calculateSlope` depends on the number
of candles only: it is `n²(n² - 1)/12`. -/
theorem slope_divisor (useHigh : Bool) (candles : List Candle) :
    (candles.length : ℚ) * (slopeLoop useHigh candles 0 ⟨0, 0, 0, 0⟩).sumX2 -
        (slopeLoop useHigh candles 0 ⟨0, 0, 0, 0⟩).sumX *
          (slopeLoop useHigh candles 0 ⟨0, 0, 0, 0⟩).sumX =
      (candles.length : ℚ) ^ 2 * ((candles.length : ℚ) ^ 2 - 1) / 12 := by
  rw [slopeLoop_sumX, slopeLoop_sumX2]
  push_cast
  ring

/-- On a window of exactly 10 candles the divisor of `calculateSlope` is 825,
so the slope is a number: the `none` branches of the triangle detectors are
never taken. -/
theorem calculateSlope_window_ten (useHigh : Bool) (recent : List Candle)
    (h : recent.length = 10) :
    calculateSlope recent useHigh =
      some ((10 * (slopeLoop useHigh recent 0 ⟨0, 0, 0, 0⟩).sumXY -
        (slopeLoop useHigh recent 0 ⟨0, 0, 0, 0⟩).sumX *
          (slopeLoop useHigh recent 0 ⟨0, 0, 0, 0⟩).sumY) / 825) := by
  have hd := slope_divisor useHigh recent
  rw [h] at hd
  have hd' : ((10 : Nat) : ℚ) * (slopeLoop useHigh recent 0 ⟨0, 0, 0, 0⟩).sumX2 -
      (slopeLoop useHigh recent 0 ⟨0, 0, 0, 0⟩).sumX *
        (slopeLoop useHigh recent 0 ⟨0, 0, 0, 0⟩).sumX = 825 := by
    rw [hd]; norm_num
  unfold calculateSlope
  simp only [h]
  rw [if_neg (by rw [hd']; norm_num), hd']
  norm_num

/-! ## Shape of the returned levels -/

theorem mem_qualifyingLevels (candles : List Candle) (r : SupportResistance)
    (hr : r ∈ qualifyingLevels candles) :
    (∃ c ∈ qualifyingClusters (swingHighs candles), r = levelOfMembers "resistance" c) ∨
      (∃ c ∈ qualifyingClusters (swingLows candles), r = levelOfMembers "support" c) := by
  unfold qualifyingLevels at hr
  rcases List.mem_append.mp hr with h | h
  · obtain ⟨c, hc, rfl⟩ := List.mem_map.mp h
    exact Or.inl ⟨c, hc, rfl⟩
  · obtain ⟨c, hc, rfl⟩ := List.mem_map.mp h
    exact Or.inr ⟨c, hc, rfl⟩

theorem qualifyingClusters_members (prices : List ℚ) (c : cluster)
    (hc : c ∈ qualifyingClusters prices) : 2 ≤ c.Elements.length := by
  unfold qualifyingClusters at hc
  simpa using (List.mem_filter.mp hc).2

theorem mem_detectSupportResistance
    (sortSlice : (SupportResistance → SupportResistance → Bool) →
      List SupportResistance → List SupportResistance)
    (hsort : SortSliceContract sortSlice strengthLess) (candles : List Candle)
    (r : SupportResistance) (hr : r ∈ detectSupportResistance sortSlice candles) :
    r ∈ qualifyingLevels candles := by
  rw [detectSupportResistance_eq_take] at hr
  have := (hsort (collectLevels candles)).1.mem_iff.mp (List.mem_of_mem_take hr)
  rwa [collectLevels_eq_qualifyingLevels] at this

/-- C11: for every candle sequence, every level returned by
`detectSupportResistance` has `Strength = Touches` and `Strength ≥ 2`, and it
is either the level of a cluster of swing highs (price the cluster's price,
strength its member count) with `Type` "resistance", or the level of a cluster
of swing lows with `Type` "support"; no other `Type` occurs (for every sorting
procedure that meets the contract of `sort.Slice`). -/
theorem detectSupportResistance_level_shape
    (sortSlice : (SupportResistance → SupportResistance → Bool) →
      List SupportResistance → List SupportResistance)
    (hsort : SortSliceContract sortSlice strengthLess) (candles : List Candle)
    (r : SupportResistance) (hr : r ∈ detectSupportResistance sortSlice candles) :
    r.Strength = r.Touches ∧ r.Strength ≥ 2 ∧
      ((r.Type_ = "resistance" ∧ ∃ c ∈ qualifyingClusters (swingHighs candles),
          r.Price = c.Price ∧ r.Strength = (c.Elements.length : Int)) ∨
        (r.Type_ = "support" ∧ ∃ c ∈ qualifyingClusters (swingLows candles),
          r.Price = c.Price ∧ r.Strength = (c.Elements.length : Int))) := by
  rcases mem_qualifyingLevels candles r (mem_detectSupportResistance sortSlice hsort candles r hr)
    with ⟨c, hc, rfl⟩ | ⟨c, hc, rfl⟩
  · have h2 := qualifyingClusters_members _ c hc
    refine ⟨rfl, ?_, Or.inl ⟨rfl, c, hc, rfl, rfl⟩⟩
    show ((c.Elements.length : Int)) ≥ 2
    exact_mod_cast h2
  · have h2 := qualifyingClusters_members _ c hc
    refine ⟨rfl, ?_, Or.inr ⟨rfl, c, hc, rfl, rfl⟩⟩
    show ((c.Elements.length : Int)) ≥ 2
    exact_mod_cast h2

/-- Witness for C11 on `sixLevelBars`: the first returned level is the support
level at 10 with three touches. -/
theorem detectSupportResistance_level_shape_witness :
    SortSliceContract insertionSortLessFunc strengthLess ∧
    (⟨10, 3, "support", 3⟩ : SupportResistance) ∈
      detectSupportResistance insertionSortLessFunc sixLevelBars ∧
    ((3 : Int) = 3 ∧ (3 : Int) ≥ 2 ∧
      ((("support" : String) = "resistance" ∧
          ∃ c ∈ qualifyingClusters (swingHighs sixLevelBars),
            (10 : ℚ) = c.Price ∧ (3 : Int) = (c.Elements.length : Int)) ∨
        (("support" : String) = "support" ∧
          ∃ c ∈ qualifyingClusters (swingLows sixLevelBars),
            (10 : ℚ) = c.Price ∧ (3 : Int) = (c.Elements.length : Int)))) :=
  ⟨insertionSort_strengthLess, by decide!,
    detectSupportResistance_level_shape insertionSortLessFunc insertionSort_strengthLess
      sixLevelBars ⟨10, 3, "support", 3⟩ (by decide!)⟩

/-! ## The symmetrical triangle -/

theorem symmetrical_guard_unsatisfiable (highSlope lowSlope : ℚ) :
    ¬ (highSlope < -0.001 ∧ lowSlope > 0.001 ∧ |highSlope - lowSlope| < 0.002) := by
  rintro ⟨h1, h2, h3⟩
  have := (abs_lt.mp h3).1
  norm_num at h1 h2 this
  linarith

theorem detectSymmetricalTriangle_sentinel (candles : List Candle) :
    detectSymmetricalTriangle candles = sentinel := by
  unfold detectSymmetricalTriangle
  split
  · rfl
  · simp only
    split
    · rw [if_neg (symmetrical_guard_unsatisfiable _ _)]
    · rfl

theorem collectPatterns_eq_six (candles : List Candle) :
    collectPatterns candles =
      [detectHeadAndShoulders candles, detectInverseHeadAndShoulders candles,
        detectDoubleTop candles, detectDoubleBottom candles, detectAscendingTriangle candles,
        detectDescendingTriangle candles].filter (fun q => decide (q.Confidence > 0)) := by
  rw [collectPatterns_eq_filter]
  unfold detectorOutputs
  rw [detectSymmetricalTriangle_sentinel]
  simp [List.filter_cons, sentinel_confidence]

theorem collectPatterns_length_le_six (candles : List Candle) :
    (collectPatterns candles).length ≤ 6 := by
  rw [collectPatterns_eq_six]
  exact le_trans (List.length_filter_le _ _) (le_refl _)

/-- C18: `detectSymmetricalTriangle` returns the zero-confidence sentinel for
every candle sequence, because `highSlope < -0.001` and `lowSlope > 0.001`
force `highSlope - lowSlope < -0.002`, against `|highSlope - lowSlope| < 0.002`;
so no pattern named "Symmetrical Triangle" is in the output of
`detectPatterns`, which has at most 6 elements (for every sorting procedure
that meets the contract of `sort.Slice`). -/
theorem symmetrical_triangle_never_detected (candles : List Candle) :
    detectSymmetricalTriangle candles = sentinel ∧
    (∀ highSlope lowSlope : ℚ, highSlope < -0.001 → lowSlope > 0.001 →
      highSlope - lowSlope < -0.002) ∧
    (∀ sortSlice : (Pattern → Pattern → Bool) → List Pattern → List Pattern,
      SortSliceContract sortSlice confidenceLess →
        (∀ p ∈ detectPatterns sortSlice candles, p.Name ≠ "Symmetrical Triangle") ∧
          (detectPatterns sortSlice candles).length ≤ 6) := by
  refine ⟨detectSymmetricalTriangle_sentinel candles, ?_, ?_⟩
  · intro hs ls h1 h2
    norm_num at h1 h2 ⊢
    linarith
  · intro sortSlice hsort
    have hperm : (detectPatterns sortSlice candles).Perm (collectPatterns candles) :=
      (hsort _).1
    constructor
    · intro p hp hname
      have hmem := hperm.mem_iff.mp hp
      rw [collectPatterns_eq_six] at hmem
      have hpos : p.Confidence > 0 := by simpa using (List.mem_filter.mp hmem).2
      have hcases := (List.mem_filter.mp hmem).1
      simp only [List.mem_cons, List.mem_singleton, List.mem_nil_iff, or_false] at hcases
      rcases hcases with rfl | rfl | rfl | rfl | rfl | rfl
      · rw [detectHeadAndShoulders_name candles hpos] at hname; exact absurd hname (by decide)
      · rw [detectInverseHeadAndShoulders_name candles hpos] at hname
        exact absurd hname (by decide)
      · rw [detectDoubleTop_name candles hpos] at hname; exact absurd hname (by decide)
      · rw [detectDoubleBottom_name candles hpos] at hname; exact absurd hname (by decide)
      · rw [detectAscendingTriangle_name candles hpos] at hname; exact absurd hname (by decide)
      · rw [detectDescendingTriangle_name candles hpos] at hname; exact absurd hname (by decide)
    · rw [hperm.length_eq]
      exact collectPatterns_length_le_six candles

/-- Witness for C18 on `convergingBars`, whose highs fall and whose lows rise
at the same rate: no symmetrical triangle is reported. -/
theorem symmetrical_triangle_never_detected_witness :
    SortSliceContract insertionSortLessFunc confidenceLess ∧
    detectSymmetricalTriangle convergingBars = sentinel ∧
    (∀ p ∈ detectPatterns insertionSortLessFunc convergingBars,
      p.Name ≠ "Symmetrical Triangle") ∧
    (detectPatterns insertionSortLessFunc convergingBars).length ≤ 6 :=
  ⟨insertionSort_confidenceLess, (symmetrical_triangle_never_detected convergingBars).1,
    (symmetrical_triangle_never_detected convergingBars).2.2 insertionSortLessFunc
      insertionSort_confidenceLess⟩

/-! ## Stability of the ranking -/

theorem insertBack_filter_confidence (x : Pattern) (done : List Pattern) (c : ℚ) :
    (insertBack confidenceLess x done).filter (fun p => decide (p.Confidence = c)) =
      (x :: done).filter (fun p => decide (p.Confidence = c)) := by
  induction done with
  | nil => rfl
  | cons y ys ih =>
    unfold insertBack
    split
    · rename_i hxy
      have hlt : y.Confidence < x.Confidence := by simpa [confidenceLess] using hxy
      simp only [List.filter_cons, ih]
      by_cases hx : x.Confidence = c
      · have hy : ¬ y.Confidence = c := by
          intro hy; rw [hx, hy] at hlt; exact lt_irrefl _ hlt
        simp [hx, hy]
      · simp [hx]
    · rfl

theorem insertBack_foldl_filter_confidence (data done : List Pattern) (c : ℚ) :
    (data.foldl (fun done x => insertBack confidenceLess x done) done).filter
        (fun p => decide (p.Confidence = c)) =
      (data.reverse ++ done).filter (fun p => decide (p.Confidence = c)) := by
  induction data generalizing done with
  | nil => simp
  | cons x xs ih =>
    simp only [List.foldl_cons, List.reverse_cons, List.append_assoc, List.singleton_append]
    rw [ih, List.filter_append, List.filter_append, insertBack_filter_confidence]

/-- Go's insertion sort is stable: the patterns of one confidence keep their
order. -/
theorem insertionSort_filter_confidence (data : List Pattern) (c : ℚ) :
    (insertionSortLessFunc confidenceLess data).filter (fun p => decide (p.Confidence = c)) =
      data.filter (fun p => decide (p.Confidence = c)) := by
  unfold insertionSortLessFunc
  rw [List.filter_reverse, insertBack_foldl_filter_confidence, List.append_nil,
    List.filter_reverse, List.reverse_reverse]

theorem collectPatterns_rank_increasing (candles : List Candle) :
    (collectPatterns candles).Pairwise (fun a b => evaluationRank a < evaluationRank b) := by
  have hsub := collectPatterns_names_sublist candles
  have hnames : ((collectPatterns candles).map Pattern.Name).Pairwise
      (fun a b => evaluationOrder.indexOf a < evaluationOrder.indexOf b) :=
    List.Pairwise.sublist hsub (by decide)
  exact List.Pairwise.of_map Pattern.Name (fun _ _ h => h) hnames

theorem insertionSort_ties_in_evaluation_order (candles : List Candle) :
    (insertionSortLessFunc confidenceLess (collectPatterns candles)).Pairwise
      (fun a b => a.Confidence = b.Confidence → evaluationRank a < evaluationRank b) := by
  rw [List.pairwise_iff_forall_sublist]
  intro a b hab heq
  have hf := hab.filter (fun p => decide (p.Confidence = b.Confidence))
  rw [insertionSort_filter_confidence] at hf
  have hab' : List.Sublist [a, b] (collectPatterns candles) := by
    have h2 : [a, b].filter (fun p => decide (p.Confidence = b.Confidence)) = [a, b] := by
      simp [List.filter_cons, heq]
    rw [h2] at hf
    exact hf.trans (List.filter_sublist _)
  exact List.pairwise_iff_forall_sublist.mp (collectPatterns_rank_increasing candles) hab'

/-- C12: the ranking of `detectPatterns` is stable: for every candle sequence,
any two returned patterns with equal `Confidence` appear in detector
evaluation order (head-and-shoulders, inverse head-and-shoulders, double top,
double bottom, ascending, descending, symmetrical triangle).  This holds for
every sorting procedure that runs Go's insertion sort on slices of at most 6
elements, as every release of `sort.Slice` does; at most 6 patterns are ever
collected. -/
theorem detectPatterns_ranking_stable
    (sortSlice : (Pattern → Pattern → Bool) → List Pattern → List Pattern)
    (hsmall : ∀ l : List Pattern, l.length ≤ 6 →
      sortSlice confidenceLess l = insertionSortLessFunc confidenceLess l)
    (candles : List Candle) (i j : Nat) (hij : i < j)
    (hj : j < (detectPatterns sortSlice candles).length)
    (heq : ((detectPatterns sortSlice candles).get ⟨i, hij.trans hj⟩).Confidence =
      ((detectPatterns sortSlice candles).get ⟨j, hj⟩).Confidence) :
    evaluationRank ((detectPatterns sortSlice candles).get ⟨i, hij.trans hj⟩) <
      evaluationRank ((detectPatterns sortSlice candles).get ⟨j, hj⟩) := by
  have hp : (detectPatterns sortSlice candles).Pairwise
      (fun a b => a.Confidence = b.Confidence → evaluationRank a < evaluationRank b) := by
    unfold detectPatterns
    rw [hsmall _ (collectPatterns_length_le_six candles)]
    exact insertionSort_ties_in_evaluation_order candles
  exact List.pairwise_iff_get.mp hp ⟨i, hij.trans hj⟩ ⟨j, hj⟩ hij heq

/-- Witness for C12 on `richBars`: the ascending and the descending triangle
both have confidence 0.9 and are returned in this order, at positions 1 and 2. -/
theorem detectPatterns_ranking_stable_witness :
    (∀ l : List Pattern, l.length ≤ 6 →
      insertionSortLessFunc confidenceLess l = insertionSortLessFunc confidenceLess l) ∧
    (1 : Nat) < 2 ∧
    ((detectPatterns insertionSortLessFunc richBars).get ⟨1, by decide!⟩).Confidence =
      ((detectPatterns insertionSortLessFunc richBars).get ⟨2, by decide!⟩).Confidence ∧
    evaluationRank ((detectPatterns insertionSortLessFunc richBars).get ⟨1, by decide!⟩) <
      evaluationRank ((detectPatterns insertionSortLessFunc richBars).get ⟨2, by decide!⟩) :=
  ⟨fun _ _ => rfl, by decide, by decide!,
    detectPatterns_ranking_stable insertionSortLessFunc (fun _ _ => rfl) richBars 1 2
      (by decide) (by decide!) (by decide!)⟩

theorem reversedInsertionSort_confidenceLess :
    SortSliceContract reversedInsertionSort confidenceLess := by
  intro l
  obtain ⟨hperm, hpair⟩ := insertionSort_confidenceLess l.reverse
  exact ⟨hperm.trans (List.reverse_perm l), hpair⟩

/-- The contract of `sort.Slice` alone does not give the order of C12: a
procedure that meets the contract returns the two triangles of
`convergingBars`, both of confidence 0.9, against evaluation order. -/
theorem ties_not_ordered_by_contract :
    SortSliceContract reversedInsertionSort confidenceLess ∧
    (detectPatterns reversedInsertionSort convergingBars).map Pattern.Name =
      ["Descending Triangle", "Ascending Triangle"] :=
  ⟨reversedInsertionSort_confidenceLess, by decide!⟩

/-! ## Detectors look at their trailing window only -/

theorem trailing_trailing (k : Nat) (candles : List Candle) (h : k ≤ candles.length) :
    trailing k (trailing k candles) = trailing k candles := by
  have hl := trailing_length k candles h
  show List.drop ((trailing k candles).length - k) (trailing k candles) = trailing k candles
  rw [hl, Nat.sub_self, List.drop_zero]

theorem trailing_append (k : Nat) (before window : List Candle) (h : window.length = k) :
    trailing k (before ++ window) = window := by
  unfold trailing
  rw [List.length_append, h, Nat.add_sub_cancel]
  exact List.drop_left _ _

theorem detectHeadAndShoulders_window (candles : List Candle) (h : candles.length ≥ 20) :
    detectHeadAndShoulders candles = detectHeadAndShoulders (trailing 20 candles) := by
  have hl := trailing_length 20 candles h
  have htt := trailing_trailing 20 candles h
  unfold detectHeadAndShoulders
  rw [if_neg (not_lt.mpr h), if_neg (not_lt.mpr (le_of_eq hl.symm))]
  simp only [htt]

theorem detectInverseHeadAndShoulders_window (candles : List Candle)
    (h : candles.length ≥ 20) :
    detectInverseHeadAndShoulders candles =
      detectInverseHeadAndShoulders (trailing 20 candles) := by
  have hl := trailing_length 20 candles h
  have htt := trailing_trailing 20 candles h
  unfold detectInverseHeadAndShoulders
  rw [if_neg (not_lt.mpr h), if_neg (not_lt.mpr (le_of_eq hl.symm))]
  simp only [htt]

theorem detectDoubleTop_window (candles : List Candle) (h : candles.length ≥ 15) :
    detectDoubleTop candles = detectDoubleTop (trailing 15 candles) := by
  have hl := trailing_length 15 candles h
  have htt := trailing_trailing 15 candles h
  unfold detectDoubleTop
  rw [if_neg (not_lt.mpr h), if_neg (not_lt.mpr (le_of_eq hl.symm))]
  simp only [htt]

theorem detectDoubleBottom_window (candles : List Candle) (h : candles.length ≥ 15) :
    detectDoubleBottom candles = detectDoubleBottom (trailing 15 candles) := by
  have hl := trailing_length 15 candles h
  have htt := trailing_trailing 15 candles h
  unfold detectDoubleBottom
  rw [if_neg (not_lt.mpr h), if_neg (not_lt.mpr (le_of_eq hl.symm))]
  simp only [htt]

theorem detectAscendingTriangle_window (candles : List Candle) (h : candles.length ≥ 10) :
    detectAscendingTriangle candles = detectAscendingTriangle (trailing 10 candles) := by
  have hl := trailing_length 10 candles h
  have htt := trailing_trailing 10 candles h
  unfold detectAscendingTriangle
  rw [if_neg (not_lt.mpr h), if_neg (not_lt.mpr (le_of_eq hl.symm))]
  simp only [htt]

theorem detectDescendingTriangle_window (candles : List Candle) (h : candles.length ≥ 10) :
    detectDescendingTriangle candles = detectDescendingTriangle (trailing 10 candles) := by
  have hl := trailing_length 10 candles h
  have htt := trailing_trailing 10 candles h
  unfold detectDescendingTriangle
  rw [if_neg (not_lt.mpr h), if_neg (not_lt.mpr (le_of_eq hl.symm))]
  simp only [htt]

theorem detectSymmetricalTriangle_window (candles : List Candle) (h : candles.length ≥ 10) :
    detectSymmetricalTriangle candles = detectSymmetricalTriangle (trailing 10 candles) := by
  have hl := trailing_length 10 candles h
  have htt := trailing_trailing 10 candles h
  unfold detectSymmetricalTriangle
  rw [if_neg (not_lt.mpr h), if_neg (not_lt.mpr (le_of_eq hl.symm))]
  simp only [htt]

/-- C13: each detector depends on its trailing window only.  For a candle
sequence of length at least 20 the two head-and-shoulders detectors return
what they return on the last 20 candles alone; likewise the two double
detectors with the last 15 (length at least 15) and the three triangle
detectors with the last 10 (length at least 10).  Hence replacing the candles
`before` the window by any other candles `before'` never changes the result. -/
theorem detectors_depend_on_window (candles before before' window : List Candle) :
    (candles.length ≥ 20 →
      detectHeadAndShoulders candles = detectHeadAndShoulders (trailing 20 candles) ∧
      detectInverseHeadAndShoulders candles =
        detectInverseHeadAndShoulders (trailing 20 candles)) ∧
    (candles.length ≥ 15 →
      detectDoubleTop candles = detectDoubleTop (trailing 15 candles) ∧
      detectDoubleBottom candles = detectDoubleBottom (trailing 15 candles)) ∧
    (candles.length ≥ 10 →
      detectAscendingTriangle candles = detectAscendingTriangle (trailing 10 candles) ∧
      detectDescendingTriangle candles = detectDescendingTriangle (trailing 10 candles) ∧
      detectSymmetricalTriangle candles = detectSymmetricalTriangle (trailing 10 candles)) ∧
    (window.length = 20 →
      detectHeadAndShoulders (before ++ window) = detectHeadAndShoulders (before' ++ window) ∧
      detectInverseHeadAndShoulders (before ++ window) =
        detectInverseHeadAndShoulders (before' ++ window)) ∧
    (window.length = 15 →
      detectDoubleTop (before ++ window) = detectDoubleTop (before' ++ window) ∧
      detectDoubleBottom (before ++ window) = detectDoubleBottom (before' ++ window)) ∧
    (window.length = 10 →
      detectAscendingTriangle (before ++ window) =
        detectAscendingTriangle (before' ++ window) ∧
      detectDescendingTriangle (before ++ window) =
        detectDescendingTriangle (before' ++ window) ∧
      detectSymmetricalTriangle (before ++ window) =
        detectSymmetricalTriangle (before' ++ window)) := by
  refine ⟨fun h => ⟨detectHeadAndShoulders_window _ h, detectInverseHeadAndShoulders_window _ h⟩,
    fun h => ⟨detectDoubleTop_window _ h, detectDoubleBottom_window _ h⟩,
    fun h => ⟨detectAscendingTriangle_window _ h, detectDescendingTriangle_window _ h,
      detectSymmetricalTriangle_window _ h⟩, ?_, ?_, ?_⟩
  · intro h
    have h1 : (before ++ window).length ≥ 20 := by rw [List.length_append]; omega
    have h2 : (before' ++ window).length ≥ 20 := by rw [List.length_append]; omega
    constructor
    · rw [detectHeadAndShoulders_window _ h1, detectHeadAndShoulders_window _ h2,
        trailing_append 20 before window h, trailing_append 20 before' window h]
    · rw [detectInverseHeadAndShoulders_window _ h1, detectInverseHeadAndShoulders_window _ h2,
        trailing_append 20 before window h, trailing_append 20 before' window h]
  · intro h
    have h1 : (before ++ window).length ≥ 15 := by rw [List.length_append]; omega
    have h2 : (before' ++ window).length ≥ 15 := by rw [List.length_append]; omega
    constructor
    · rw [detectDoubleTop_window _ h1, detectDoubleTop_window _ h2,
        trailing_append 15 before window h, trailing_append 15 before' window h]
    · rw [detectDoubleBottom_window _ h1, detectDoubleBottom_window _ h2,
        trailing_append 15 before window h, trailing_append 15 before' window h]
  · intro h
    have h1 : (before ++ window).length ≥ 10 := by rw [List.length_append]; omega
    have h2 : (before' ++ window).length ≥ 10 := by rw [List.length_append]; omega
    refine ⟨?_, ?_, ?_⟩
    · rw [detectAscendingTriangle_window _ h1, detectAscendingTriangle_window _ h2,
        trailing_append 10 before window h, trailing_append 10 before' window h]
    · rw [detectDescendingTriangle_window _ h1, detectDescendingTriangle_window _ h2,
        trailing_append 10 before window h, trailing_append 10 before' window h]
    · rw [detectSymmetricalTriangle_window _ h1, detectSymmetricalTriangle_window _ h2,
        trailing_append 10 before window h, trailing_append 10 before' window h]

/-- Witness for C13: `richBars` and its last 15 and last 10 bars as windows,
with `earlierBars` or `otherEarlierBars` before them. -/
theorem detectors_depend_on_window_witness :
    ((earlierBars ++ richBars).length ≥ 20 ∧
      detectHeadAndShoulders (earlierBars ++ richBars) =
        detectHeadAndShoulders (trailing 20 (earlierBars ++ richBars)) ∧
      detectInverseHeadAndShoulders (earlierBars ++ richBars) =
        detectInverseHeadAndShoulders (trailing 20 (earlierBars ++ richBars))) ∧
    ((earlierBars ++ richBars).length ≥ 15 ∧
      detectDoubleTop (earlierBars ++ richBars) =
        detectDoubleTop (trailing 15 (earlierBars ++ richBars)) ∧
      detectDoubleBottom (earlierBars ++ richBars) =
        detectDoubleBottom (trailing 15 (earlierBars ++ richBars))) ∧
    ((earlierBars ++ richBars).length ≥ 10 ∧
      detectAscendingTriangle (earlierBars ++ richBars) =
        detectAscendingTriangle (trailing 10 (earlierBars ++ richBars)) ∧
      detectDescendingTriangle (earlierBars ++ richBars) =
        detectDescendingTriangle (trailing 10 (earlierBars ++ richBars)) ∧
      detectSymmetricalTriangle (earlierBars ++ richBars) =
        detectSymmetricalTriangle (trailing 10 (earlierBars ++ richBars))) ∧
    (richBars.length = 20 ∧
      detectHeadAndShoulders (earlierBars ++ richBars) =
        detectHeadAndShoulders (otherEarlierBars ++ richBars) ∧
      detectInverseHeadAndShoulders (earlierBars ++ richBars) =
        detectInverseHeadAndShoulders (otherEarlierBars ++ richBars)) ∧
    ((richBars.drop 5).length = 15 ∧
      detectDoubleTop (earlierBars ++ richBars.drop 5) =
        detectDoubleTop (otherEarlierBars ++ richBars.drop 5) ∧
      detectDoubleBottom (earlierBars ++ richBars.drop 5) =
        detectDoubleBottom (otherEarlierBars ++ richBars.drop 5)) ∧
    ((richBars.drop 10).length = 10 ∧
      detectAscendingTriangle (earlierBars ++ richBars.drop 10) =
        detectAscendingTriangle (otherEarlierBars ++ richBars.drop 10) ∧
      detectDescendingTriangle (earlierBars ++ richBars.drop 10) =
        detectDescendingTriangle (otherEarlierBars ++ richBars.drop 10) ∧
      detectSymmetricalTriangle (earlierBars ++ richBars.drop 10) =
        detectSymmetricalTriangle (otherEarlierBars ++ richBars.drop 10)) :=
  ⟨⟨by decide, (detectors_depend_on_window (earlierBars ++ richBars) [] [] []).1 (by decide)⟩,
    ⟨by decide,
      (detectors_depend_on_window (earlierBars ++ richBars) [] [] []).2.1 (by decide)⟩,
    ⟨by decide,
      (detectors_depend_on_window (earlierBars ++ richBars) [] [] []).2.2.1 (by decide)⟩,
    ⟨by decide,
      (detectors_depend_on_window [] earlierBars otherEarlierBars richBars).2.2.2.1
        (by decide)⟩,
    ⟨by decide,
      (detectors_depend_on_window [] earlierBars otherEarlierBars (richBars.drop 5)).2.2.2.2.1
        (by decide)⟩,
    ⟨by decide,
      (detectors_depend_on_window [] earlierBars otherEarlierBars (richBars.drop 10)).2.2.2.2.2
        (by decide)⟩⟩

/-! ## Swing points keep away from the boundary -/

theorem mem_swingIndices (candles : List Candle) (i : Nat) (h : i ∈ swingIndices candles) :
    2 ≤ i ∧ i + 3 ≤ candles.length := by
  unfold swingIndices at h
  have := List.mem_range'_1.mp h
  omega

theorem swingIndices_short (candles : List Candle) (h : candles.length < 5) :
    swingIndices candles = [] := by
  unfold swingIndices
  have : candles.length - 4 = 0 := by omega
  rw [this]
  rfl

/-- C14: swing-point extraction never flags an index within 2 positions of
either boundary: for every candle sequence or detector window of length `n`,
every index `i` at which a swing high or a swing low is emitted satisfies
`2 ≤ i ≤ n - 3`; a sequence of fewer than 5 candles yields no swing points and
`detectSupportResistance` returns the empty list on it (for every sorting
procedure that meets the contract of `sort.Slice`). -/
theorem swing_points_inside (candles : List Candle) :
    (∀ i ∈ (swingIndices candles).filter (isSwingHigh candles),
      2 ≤ i ∧ i + 3 ≤ candles.length) ∧
    (∀ i ∈ (swingIndices candles).filter (isSwingLow candles),
      2 ≤ i ∧ i + 3 ≤ candles.length) ∧
    (∀ pk ∈ highPeaks candles, 2 ≤ pk.1 ∧ pk.1 + 3 ≤ candles.length) ∧
    (∀ tr ∈ lowTroughs candles, 2 ≤ tr.1 ∧ tr.1 + 3 ≤ candles.length) ∧
    (candles.length < 5 →
      swingHighs candles = [] ∧ swingLows candles = [] ∧
      ∀ sortSlice : (SupportResistance → SupportResistance → Bool) →
          List SupportResistance → List SupportResistance,
        SortSliceContract sortSlice strengthLess →
          detectSupportResistance sortSlice candles = []) := by
  refine ⟨?_, ?_, ?_, ?_, ?_⟩
  · intro i hi
    exact mem_swingIndices candles i (List.mem_filter.mp hi).1
  · intro i hi
    exact mem_swingIndices candles i (List.mem_filter.mp hi).1
  · intro pk hpk
    unfold highPeaks at hpk
    obtain ⟨i, hi, rfl⟩ := List.mem_map.mp hpk
    exact mem_swingIndices candles i (List.mem_filter.mp hi).1
  · intro tr htr
    unfold lowTroughs at htr
    obtain ⟨i, hi, rfl⟩ := List.mem_map.mp htr
    exact mem_swingIndices candles i (List.mem_filter.mp hi).1
  · intro h
    have hH : swingHighs candles = [] := by
      unfold swingHighs; rw [swingIndices_short candles h]; rfl
    have hL : swingLows candles = [] := by
      unfold swingLows; rw [swingIndices_short candles h]; rfl
    refine ⟨hH, hL, ?_⟩
    intro sortSlice hsort
    have hc : collectLevels candles = [] := by
      unfold collectLevels
      rw [hH, hL]
      rfl
    rw [detectSupportResistance_eq_take]
    have hperm := (hsort (collectLevels candles)).1
    rw [hc] at hperm
    rw [hc, List.Perm.eq_nil hperm]
    rfl

/-- Witness for C14 on `earlierBars`: three bars with a peak in the middle
yield no swing point and no level. -/
theorem swing_points_inside_witness :
    earlierBars.length < 5 ∧ SortSliceContract insertionSortLessFunc strengthLess ∧
    swingHighs earlierBars = [] ∧ swingLows earlierBars = [] ∧
    detectSupportResistance insertionSortLessFunc earlierBars = [] :=
  ⟨by decide, insertionSort_strengthLess,
    ((swing_points_inside earlierBars).2.2.2.2 (by decide)).1,
    ((swing_points_inside earlierBars).2.2.2.2 (by decide)).2.1,
    ((swing_points_inside earlierBars).2.2.2.2 (by decide)).2.2 insertionSortLessFunc
      insertionSort_strengthLess⟩

/-! ## The head-and-shoulders confidence -/

theorem headAndShouldersPattern_confidence_eq (d : ℚ) (hd : d ≤ 0.03) :
    (headAndShouldersPattern d).Confidence = 0.95 := by
  show min (0.7 + (0.3 * (1 - d))) 0.95 = 0.95
  apply min_eq_right
  norm_num at hd ⊢
  linarith

theorem inverseHeadAndShouldersPattern_confidence_eq (d : ℚ) (hd : d ≤ 0.03) :
    (inverseHeadAndShouldersPattern d).Confidence = 0.95 := by
  show min (0.7 + (0.3 * (1 - d))) 0.95 = 0.95
  apply min_eq_right
  norm_num at hd ⊢
  linarith

/-- C19: whenever `detectHeadAndShoulders` or `detectInverseHeadAndShoulders`
returns a pattern other than the sentinel, its `Confidence` is exactly 0.95:
the acceptance guard `shoulderDiff ≤ 0.03` forces
`0.7 + 0.3*(1 - shoulderDiff) ≥ 0.991`, so the cap `min(…, 0.95)` always
applies and the confidence does not depend on the shoulders. -/
theorem head_and_shoulders_confidence_capped (candles : List Candle) :
    (detectHeadAndShoulders candles ≠ sentinel →
      (detectHeadAndShoulders candles).Confidence = 0.95) ∧
    (detectInverseHeadAndShoulders candles ≠ sentinel →
      (detectInverseHeadAndShoulders candles).Confidence = 0.95) ∧
    (∀ shoulderDiff : ℚ, shoulderDiff ≤ 0.03 →
      0.7 + (0.3 * (1 - shoulderDiff)) ≥ 0.991 ∧
        (headAndShouldersPattern shoulderDiff).Confidence = 0.95 ∧
        (inverseHeadAndShouldersPattern shoulderDiff).Confidence = 0.95) := by
  refine ⟨?_, ?_, ?_⟩
  · intro h
    rcases detectHeadAndShoulders_cases candles with hs | ⟨d, hd, hp⟩
    · exact absurd hs h
    · rw [hp]; exact headAndShouldersPattern_confidence_eq d hd
  · intro h
    rcases detectInverseHeadAndShoulders_cases candles with hs | ⟨d, hd, hp⟩
    · exact absurd hs h
    · rw [hp]; exact inverseHeadAndShouldersPattern_confidence_eq d hd
  · intro d hd
    refine ⟨?_, headAndShouldersPattern_confidence_eq d hd,
      inverseHeadAndShouldersPattern_confidence_eq d hd⟩
    norm_num at hd ⊢
    linarith

/-- Witness for C19: `richBars` has shoulders 10 and 10.1 around a head of 12,
`valleyBars` has shoulders 10 and 10.1 around a head of 8. -/
theorem head_and_shoulders_confidence_capped_witness :
    (detectHeadAndShoulders richBars ≠ sentinel ∧
      (detectHeadAndShoulders richBars).Confidence = 0.95) ∧
    (detectInverseHeadAndShoulders valleyBars ≠ sentinel ∧
      (detectInverseHeadAndShoulders valleyBars).Confidence = 0.95) :=
  ⟨⟨by decide!, (head_and_shoulders_confidence_capped richBars).1 (by decide!)⟩,
    ⟨by decide!, (head_and_shoulders_confidence_capped valleyBars).2.1 (by decide!)⟩⟩

/-! ## calculateSlope is the least-squares slope -/

theorem slopeDivisor_eq (candles : List Candle) (useHigh : Bool) :
    slopeDivisor candles useHigh =
      (candles.length : ℚ) ^ 2 * ((candles.length : ℚ) ^ 2 - 1) / 12 :=
  slope_divisor useHigh candles

theorem calculateSlope_eq (candles : List Candle) (useHigh : Bool) :
    calculateSlope candles useHigh =
      if slopeDivisor candles useHigh = 0 then none
      else some (((candles.length : ℚ) * (slopeLoop useHigh candles 0 ⟨0, 0, 0, 0⟩).sumXY -
        (slopeLoop useHigh candles 0 ⟨0, 0, 0, 0⟩).sumX *
          (slopeLoop useHigh candles 0 ⟨0, 0, 0, 0⟩).sumY) / slopeDivisor candles useHigh) :=
  rfl

theorem slopeDivisor_pos (candles : List Candle) (useHigh : Bool) (h : candles.length ≥ 2) :
    slopeDivisor candles useHigh > 0 := by
  rw [slopeDivisor_eq]
  have hn : (2 : ℚ) ≤ (candles.length : ℚ) := by exact_mod_cast h
  have h1 : (0 : ℚ) < (candles.length : ℚ) ^ 2 := by positivity
  have h2 : (0 : ℚ) < (candles.length : ℚ) ^ 2 - 1 := by nlinarith
  positivity

theorem slopeDivisor_eq_zero_iff (candles : List Candle) (useHigh : Bool) :
    slopeDivisor candles useHigh = 0 ↔ candles.length ≤ 1 := by
  constructor
  · intro h
    by_contra hn
    have := slopeDivisor_pos candles useHigh (by omega)
    rw [h] at this
    exact lt_irrefl _ this
  · intro h
    rw [slopeDivisor_eq]
    have : candles.length = 0 ∨ candles.length = 1 := by omega
    rcases this with h0 | h1
    · rw [h0]; norm_num
    · rw [h1]; norm_num

/-- C17: the slope computation never divides by zero on its documented
domain: the divisor `n*Σx² - (Σx)²` of `calculateSlope` equals `n²(n² - 1)/12`
for a window of `n` candles; for `n ≥ 2` it is strictly positive and
`calculateSlope` returns a number; it is 0 only for `n ≤ 1`; and the window
the triangle detectors pass, the trailing 10 of at least 10 candles, has
exactly 10 candles and divisor 825. -/
theorem slope_divisor_positive (candles : List Candle) (useHigh : Bool) :
    slopeDivisor candles useHigh =
      (candles.length : ℚ) ^ 2 * ((candles.length : ℚ) ^ 2 - 1) / 12 ∧
    (candles.length ≥ 2 →
      slopeDivisor candles useHigh > 0 ∧ (calculateSlope candles useHigh).isSome = true) ∧
    (slopeDivisor candles useHigh = 0 ↔ candles.length ≤ 1) ∧
    (candles.length ≥ 10 →
      (trailing 10 candles).length = 10 ∧ slopeDivisor (trailing 10 candles) useHigh = 825 ∧
        (calculateSlope (trailing 10 candles) useHigh).isSome = true) := by
  refine ⟨slopeDivisor_eq candles useHigh, ?_, slopeDivisor_eq_zero_iff candles useHigh, ?_⟩
  · intro h
    have hpos := slopeDivisor_pos candles useHigh h
    refine ⟨hpos, ?_⟩
    rw [calculateSlope_eq, if_neg (ne_of_gt hpos)]
    rfl
  · intro h
    have hl := trailing_length 10 candles h
    refine ⟨hl, ?_, ?_⟩
    · rw [slopeDivisor_eq, hl]; norm_num
    · rw [calculateSlope_window_ten useHigh _ hl]
      rfl

/-- Witness for C17 on `richBars` (20 candles). -/
theorem slope_divisor_positive_witness :
    richBars.length ≥ 2 ∧ richBars.length ≥ 10 ∧
    (slopeDivisor richBars true > 0 ∧ (calculateSlope richBars true).isSome = true) ∧
    ((trailing 10 richBars).length = 10 ∧ slopeDivisor (trailing 10 richBars) true = 825 ∧
      (calculateSlope (trailing 10 richBars) true).isSome = true) :=
  ⟨by decide, by decide, (slope_divisor_positive richBars true).2.1 (by decide),
    (slope_divisor_positive richBars true).2.2.2 (by decide)⟩

theorem slopeLoop_linear (useHigh : Bool) (a b : ℚ) (candles : List Candle) (i : Nat)
    (s : SlopeSums)
    (hlin : ∀ (k : Nat) (hk : k < candles.length),
      selectedPrice useHigh (candles.get ⟨k, hk⟩) = a + b * ((i : ℚ) + k)) :
    (slopeLoop useHigh candles i s).sumY =
        s.sumY + (candles.length : ℚ) * a +
          b * ((candles.length : ℚ) * i + (candles.length : ℚ) * ((candles.length : ℚ) - 1) / 2) ∧
    (slopeLoop useHigh candles i s).sumXY =
        s.sumXY +
          a * ((candles.length : ℚ) * i + (candles.length : ℚ) * ((candles.length : ℚ) - 1) / 2) +
          b * ((candles.length : ℚ) * i * i +
            (i : ℚ) * (candles.length : ℚ) * ((candles.length : ℚ) - 1) +
            ((candles.length : ℚ) - 1) * (candles.length : ℚ) *
              (2 * (candles.length : ℚ) - 1) / 6) := by
  induction candles generalizing i s with
  | nil => simp [slopeLoop]
  | cons c rest ih =>
    have h0 : selectedPrice useHigh c = a + b * (i : ℚ) := by
      have := hlin 0 (by simp)
      simpa using this
    have hrest : ∀ (k : Nat) (hk : k < rest.length),
        selectedPrice useHigh (rest.get ⟨k, hk⟩) = a + b * (((i + 1 : Nat) : ℚ) + k) := by
      intro k hk
      have := hlin (k + 1) (by simp; omega)
      simp only [List.get_eq_getElem, List.getElem_cons_succ] at this ⊢
      rw [this]
      push_cast
      ring
    unfold slopeLoop
    unfold selectedPrice at h0
    obtain ⟨ih1, ih2⟩ := ih (i + 1)
      { sumX := s.sumX + (i : ℚ), sumY := s.sumY + (if useHigh then c.High else c.Low),
        sumXY := s.sumXY + (i : ℚ) * (if useHigh then c.High else c.Low),
        sumX2 := s.sumX2 + (i : ℚ) * (i : ℚ) } hrest
    simp only [h0] at ih1 ih2 ⊢
    simp only [ih1, ih2, List.length_cons]
    push_cast
    constructor <;> ring

theorem selectedPrice_shift (useHigh : Bool) (k : ℚ) (c : Candle) :
    selectedPrice useHigh { c with High := c.High + k, Low := c.Low + k } =
      selectedPrice useHigh c + k := by
  cases useHigh <;> rfl

theorem slopeLoop_shift (useHigh : Bool) (k : ℚ) (candles : List Candle) (i : Nat)
    (s t : SlopeSums) :
    (slopeLoop useHigh (shiftPrices k candles) i t).sumY =
        (slopeLoop useHigh candles i s).sumY + (t.sumY - s.sumY) + (candles.length : ℚ) * k ∧
    (slopeLoop useHigh (shiftPrices k candles) i t).sumXY =
        (slopeLoop useHigh candles i s).sumXY + (t.sumXY - s.sumXY) +
          k * ((candles.length : ℚ) * i +
            (candles.length : ℚ) * ((candles.length : ℚ) - 1) / 2) := by
  induction candles generalizing i s t with
  | nil => simp [slopeLoop, shiftPrices]
  | cons c rest ih =>
    have hsel := selectedPrice_shift useHigh k c
    unfold selectedPrice at hsel
    simp only [shiftPrices, List.map_cons]
    unfold slopeLoop
    obtain ⟨ih1, ih2⟩ := ih (i + 1)
      { sumX := s.sumX + (i : ℚ), sumY := s.sumY + (if useHigh then c.High else c.Low),
        sumXY := s.sumXY + (i : ℚ) * (if useHigh then c.High else c.Low),
        sumX2 := s.sumX2 + (i : ℚ) * (i : ℚ) }
      { sumX := t.sumX + (i : ℚ),
        sumY := t.sumY + (if useHigh then c.High + k else c.Low + k),
        sumXY := t.sumXY + (i : ℚ) * (if useHigh then c.High + k else c.Low + k),
        sumX2 := t.sumX2 + (i : ℚ) * (i : ℚ) }
    simp only [shiftPrices] at ih1 ih2
    have hk : (if useHigh then c.High + k else c.Low + k) =
        (if useHigh then c.High else c.Low) + k := by
      cases useHigh <;> rfl
    simp only [hk] at ih1 ih2 ⊢
    simp only [ih1, ih2, List.length_cons]
    push_cast
    constructor <;> ring

/-- C16: `calculateSlope` is the ordinary-least-squares slope of the selected
price against the bar index `0..N-1`: in exact arithmetic, for every window of
`N ≥ 2` candles whose selected prices are exactly linear, `y_i = a + b*i`,
`calculateSlope` returns `b`; and adding the same constant to every selected
price leaves the slope unchanged (of a linear window and of any other). -/
theorem calculateSlope_least_squares (candles : List Candle) (useHigh : Bool) (a b : ℚ)
    (hn : candles.length ≥ 2)
    (hlin : ∀ (i : Nat) (hi : i < candles.length),
      selectedPrice useHigh (candles.get ⟨i, hi⟩) = a + b * (i : ℚ)) :
    calculateSlope candles useHigh = some b ∧
    (∀ k : ℚ, calculateSlope (shiftPrices k candles) useHigh = some b) ∧
    (∀ (k : ℚ) (other : List Candle),
      calculateSlope (shiftPrices k other) useHigh = calculateSlope other useHigh) := by
  have hshift : ∀ (k : ℚ) (other : List Candle),
      calculateSlope (shiftPrices k other) useHigh = calculateSlope other useHigh := by
    intro k other
    have hlen : (shiftPrices k other).length = other.length := by
      unfold shiftPrices; rw [List.length_map]
    obtain ⟨hY, hXY⟩ := slopeLoop_shift useHigh k other 0 ⟨0, 0, 0, 0⟩ ⟨0, 0, 0, 0⟩
    have hX := slopeLoop_sumX useHigh (shiftPrices k other) 0 ⟨0, 0, 0, 0⟩
    have hX' := slopeLoop_sumX useHigh other 0 ⟨0, 0, 0, 0⟩
    have hD : slopeDivisor (shiftPrices k other) useHigh = slopeDivisor other useHigh := by
      rw [slopeDivisor_eq, slopeDivisor_eq, hlen]
    rw [calculateSlope_eq, calculateSlope_eq, hD]
    by_cases h0 : slopeDivisor other useHigh = 0
    · rw [if_pos h0, if_pos h0]
    · rw [if_neg h0, if_neg h0]
      congr 2
      rw [hY, hXY, hX, hX', hlen]
      push_cast
      ring
  have hmain : calculateSlope candles useHigh = some b := by
    have hlin' : ∀ (k : Nat) (hk : k < candles.length),
        selectedPrice useHigh (candles.get ⟨k, hk⟩) = a + b * (((0 : Nat) : ℚ) + k) := by
      intro k hk
      rw [hlin k hk]
      push_cast
      ring
    obtain ⟨hY, hXY⟩ := slopeLoop_linear useHigh a b candles 0 ⟨0, 0, 0, 0⟩ hlin'
    have hX := slopeLoop_sumX useHigh candles 0 ⟨0, 0, 0, 0⟩
    have hpos := slopeDivisor_pos candles useHigh hn
    rw [calculateSlope_eq, if_neg (ne_of_gt hpos)]
    congr 1
    rw [div_eq_iff (ne_of_gt hpos), hY, hXY, hX, slopeDivisor_eq]
    push_cast
    ring
  refine ⟨hmain, ?_, hshift⟩
  intro k
  rw [hshift k candles]
  exact hmain

/-- Witness for C16 on `boundaryBars`: the highs are `260 + 0.001*i`. -/
theorem calculateSlope_least_squares_witness :
    boundaryBars.length ≥ 2 ∧
    (∀ (i : Nat) (hi : i < boundaryBars.length),
      selectedPrice true (boundaryBars.get ⟨i, hi⟩) = 260 + 0.001 * (i : ℚ)) ∧
    calculateSlope boundaryBars true = some 0.001 ∧
    (∀ k : ℚ, calculateSlope (shiftPrices k boundaryBars) true = some 0.001) :=
  ⟨by decide, by decide!,
    (calculateSlope_least_squares boundaryBars true 260 0.001 (by decide) (by decide!)).1,
    (calculateSlope_least_squares boundaryBars true 260 0.001 (by decide) (by decide!)).2.1⟩

/-! ## Members join within tolerance of the running mean -/

theorem foldl_add_eq_sum (l : List ℚ) (a : ℚ) :
    l.foldl (fun sum p => sum + p) a = a + l.sum := by
  induction l generalizing a with
  | nil => simp
  | cons x xs ih => simp only [List.foldl_cons, List.sum_cons, ih]; ring

theorem joinCluster_price (c : cluster) (price : ℚ) :
    (joinCluster c price).Price = mean (c.Elements ++ [price]) := by
  unfold joinCluster mean
  simp only [foldl_add_eq_sum, zero_add]

theorem joinCluster_elements (c : cluster) (price : ℚ) :
    (joinCluster c price).Elements = c.Elements ++ [price] := rfl

theorem sum_ge_of_forall_ge (l : List ℚ) (a : ℚ) (h : ∀ x ∈ l, a ≤ x) :
    (l.length : ℚ) * a ≤ l.sum := by
  induction l with
  | nil => simp
  | cons x xs ih =>
    have hx := h x (List.mem_cons_self _ _)
    have hxs := ih (fun y hy => h y (List.mem_cons_of_mem _ hy))
    simp only [List.length_cons, List.sum_cons]
    push_cast
    linarith

theorem sum_le_of_forall_le (l : List ℚ) (a : ℚ) (h : ∀ x ∈ l, x ≤ a) :
    l.sum ≤ (l.length : ℚ) * a := by
  induction l with
  | nil => simp
  | cons x xs ih =>
    have hx := h x (List.mem_cons_self _ _)
    have hxs := ih (fun y hy => h y (List.mem_cons_of_mem _ hy))
    simp only [List.length_cons, List.sum_cons]
    push_cast
    linarith

theorem length_pos_cast (l : List ℚ) (hne : l ≠ []) : (0 : ℚ) < (l.length : ℚ) := by
  have : 0 < l.length := List.length_pos.mpr hne
  exact_mod_cast this

theorem mean_le (l : List ℚ) (a : ℚ) (hne : l ≠ []) (h : ∀ x ∈ l, x ≤ a) : mean l ≤ a := by
  unfold mean
  rw [div_le_iff₀ (length_pos_cast l hne)]
  have := sum_le_of_forall_le l a h
  linarith

theorem mean_pos (l : List ℚ) (hne : l ≠ []) (h : ∀ x ∈ l, 0 < x) : 0 < mean l := by
  unfold mean
  exact div_pos (List.sum_pos l h hne) (length_pos_cast l hne)

theorem placePrice_append_reject (tolerance x : ℚ) (pre rest : List cluster)
    (h : ∀ p ∈ pre, withinTolerance x p.Price tolerance = false) :
    placePrice tolerance x (pre ++ rest) = pre ++ placePrice tolerance x rest := by
  induction pre with
  | nil => rfl
  | cons p ps ih =>
    have hp := h p (List.mem_cons_self _ _)
    have ih' := ih (fun q hq => h q (List.mem_cons_of_mem _ hq))
    show placePrice tolerance x (p :: (ps ++ rest)) = p :: (ps ++ placePrice tolerance x rest)
    rw [← ih']
    simp only [placePrice, hp, Bool.false_eq_true, if_false]

theorem insertionSort_of_split (prices lower higher : List ℚ)
    (hsplit : prices.Perm (lower ++ higher))
    (hsep : ∀ x ∈ lower, ∀ y ∈ higher, x ≤ y) :
    prices.insertionSort (fun a b => a ≤ b) =
      lower.insertionSort (fun a b => a ≤ b) ++ higher.insertionSort (fun a b => a ≤ b) := by
  apply List.eq_of_perm_of_sorted (r := fun a b : ℚ => a ≤ b)
  · exact (List.perm_insertionSort _ prices).trans (hsplit.trans
      (List.Perm.append (List.perm_insertionSort _ lower).symm
        (List.perm_insertionSort _ higher).symm))
  · exact List.sorted_insertionSort _ prices
  · unfold List.Sorted
    rw [List.pairwise_append]
    refine ⟨List.sorted_insertionSort _ lower, List.sorted_insertionSort _ higher, ?_⟩
    intro a ha b hb
    exact hsep a ((List.mem_insertionSort _).mp ha) b ((List.mem_insertionSort _).mp hb)

/-! ## Representative drift and the shape of a cluster -/

/-- C21: representative drift is possible and is not corrected: the positive
prices 100, 102, 103, 103.6 end in one cluster of `clusterLevels` with
tolerance 0.02, whose final representative `Price` is their mean 102.15, and
its member 100 has `|100 - Price| / Price > 0.02`. -/
theorem representative_drifts :
    (∀ x ∈ driftPrices, 0 < x) ∧
    clusterLevels driftPrices 0.02 = [⟨102.15, 4, [100, 102, 103, 103.6]⟩] ∧
    ∃ c ∈ clusterLevels driftPrices 0.02, ∃ e ∈ c.Elements, |e - c.Price| / c.Price > 0.02 := by
  refine ⟨by decide!, by decide!, ⟨102.15, 4, [100, 102, 103, 103.6]⟩, by decide!, 100,
    by decide!, by decide!⟩

/-- The price of the cluster of `driftPrices` is the mean 102.15 of its four
members, neither the first member 100 nor the last member 103.6. -/
theorem cluster_price_is_running_mean :
    ∀ c ∈ clusterLevels driftPrices 0.02,
      c.Price = mean c.Elements ∧ c.Price = 102.15 ∧ c.Elements.head? = some 100 ∧
        c.Elements.getLast? = some 103.6 := by
  decide!

/-! ## Swing points of one kind are three bars apart -/

theorem swingHigh_apart (candles : List Candle) (i j : Nat)
    (hi : isSwingHigh candles i = true) (hj : isSwingHigh candles j = true) (hij : i < j) :
    i + 3 ≤ j := by
  unfold isSwingHigh at hi hj
  simp only [decide_eq_true_eq] at hi hj
  by_contra hlt
  have hcase : j = i + 1 ∨ j = i + 2 := by omega
  rcases hcase with rfl | rfl
  · have h1 := hi.2.2.1
    have h2 := hj.2.1
    simp only [Nat.add_sub_cancel] at h2
    exact lt_asymm h1 h2
  · have h1 := hi.2.2.2
    have h2 := hj.1
    simp only [Nat.add_sub_cancel] at h2
    exact lt_asymm h1 h2

theorem swingLow_apart (candles : List Candle) (i j : Nat)
    (hi : isSwingLow candles i = true) (hj : isSwingLow candles j = true) (hij : i < j) :
    i + 3 ≤ j := by
  unfold isSwingLow at hi hj
  simp only [decide_eq_true_eq] at hi hj
  by_contra hlt
  have hcase : j = i + 1 ∨ j = i + 2 := by omega
  rcases hcase with rfl | rfl
  · have h1 := hi.2.2.1
    have h2 := hj.2.1
    simp only [Nat.add_sub_cancel] at h2
    exact lt_asymm h1 h2
  · have h1 := hi.2.2.2
    have h2 := hj.1
    simp only [Nat.add_sub_cancel] at h2
    exact lt_asymm h1 h2

theorem swingIndices_increasing (candles : List Candle) :
    (swingIndices candles).Pairwise (fun a b => a < b) := by
  unfold swingIndices
  exact List.pairwise_lt_range' 2 _

theorem spaced_filter (candles : List Candle) (test : List Candle → Nat → Bool)
    (hapart : ∀ i j, test candles i = true → test candles j = true → i < j → i + 3 ≤ j) :
    ((swingIndices candles).filter (test candles)).Pairwise (fun a b => a + 3 ≤ b) := by
  have hinc : ((swingIndices candles).filter (test candles)).Pairwise (fun a b => a < b) :=
    List.Pairwise.sublist (List.filter_sublist _) (swingIndices_increasing candles)
  refine List.Pairwise.imp_of_mem ?_ hinc
  intro a b ha hb hab
  exact hapart a b (List.mem_filter.mp ha).2 (List.mem_filter.mp hb).2 hab

theorem spaced_length (l : List Nat) (lo hi : Nat) (hp : l.Pairwise (fun a b => a + 3 ≤ b))
    (hlo : ∀ x ∈ l, lo ≤ x) (hhi : ∀ x ∈ l, x ≤ hi) : 3 * l.length ≤ hi + 3 - lo := by
  induction l generalizing lo with
  | nil => simp
  | cons x xs ih =>
    rw [List.pairwise_cons] at hp
    have hx1 := hlo x (List.mem_cons_self _ _)
    have hx2 := hhi x (List.mem_cons_self _ _)
    have := ih (x + 3) hp.2 (fun y hy => hp.1 y hy) (fun y hy => hhi y (List.mem_cons_of_mem _ hy))
    simp only [List.length_cons]
    omega

theorem swing_count (candles : List Candle) (test : List Candle → Nat → Bool)
    (hapart : ∀ i j, test candles i = true → test candles j = true → i < j → i + 3 ≤ j) :
    3 * ((swingIndices candles).filter (test candles)).length ≤ candles.length - 2 := by
  by_cases hn : candles.length < 5
  · rw [swingIndices_short candles hn]
    simp
  · have := spaced_length _ 2 (candles.length - 3) (spaced_filter candles test hapart)
      (fun x hx => (mem_swingIndices candles x (List.mem_filter.mp hx).1).1)
      (fun x hx => by
        have := (mem_swingIndices candles x (List.mem_filter.mp hx).1).2
        omega)
    omega

theorem clusterLevels_of_length_le_one (prices : List ℚ) (tolerance : ℚ)
    (h : prices.length ≤ 1) : clusterLevels prices tolerance = [] := by
  match prices, h with
  | [], _ => rfl
  | [x], _ =>
    rw [clusterLevels_eq_filter]
    simp [List.insertionSort, buildClusters, placePrice]

theorem highPeaks_length (candles : List Candle) :
    (highPeaks candles).length = ((swingIndices candles).filter (isSwingHigh candles)).length := by
  unfold highPeaks
  rw [List.length_map]

theorem lowTroughs_length (candles : List Candle) :
    (lowTroughs candles).length = ((swingIndices candles).filter (isSwingLow candles)).length := by
  unfold lowTroughs
  rw [List.length_map]

theorem swingHighs_length (candles : List Candle) :
    (swingHighs candles).length = ((swingIndices candles).filter (isSwingHigh candles)).length := by
  unfold swingHighs
  rw [List.length_map]

theorem swingLows_length (candles : List Candle) :
    (swingLows candles).length = ((swingIndices candles).filter (isSwingLow candles)).length := by
  unfold swingLows
  rw [List.length_map]

/-- C25: swing points of one kind are at least 3 bars apart: for every candle
sequence, if `i < j` are both emitted as swing highs (or both as swing lows),
then `j - i ≥ 3`; hence a window of 20 candles has at most 6 swing highs (and
at most 6 swing lows), a window of 15 candles at most 4, and
`detectSupportResistance` returns the empty list for every sequence of fewer
than 8 candles (for every sorting procedure that meets the contract of
`sort.Slice`). -/
theorem swing_points_three_apart (candles : List Candle) :
    (∀ i ∈ (swingIndices candles).filter (isSwingHigh candles),
      ∀ j ∈ (swingIndices candles).filter (isSwingHigh candles), i < j → j - i ≥ 3) ∧
    (∀ i ∈ (swingIndices candles).filter (isSwingLow candles),
      ∀ j ∈ (swingIndices candles).filter (isSwingLow candles), i < j → j - i ≥ 3) ∧
    (candles.length = 20 → (highPeaks candles).length ≤ 6 ∧ (lowTroughs candles).length ≤ 6) ∧
    (candles.length = 15 → (highPeaks candles).length ≤ 4 ∧ (lowTroughs candles).length ≤ 4) ∧
    (candles.length < 8 →
      ∀ sortSlice : (SupportResistance → SupportResistance → Bool) →
          List SupportResistance → List SupportResistance,
        SortSliceContract sortSlice strengthLess →
          detectSupportResistance sortSlice candles = []) := by
  have hH := swing_count candles isSwingHigh (swingHigh_apart candles)
  have hL := swing_count candles isSwingLow (swingLow_apart candles)
  refine ⟨?_, ?_, ?_, ?_, ?_⟩
  · intro i hi j hj hij
    have := swingHigh_apart candles i j (List.mem_filter.mp hi).2 (List.mem_filter.mp hj).2 hij
    omega
  · intro i hi j hj hij
    have := swingLow_apart candles i j (List.mem_filter.mp hi).2 (List.mem_filter.mp hj).2 hij
    omega
  · intro h
    rw [highPeaks_length, lowTroughs_length]
    constructor <;> omega
  · intro h
    rw [highPeaks_length, lowTroughs_length]
    constructor <;> omega
  · intro h sortSlice hsort
    have h1 : (swingHighs candles).length ≤ 1 := by rw [swingHighs_length]; omega
    have h2 : (swingLows candles).length ≤ 1 := by rw [swingLows_length]; omega
    have hc : collectLevels candles = [] := by
      unfold collectLevels
      rw [clusterLevels_of_length_le_one _ _ h1, clusterLevels_of_length_le_one _ _ h2]
      rfl
    rw [detectSupportResistance_eq_take]
    have hperm := (hsort (collectLevels candles)).1
    rw [hc] at hperm
    rw [hc, List.Perm.eq_nil hperm]
    rfl

/-- Witness for C25: the swing highs of `sixPeakBars` at bars 2 and 5, its six
swing highs in 20 bars, the three swing highs of the 15 `threePeakBars`, and
the 7 `sevenBars` with one swing high and no level. -/
theorem swing_points_three_apart_witness :
    ((2 : Nat) ∈ (swingIndices sixPeakBars).filter (isSwingHigh sixPeakBars) ∧
      (5 : Nat) ∈ (swingIndices sixPeakBars).filter (isSwingHigh sixPeakBars) ∧
      (2 : Nat) < 5 ∧ (5 : Nat) - 2 ≥ 3) ∧
    (sixPeakBars.length = 20 ∧ (highPeaks sixPeakBars).length = 6 ∧
      (highPeaks sixPeakBars).length ≤ 6 ∧ (lowTroughs sixPeakBars).length ≤ 6) ∧
    (threePeakBars.length = 15 ∧
      (highPeaks threePeakBars).length ≤ 4 ∧ (lowTroughs threePeakBars).length ≤ 4) ∧
    (sevenBars.length < 8 ∧ SortSliceContract insertionSortLessFunc strengthLess ∧
      (swingHighs sevenBars).length = 1 ∧
      detectSupportResistance insertionSortLessFunc sevenBars = []) :=
  ⟨⟨by decide!, by decide!, by decide,
      (swing_points_three_apart sixPeakBars).1 2 (by decide!) 5 (by decide!) (by decide)⟩,
    ⟨by decide, by decide!, (swing_points_three_apart sixPeakBars).2.2.1 (by decide)⟩,
    ⟨by decide, (swing_points_three_apart threePeakBars).2.2.2.1 (by decide)⟩,
    ⟨by decide, insertionSort_strengthLess, by decide!,
      (swing_points_three_apart sevenBars).2.2.2.2 (by decide) insertionSortLessFunc
        insertionSort_strengthLess⟩⟩

/-! ## Clusters are runs of the sorted prices -/

theorem sum_gt_of_forall_gt (l : List ℚ) (a : ℚ) (hne : l ≠ []) (h : ∀ x ∈ l, a < x) :
    (l.length : ℚ) * a < l.sum := by
  induction l with
  | nil => exact absurd rfl hne
  | cons x xs ih =>
    have hx := h x (List.mem_cons_self _ _)
    have hxs := sum_ge_of_forall_ge xs a (fun y hy => le_of_lt (h y (List.mem_cons_of_mem _ hy)))
    simp only [List.length_cons, List.sum_cons]
    push_cast
    linarith

theorem mean_gt (l : List ℚ) (a : ℚ) (hne : l ≠ []) (h : ∀ x ∈ l, a < x) : a < mean l := by
  unfold mean
  rw [lt_div_iff₀ (length_pos_cast l hne)]
  have := sum_gt_of_forall_gt l a hne h
  linarith

theorem withinTolerance_false_of_above (tolerance m p : ℚ) (hm : 0 < m)
    (h : (1 + tolerance) * m < p) : withinTolerance p m tolerance = false := by
  unfold withinTolerance
  simp only [decide_eq_false_iff_not, not_and, not_le]
  intro _
  rw [lt_div_iff₀ hm]
  have : tolerance * m < p - m := by linarith
  exact lt_of_lt_of_le this (le_abs_self _)

theorem above_of_withinTolerance_false (tolerance m p : ℚ) (hm : 0 < m) (hmp : m ≤ p)
    (h : withinTolerance p m tolerance = false) : (1 + tolerance) * m < p := by
  unfold withinTolerance at h
  simp only [decide_eq_false_iff_not, not_and, not_le] at h
  have h1 := h (ne_of_gt hm)
  rw [lt_div_iff₀ hm, abs_of_nonneg (by linarith)] at h1
  linarith

theorem mem_flatten_elements (clusters : List cluster) (c : cluster) (hc : c ∈ clusters) (x : ℚ)
    (hx : x ∈ c.Elements) : x ∈ (clusters.map (fun c => c.Elements)).flatten :=
  List.mem_flatten.mpr ⟨c.Elements, List.mem_map.mpr ⟨c, hc, rfl⟩, hx⟩

theorem exists_of_mem_flatten_elements (clusters : List cluster) (x : ℚ)
    (hx : x ∈ (clusters.map (fun c => c.Elements)).flatten) :
    ∃ c ∈ clusters, x ∈ c.Elements := by
  obtain ⟨l, hl, hxl⟩ := List.mem_flatten.mp hx
  obtain ⟨c, hc, rfl⟩ := List.mem_map.mp hl
  exact ⟨c, hc, hxl⟩

theorem placePrice_singleton (tolerance p : ℚ) (last : cluster) :
    placePrice tolerance p [last] =
      if withinTolerance p last.Price tolerance then [joinCluster last p]
      else [last, ⟨p, 1, [p]⟩] := by
  simp only [placePrice]

/-- One step of the clustering loop on ascending positive prices: the clusters
stay separated, the new price is appended to the members, and either a new
cluster is appended or the last cluster takes the price. -/
theorem placePrice_separated (tolerance p : ℚ) (clusters : List cluster) (hp : 0 < p)
    (hinv : separatedClusters tolerance clusters)
    (hle : ∀ c ∈ clusters, ∀ x ∈ c.Elements, x ≤ p) :
    separatedClusters tolerance (placePrice tolerance p clusters) ∧
    ((placePrice tolerance p clusters).map (fun c => c.Elements)).flatten =
      (clusters.map (fun c => c.Elements)).flatten ++ [p] ∧
    (placePrice tolerance p clusters = clusters ++ [⟨p, 1, [p]⟩] ∨
      ∃ (init : List cluster) (last : cluster), clusters = init ++ [last] ∧
        placePrice tolerance p clusters = init ++ [joinCluster last p]) := by
  rcases List.eq_nil_or_concat clusters with rfl | ⟨init, last, hconcat⟩
  · refine ⟨⟨?_, ?_⟩, by simp [placePrice], Or.inl rfl⟩
    · intro c hc
      simp only [placePrice, List.mem_singleton] at hc
      subst hc
      refine ⟨by simp, by simp [mean], ?_⟩
      intro x hx
      simp only [List.mem_singleton] at hx
      rw [hx]; exact hp
    · simp [placePrice]
  · rw [List.concat_eq_append] at hconcat
    subst hconcat
    obtain ⟨hmem, hpair⟩ := hinv
    rw [List.pairwise_append] at hpair
    obtain ⟨hpinit, _, hcross⟩ := hpair
    obtain ⟨hlne, hlprice, hlpos⟩ := hmem last (by simp)
    have hlastpos : 0 < last.Price := by rw [hlprice]; exact mean_pos _ hlne hlpos
    have hlastle : last.Price ≤ p := by
      rw [hlprice]; exact mean_le _ p hlne (hle last (by simp))
    obtain ⟨x₀, hx₀⟩ := List.exists_mem_of_ne_nil _ hlne
    have hinitabove : ∀ a ∈ init, (1 + tolerance) * a.Price < p := fun a ha =>
      lt_of_lt_of_le (hcross a ha last (List.mem_singleton_self _) x₀ hx₀)
        (hle last (by simp) x₀ hx₀)
    have hinitpos : ∀ a ∈ init, 0 < a.Price := fun a ha => by
      obtain ⟨h1, h2, h3⟩ := hmem a (by simp [ha])
      rw [h2]; exact mean_pos _ h1 h3
    have hreject : ∀ a ∈ init, withinTolerance p a.Price tolerance = false := fun a ha =>
      withinTolerance_false_of_above tolerance a.Price p (hinitpos a ha) (hinitabove a ha)
    have hplace : placePrice tolerance p (init ++ [last]) =
        init ++ placePrice tolerance p [last] :=
      placePrice_append_reject tolerance p init [last] hreject
    rw [hplace, placePrice_singleton]
    by_cases hw : withinTolerance p last.Price tolerance = true
    · rw [if_pos hw]
      refine ⟨⟨?_, ?_⟩, by simp [joinCluster_elements], Or.inr ⟨init, last, rfl, rfl⟩⟩
      · intro c hc
        rcases List.mem_append.mp hc with hc | hc
        · exact hmem c (by simp [hc])
        · rw [List.mem_singleton] at hc
          subst hc
          refine ⟨by simp [joinCluster_elements], joinCluster_price last p, ?_⟩
          intro x hx
          rw [joinCluster_elements] at hx
          rcases List.mem_append.mp hx with hx | hx
          · exact hlpos x hx
          · rw [List.mem_singleton] at hx; rw [hx]; exact hp
      · rw [List.pairwise_append]
        refine ⟨hpinit, List.pairwise_singleton _ _, ?_⟩
        intro a ha b hb x hx
        rw [List.mem_singleton] at hb
        subst hb
        rw [joinCluster_elements] at hx
        rcases List.mem_append.mp hx with hx | hx
        · exact hcross a ha last (List.mem_singleton_self _) x hx
        · rw [List.mem_singleton] at hx; rw [hx]; exact hinitabove a ha
    · rw [if_neg hw]
      have hw' : withinTolerance p last.Price tolerance = false := by
        simpa using hw
      have hlastabove := above_of_withinTolerance_false tolerance last.Price p hlastpos hlastle hw'
      have heq : init ++ [last, (⟨p, 1, [p]⟩ : cluster)] = (init ++ [last]) ++ [⟨p, 1, [p]⟩] := by
        simp
      refine ⟨⟨?_, ?_⟩, by simp, Or.inl heq⟩
      · intro c hc
        rw [heq] at hc
        rcases List.mem_append.mp hc with hc | hc
        · exact hmem c hc
        · rw [List.mem_singleton] at hc
          subst hc
          refine ⟨by simp, by simp [mean], ?_⟩
          intro x hx
          simp only [List.mem_singleton] at hx
          rw [hx]; exact hp
      · rw [heq, List.pairwise_append]
        refine ⟨List.pairwise_append.mpr ⟨hpinit, List.pairwise_singleton _ _, hcross⟩,
          List.pairwise_singleton _ _, ?_⟩
        intro a ha b hb x hx
        rw [List.mem_singleton] at hb
        subst hb
        simp only [List.mem_singleton] at hx
        rw [hx]
        rcases List.mem_append.mp ha with ha | ha
        · exact hinitabove a ha
        · rw [List.mem_singleton] at ha; rw [ha]; exact hlastabove

theorem foldl_placePrice_separated (tolerance : ℚ) (rest : List ℚ) (clusters : List cluster)
    (hinv : separatedClusters tolerance clusters)
    (hle : ∀ c ∈ clusters, ∀ x ∈ c.Elements, ∀ y ∈ rest, x ≤ y)
    (hsorted : rest.Pairwise (fun a b => a ≤ b)) (hpos : ∀ y ∈ rest, 0 < y) :
    separatedClusters tolerance
        (rest.foldl (fun clusters price => placePrice tolerance price clusters) clusters) ∧
      ((rest.foldl (fun clusters price => placePrice tolerance price clusters) clusters).map
          (fun c => c.Elements)).flatten =
        (clusters.map (fun c => c.Elements)).flatten ++ rest := by
  induction rest generalizing clusters with
  | nil => exact ⟨hinv, by simp⟩
  | cons p ps ih =>
    rw [List.pairwise_cons] at hsorted
    obtain ⟨hinv', hflat, _⟩ := placePrice_separated tolerance p clusters
      (hpos p (List.mem_cons_self _ _)) hinv
      (fun c hc x hx => hle c hc x hx p (List.mem_cons_self _ _))
    have hle' : ∀ c ∈ placePrice tolerance p clusters, ∀ x ∈ c.Elements, ∀ y ∈ ps, x ≤ y := by
      intro c hc x hx y hy
      have hx' := mem_flatten_elements _ c hc x hx
      rw [hflat] at hx'
      rcases List.mem_append.mp hx' with hx' | hx'
      · obtain ⟨c₀, hc₀, hxc₀⟩ := exists_of_mem_flatten_elements clusters x hx'
        exact hle c₀ hc₀ x hxc₀ y (List.mem_cons_of_mem _ hy)
      · rw [List.mem_singleton] at hx'
        rw [hx']
        exact hsorted.1 y hy
    obtain ⟨h1, h2⟩ := ih (placePrice tolerance p clusters) hinv' hle' hsorted.2
      (fun y hy => hpos y (List.mem_cons_of_mem _ hy))
    refine ⟨h1, ?_⟩
    simp only [List.foldl_cons]
    rw [h2, hflat]
    simp

theorem separatedClusters_nil (tolerance : ℚ) : separatedClusters tolerance [] :=
  ⟨fun _ h => absurd h (List.not_mem_nil _), List.Pairwise.nil⟩

theorem buildClusters_separated (tolerance : ℚ) (sorted : List ℚ)
    (hsorted : sorted.Pairwise (fun a b => a ≤ b)) (hpos : ∀ y ∈ sorted, 0 < y) :
    separatedClusters tolerance (buildClusters sorted tolerance) ∧
      ((buildClusters sorted tolerance).map (fun c => c.Elements)).flatten = sorted := by
  have := foldl_placePrice_separated tolerance sorted [] (separatedClusters_nil tolerance)
    (fun _ h => absurd h (List.not_mem_nil _)) hsorted hpos
  simpa [buildClusters] using this

theorem buildClusters_snoc (tolerance p : ℚ) (processed : List ℚ) :
    buildClusters (processed ++ [p]) tolerance =
      placePrice tolerance p (buildClusters processed tolerance) := by
  unfold buildClusters
  rw [List.foldl_append]
  rfl

theorem separatedClusters_price_increasing (tolerance : ℚ) (hτ : tolerance ≥ 0)
    (clusters : List cluster) (hinv : separatedClusters tolerance clusters) :
    clusters.Pairwise (fun a b => a.Price < b.Price) := by
  obtain ⟨hmem, hpair⟩ := hinv
  refine List.Pairwise.imp_of_mem ?_ hpair
  intro a b ha hb hab
  obtain ⟨ha1, ha2, ha3⟩ := hmem a ha
  obtain ⟨hb1, hb2, _⟩ := hmem b hb
  have hapos : 0 < a.Price := by rw [ha2]; exact mean_pos _ ha1 ha3
  have h1 : (1 + tolerance) * a.Price < b.Price := by
    rw [hb2]; exact mean_gt _ _ hb1 hab
  have h2 : 0 ≤ tolerance * a.Price := mul_nonneg hτ (le_of_lt hapos)
  linarith

theorem sorted_take_le (sorted : List ℚ) (hsorted : sorted.Pairwise (fun a b => a ≤ b))
    (n : Nat) (hn : n < sorted.length) (x : ℚ) (hx : x ∈ sorted.take n) :
    x ≤ sorted.get ⟨n, hn⟩ := by
  obtain ⟨i, hi, rfl⟩ := List.mem_iff_getElem.mp hx
  rw [List.length_take] at hi
  rw [List.getElem_take]
  exact List.pairwise_iff_getElem.mp hsorted i n (by omega) hn (by omega)

theorem take_succ_eq (sorted : List ℚ) (n : Nat) (hn : n < sorted.length) :
    sorted.take (n + 1) = sorted.take n ++ [sorted.get ⟨n, hn⟩] := by
  rw [List.take_succ, List.getElem?_eq_getElem hn]
  rfl

/-- C26: in `clusterLevels` on positive prices with tolerance `τ ≥ 0`, only the
most recently created cluster can ever gain a member: when the `n`-th price of
the ascending-sorted input is processed, either a new cluster is appended or
the last cluster takes it.  The members of the clusters, in creation order,
are consecutive runs of the sorted input (their concatenation is the sorted
input, so every input price is in exactly one cluster before the size filter),
and the representative prices of the returned clusters are strictly increasing
in output order, so no two returned clusters share a price. -/
theorem clusters_are_runs (prices : List ℚ) (tolerance : ℚ) (hpos : ∀ x ∈ prices, 0 < x)
    (hτ : tolerance ≥ 0) :
    (∀ (n : Nat) (hn : n < (prices.insertionSort (fun a b => a ≤ b)).length),
      buildClusters ((prices.insertionSort (fun a b => a ≤ b)).take (n + 1)) tolerance =
          buildClusters ((prices.insertionSort (fun a b => a ≤ b)).take n) tolerance ++
            [⟨(prices.insertionSort (fun a b => a ≤ b)).get ⟨n, hn⟩, 1,
              [(prices.insertionSort (fun a b => a ≤ b)).get ⟨n, hn⟩]⟩] ∨
        ∃ (init : List cluster) (last : cluster),
          buildClusters ((prices.insertionSort (fun a b => a ≤ b)).take n) tolerance =
              init ++ [last] ∧
            buildClusters ((prices.insertionSort (fun a b => a ≤ b)).take (n + 1)) tolerance =
              init ++ [joinCluster last
                ((prices.insertionSort (fun a b => a ≤ b)).get ⟨n, hn⟩)]) ∧
    ((buildClusters (prices.insertionSort (fun a b => a ≤ b)) tolerance).map
        (fun c => c.Elements)).flatten = prices.insertionSort (fun a b => a ≤ b) ∧
    (((buildClusters (prices.insertionSort (fun a b => a ≤ b)) tolerance).map
        (fun c => c.Elements)).flatten).Perm prices ∧
    (clusterLevels prices tolerance).Pairwise (fun a b => a.Price < b.Price) ∧
    ((clusterLevels prices tolerance).map (fun c => c.Price)).Nodup := by
  have hsorted : (prices.insertionSort (fun a b => a ≤ b)).Pairwise (fun a b => a ≤ b) :=
    List.sorted_insertionSort _ prices
  have hspos : ∀ y ∈ prices.insertionSort (fun a b => a ≤ b), 0 < y :=
    fun y hy => hpos y ((List.mem_insertionSort _).mp hy)
  obtain ⟨hinv, hflat⟩ := buildClusters_separated tolerance _ hsorted hspos
  have hinc : (clusterLevels prices tolerance).Pairwise (fun a b => a.Price < b.Price) := by
    rw [clusterLevels_eq_filter]
    exact List.Pairwise.sublist (List.filter_sublist _)
      (separatedClusters_price_increasing tolerance hτ _ hinv)
  refine ⟨?_, hflat, ?_, hinc, ?_⟩
  · intro n hn
    have htsorted : ((prices.insertionSort (fun a b => a ≤ b)).take n).Pairwise
        (fun a b => a ≤ b) := List.Pairwise.sublist (List.take_sublist _ _) hsorted
    have htpos : ∀ y ∈ (prices.insertionSort (fun a b => a ≤ b)).take n, 0 < y :=
      fun y hy => hspos y (List.mem_of_mem_take hy)
    obtain ⟨hinvn, hflatn⟩ := buildClusters_separated tolerance _ htsorted htpos
    have hstep := placePrice_separated tolerance
      ((prices.insertionSort (fun a b => a ≤ b)).get ⟨n, hn⟩)
      (buildClusters ((prices.insertionSort (fun a b => a ≤ b)).take n) tolerance)
      (hspos _ (List.get_mem _ _ _)) hinvn
      (by
        intro c hc x hx
        have hx' := mem_flatten_elements _ c hc x hx
        rw [hflatn] at hx'
        exact sorted_take_le _ hsorted n hn x hx')
    rw [take_succ_eq _ n hn, buildClusters_snoc]
    exact hstep.2.2
  · rw [hflat]
    exact List.perm_insertionSort _ prices
  · unfold List.Nodup
    rw [List.pairwise_map]
    exact List.Pairwise.imp (fun h => ne_of_lt h) hinc

/-- Witness for C26 on `twoZonePrices` with tolerance 0.02: two runs of five
prices, with representatives 100.28 and 150.28. -/
theorem clusters_are_runs_witness :
    (∀ x ∈ twoZonePrices, 0 < x) ∧ (0.02 : ℚ) ≥ 0 ∧
    (buildClusters (twoZonePrices.insertionSort (fun a b => a ≤ b)) 0.02).map
        (fun c => c.Elements) =
      [[100, 100.2, 100.3, 100.4, 100.5], [150, 150.2, 150.3, 150.4, 150.5]] ∧
    ((buildClusters (twoZonePrices.insertionSort (fun a b => a ≤ b)) 0.02).map
        (fun c => c.Elements)).flatten = twoZonePrices.insertionSort (fun a b => a ≤ b) ∧
    (clusterLevels twoZonePrices 0.02).map (fun c => c.Price) = [100.28, 150.28] ∧
    (clusterLevels twoZonePrices 0.02).Pairwise (fun a b => a.Price < b.Price) :=
  ⟨by decide!, by decide!, by decide!,
    (clusters_are_runs twoZonePrices 0.02 (by decide!) (by decide!)).2.1, by decide!,
    (clusters_are_runs twoZonePrices 0.02 (by decide!) (by decide!)).2.2.2.1⟩

/-! ## Rounding to float64 -/

theorem pow2_eq_zpow (e : ℤ) : pow2 e = (2 : ℚ) ^ e := by
  unfold pow2
  split
  · rename_i h
    obtain ⟨n, rfl⟩ := Int.eq_ofNat_of_zero_le h
    simp
  · rename_i h
    push_neg at h
    obtain ⟨n, hn⟩ := Int.eq_ofNat_of_zero_le (by omega : 0 ≤ -e)
    have he : e = -(n : ℤ) := by omega
    subst he
    simp

theorem pow2_pos (e : ℤ) : 0 < pow2 e := by
  rw [pow2_eq_zpow]; positivity

theorem pow2_add (a b : ℤ) : pow2 (a + b) = pow2 a * pow2 b := by
  rw [pow2_eq_zpow, pow2_eq_zpow, pow2_eq_zpow, zpow_add₀ (by norm_num)]

theorem pow2_le_pow2 {a b : ℤ} (h : a ≤ b) : pow2 a ≤ pow2 b := by
  rw [pow2_eq_zpow, pow2_eq_zpow]
  exact zpow_le_zpow_right₀ (by norm_num) h

theorem pow2_lt_pow2_iff {a b : ℤ} : pow2 a < pow2 b ↔ a < b := by
  rw [pow2_eq_zpow, pow2_eq_zpow]
  exact zpow_lt_zpow_iff_right₀ (by norm_num)

theorem bitLengthLoop_spec (fuel n : Nat) (h : n ≤ fuel) (hn : n ≠ 0) :
    2 ^ (bitLengthLoop fuel n - 1) ≤ n ∧ n < 2 ^ bitLengthLoop fuel n ∧
      0 < bitLengthLoop fuel n := by
  induction fuel generalizing n with
  | zero => omega
  | succ k ih =>
    rw [bitLengthLoop, if_neg hn]
    by_cases h2 : n / 2 = 0
    · have h1 : n = 1 := by omega
      subst h1
      cases k with
      | zero => simp [bitLengthLoop]
      | succ j => simp [bitLengthLoop]
    · obtain ⟨i1, i2, i3⟩ := ih (n / 2) (by omega) h2
      refine ⟨?_, ?_, by omega⟩
      · simp only [Nat.add_sub_cancel]
        have : bitLengthLoop k (n / 2) = (bitLengthLoop k (n / 2) - 1) + 1 := by omega
        rw [this, pow_succ]
        omega
      · rw [pow_succ]
        omega

theorem bitLength_spec (n : Nat) (hn : n ≠ 0) :
    2 ^ (bitLength n - 1) ≤ n ∧ n < 2 ^ bitLength n ∧ 0 < bitLength n :=
  bitLengthLoop_spec n n le_rfl hn

theorem log2Floor_spec (q : ℚ) (hq : 0 < q) :
    pow2 (log2Floor q) ≤ q ∧ q < pow2 (log2Floor q + 1) := by
  have hnum : 0 < q.num := Rat.num_pos.mpr hq
  have hden : q.den ≠ 0 := q.den_nz
  have hn0 : q.num.natAbs ≠ 0 := by omega
  obtain ⟨a1, a2, a3⟩ := bitLength_spec q.num.natAbs hn0
  obtain ⟨b1, b2, b3⟩ := bitLength_spec q.den hden
  have hqd : q = (q.num.natAbs : ℚ) / (q.den : ℚ) := by
    have h1 : ((q.num.natAbs : ℤ) : ℚ) = (q.num : ℚ) := by
      rw [Int.natAbs_of_nonneg hnum.le]
    have h2 : ((q.num.natAbs : ℕ) : ℚ) = ((q.num.natAbs : ℤ) : ℚ) := (Int.cast_natCast _).symm
    rw [h2, h1]
    exact (Rat.num_div_den q).symm
  set n := q.num.natAbs with hn
  set d := q.den with hd
  set a := bitLength n with ha
  set b := bitLength d with hb
  have hdpos : (0 : ℚ) < (d : ℚ) := by exact_mod_cast Nat.pos_of_ne_zero hden
  have hnpos : (0 : ℚ) < (n : ℚ) := by exact_mod_cast Nat.pos_of_ne_zero hn0
  have A1 : ((2 : ℚ) ^ (a - 1 : ℕ)) ≤ (n : ℚ) := by exact_mod_cast a1
  have A2 : (n : ℚ) < (2 : ℚ) ^ a := by exact_mod_cast a2
  have B1 : ((2 : ℚ) ^ (b - 1 : ℕ)) ≤ (d : ℚ) := by exact_mod_cast b1
  have B2 : (d : ℚ) < (2 : ℚ) ^ b := by exact_mod_cast b2
  have hup : q < pow2 ((a : ℤ) - (b : ℤ) + 1) := by
    rw [pow2_eq_zpow]
    have : ((a : ℤ) - (b : ℤ) + 1) = (a : ℤ) - ((b - 1 : ℕ) : ℤ) := by omega
    rw [this, zpow_sub₀ (by norm_num), zpow_natCast, zpow_natCast, hqd]
    rw [div_lt_div_iff₀ hdpos (by positivity)]
    calc (n : ℚ) * 2 ^ (b - 1) < 2 ^ a * 2 ^ (b - 1) := by
          apply mul_lt_mul_of_pos_right A2 (by positivity)
      _ ≤ 2 ^ a * d := by
          apply mul_le_mul_of_nonneg_left B1 (by positivity)
  have hlo : pow2 ((a : ℤ) - (b : ℤ) - 1) ≤ q := by
    rw [pow2_eq_zpow]
    have : ((a : ℤ) - (b : ℤ) - 1) = ((a - 1 : ℕ) : ℤ) - (b : ℤ) := by omega
    rw [this, zpow_sub₀ (by norm_num), zpow_natCast, zpow_natCast, hqd]
    rw [div_le_div_iff₀ (by positivity) hdpos]
    calc (2 : ℚ) ^ (a - 1) * d ≤ n * d := by
          apply mul_le_mul_of_nonneg_right A1 hdpos.le
      _ ≤ n * 2 ^ b := by
          apply mul_le_mul_of_nonneg_left B2.le hnpos.le
  show pow2 (if pow2 ((a : ℤ) - (b : ℤ)) ≤ q then (a : ℤ) - b else (a : ℤ) - b - 1) ≤ q ∧
    q < pow2 ((if pow2 ((a : ℤ) - (b : ℤ)) ≤ q then (a : ℤ) - b else (a : ℤ) - b - 1) + 1)
  by_cases hc : pow2 ((a : ℤ) - (b : ℤ)) ≤ q
  · rw [if_pos hc]
    exact ⟨hc, hup⟩
  · rw [if_neg hc]
    refine ⟨hlo, ?_⟩
    have : (a : ℤ) - b - 1 + 1 = (a : ℤ) - b := by ring
    rw [this]
    exact not_le.mp hc

theorem log2Floor_mono {a b : ℚ} (ha : 0 < a) (hab : a ≤ b) : log2Floor a ≤ log2Floor b := by
  have h1 := (log2Floor_spec a ha).1
  have h2 := (log2Floor_spec b (lt_of_lt_of_le ha hab)).2
  have : pow2 (log2Floor a) < pow2 (log2Floor b + 1) := lt_of_le_of_lt (le_trans h1 hab) h2
  have := pow2_lt_pow2_iff.mp this
  omega

theorem roundHalfEven_cases (x : ℚ) :
    (roundHalfEven x = ⌊x⌋ ∧ x - ⌊x⌋ ≤ 1 / 2) ∨ (roundHalfEven x = ⌊x⌋ + 1 ∧ 1 / 2 ≤ x - ⌊x⌋) := by
  unfold roundHalfEven
  simp only
  by_cases h1 : x - ⌊x⌋ < 1 / 2
  · rw [if_pos h1]; exact Or.inl ⟨rfl, h1.le⟩
  · rw [if_neg h1]
    by_cases h2 : 1 / 2 < x - ⌊x⌋
    · rw [if_pos h2]; exact Or.inr ⟨rfl, h2.le⟩
    · rw [if_neg h2]
      by_cases h3 : ⌊x⌋ % 2 = 0
      · rw [if_pos h3]; exact Or.inl ⟨rfl, not_lt.mp h2⟩
      · rw [if_neg h3]; exact Or.inr ⟨rfl, not_lt.mp h1⟩

theorem roundHalfEven_ge_of_int_le (x : ℚ) (n : ℤ) (h : (n : ℚ) ≤ x) : n ≤ roundHalfEven x := by
  have hf : n ≤ ⌊x⌋ := Int.le_floor.mpr h
  rcases roundHalfEven_cases x with ⟨h1, _⟩ | ⟨h1, _⟩ <;> omega

theorem roundHalfEven_le_of_le_int (x : ℚ) (n : ℤ) (h : x ≤ (n : ℚ)) : roundHalfEven x ≤ n := by
  rcases roundHalfEven_cases x with ⟨h1, _⟩ | ⟨h1, h2⟩
  · have : ⌊x⌋ ≤ n := by
      have := Int.floor_le x
      exact_mod_cast (le_trans this h)
    omega
  · have hlt : (⌊x⌋ : ℚ) < n := by linarith
    have : ⌊x⌋ < n := by exact_mod_cast hlt
    omega

theorem roundHalfEven_mono {x y : ℚ} (h : x ≤ y) : roundHalfEven x ≤ roundHalfEven y := by
  have hf : ⌊x⌋ ≤ ⌊y⌋ := Int.floor_mono h
  rcases lt_or_eq_of_le hf with hlt | heq
  · have h1 : roundHalfEven x ≤ ⌊x⌋ + 1 := by
      rcases roundHalfEven_cases x with ⟨h1, _⟩ | ⟨h1, _⟩ <;> omega
    have h2 : ⌊y⌋ ≤ roundHalfEven y := by
      rcases roundHalfEven_cases y with ⟨h1, _⟩ | ⟨h1, _⟩ <;> omega
    omega
  · unfold roundHalfEven
    simp only
    rw [← heq]
    have hxy : x - ⌊x⌋ ≤ y - ⌊x⌋ := by linarith
    by_cases a1 : x - ⌊x⌋ < 1 / 2
    · rw [if_pos a1]
      split_ifs <;> omega
    · rw [if_neg a1]
      have b1 : ¬ y - ⌊x⌋ < 1 / 2 := by intro hb; exact a1 (lt_of_le_of_lt hxy hb)
      rw [if_neg b1]
      by_cases a2 : 1 / 2 < x - ⌊x⌋
      · rw [if_pos a2, if_pos (lt_of_lt_of_le a2 hxy)]
      · rw [if_neg a2]
        split_ifs <;> omega

theorem roundHalfEven_intCast (n : ℤ) : roundHalfEven (n : ℚ) = n := by
  unfold roundHalfEven
  simp

theorem roundHalfEven_error (x : ℚ) : |(roundHalfEven x : ℚ) - x| ≤ 1 / 2 := by
  have h1 := Int.floor_le x
  have h2 := Int.lt_floor_add_one x
  rcases roundHalfEven_cases x with ⟨e, h⟩ | ⟨e, h⟩
  · rw [e, abs_le]; constructor <;> linarith
  · rw [e, abs_le]; push_cast; constructor <;> linarith

theorem roundPositive_eq (q : ℚ) :
    roundPositive q = (roundHalfEven (q / pow2 (lastPlace q)) : ℚ) * pow2 (lastPlace q) := rfl

theorem lastPlace_mono {a b : ℚ} (ha : 0 < a) (hab : a ≤ b) : lastPlace a ≤ lastPlace b := by
  unfold lastPlace
  have := log2Floor_mono ha hab
  omega

theorem lt_pow2_lastPlace (q : ℚ) (hq : 0 < q) : q < pow2 (lastPlace q + 53) := by
  have h := (log2Floor_spec q hq).2
  refine lt_of_lt_of_le h (pow2_le_pow2 ?_)
  unfold lastPlace
  omega

theorem pow2_lastPlace_le (q : ℚ) (hq : 0 < q) (hp : -1074 < lastPlace q) :
    pow2 (lastPlace q + 52) ≤ q := by
  have h := (log2Floor_spec q hq).1
  refine le_trans (pow2_le_pow2 ?_) h
  unfold lastPlace at hp ⊢
  omega

theorem pow2_natCast (k : ℕ) : pow2 (k : ℤ) = ((2 ^ k : ℤ) : ℚ) := by
  rw [pow2_eq_zpow]; push_cast; rw [zpow_natCast]

/-- A positive rational at most `2^k` rounds to at most `2^k`, when `2^k` is
on the grid of its last place. -/
theorem roundPositive_le_pow2 (q : ℚ) (k : ℤ) (hk : lastPlace q ≤ k) (h : q ≤ pow2 k) :
    roundPositive q ≤ pow2 k := by
  rw [roundPositive_eq]
  obtain ⟨j, hj⟩ := Int.eq_ofNat_of_zero_le (by omega : 0 ≤ k - lastPlace q)
  have hsplit : pow2 k = pow2 (j : ℤ) * pow2 (lastPlace q) := by
    rw [← pow2_add, ← hj]; congr 1; ring
  have hx : q / pow2 (lastPlace q) ≤ ((2 ^ j : ℤ) : ℚ) := by
    rw [div_le_iff₀ (pow2_pos _), ← pow2_natCast, ← hsplit]
    exact h
  have := roundHalfEven_le_of_le_int _ _ hx
  rw [hsplit, pow2_natCast]
  apply mul_le_mul_of_nonneg_right _ (pow2_pos _).le
  exact_mod_cast this

theorem pow2_le_roundPositive (q : ℚ) (k : ℤ) (hk : lastPlace q ≤ k) (h : pow2 k ≤ q) :
    pow2 k ≤ roundPositive q := by
  rw [roundPositive_eq]
  obtain ⟨j, hj⟩ := Int.eq_ofNat_of_zero_le (by omega : 0 ≤ k - lastPlace q)
  have hsplit : pow2 k = pow2 (j : ℤ) * pow2 (lastPlace q) := by
    rw [← pow2_add, ← hj]; congr 1; ring
  have hx : ((2 ^ j : ℤ) : ℚ) ≤ q / pow2 (lastPlace q) := by
    rw [le_div_iff₀ (pow2_pos _), ← pow2_natCast, ← hsplit]
    exact h
  have := roundHalfEven_ge_of_int_le _ _ hx
  rw [hsplit, pow2_natCast]
  apply mul_le_mul_of_nonneg_right _ (pow2_pos _).le
  exact_mod_cast this

theorem roundPositive_nonneg (q : ℚ) (hq : 0 < q) : 0 ≤ roundPositive q := by
  rw [roundPositive_eq]
  apply mul_nonneg _ (pow2_pos _).le
  have : (0 : ℤ) ≤ roundHalfEven (q / pow2 (lastPlace q)) :=
    roundHalfEven_ge_of_int_le _ 0 (by simpa using (div_pos hq (pow2_pos _)).le)
  exact_mod_cast this

theorem roundPositive_mono {a b : ℚ} (ha : 0 < a) (hab : a ≤ b) :
    roundPositive a ≤ roundPositive b := by
  have hb : 0 < b := lt_of_lt_of_le ha hab
  rcases lt_or_eq_of_le (lastPlace_mono ha hab) with hlt | heq
  · have h1 : roundPositive a ≤ pow2 (lastPlace a + 53) :=
      roundPositive_le_pow2 a _ (by omega) (lt_pow2_lastPlace a ha).le
    have hpb : -1074 < lastPlace b := by
      have : -1074 ≤ lastPlace a := by unfold lastPlace; omega
      omega
    have h2 : pow2 (lastPlace b + 52) ≤ roundPositive b :=
      pow2_le_roundPositive b _ (by omega) (pow2_lastPlace_le b hb hpb)
    exact le_trans h1 (le_trans (pow2_le_pow2 (by omega)) h2)
  · rw [roundPositive_eq, roundPositive_eq, ← heq]
    apply mul_le_mul_of_nonneg_right _ (pow2_pos _).le
    have : roundHalfEven (a / pow2 (lastPlace a)) ≤ roundHalfEven (b / pow2 (lastPlace a)) :=
      roundHalfEven_mono (div_le_div_of_nonneg_right hab (pow2_pos _).le)
    exact_mod_cast this

theorem roundPositive_abs_error (q : ℚ) :
    |roundPositive q - q| ≤ pow2 (lastPlace q) / 2 := by
  rw [roundPositive_eq]
  have h := roundHalfEven_error (q / pow2 (lastPlace q))
  have hp := pow2_pos (lastPlace q)
  have : (roundHalfEven (q / pow2 (lastPlace q)) : ℚ) * pow2 (lastPlace q) - q =
      ((roundHalfEven (q / pow2 (lastPlace q)) : ℚ) - q / pow2 (lastPlace q)) *
        pow2 (lastPlace q) := by
    field_simp
  rw [this, abs_mul, abs_of_pos hp]
  calc _ ≤ 1 / 2 * pow2 (lastPlace q) := mul_le_mul_of_nonneg_right h hp.le
    _ = pow2 (lastPlace q) / 2 := by ring

/-- In the normal range the relative rounding error is at most `2^-53`. -/
theorem roundPositive_rel_error (q : ℚ) (hq : pow2 (-1022) ≤ q) :
    |roundPositive q - q| ≤ q * pow2 (-53) := by
  have hpos : 0 < q := lt_of_lt_of_le (pow2_pos _) hq
  have hlog : -1022 ≤ log2Floor q := by
    have h2 := (log2Floor_spec q hpos).2
    have := pow2_lt_pow2_iff.mp (lt_of_le_of_lt hq h2)
    omega
  have hlp : lastPlace q = log2Floor q - 52 := by unfold lastPlace; omega
  have h1 := (log2Floor_spec q hpos).1
  refine le_trans (roundPositive_abs_error q) ?_
  have : pow2 (lastPlace q) / 2 = pow2 (log2Floor q) * pow2 (-53) := by
    rw [hlp, ← pow2_add]
    have : log2Floor q + -53 = (log2Floor q - 52) + (-1) := by ring
    rw [this, pow2_add]
    have : pow2 (-1) = 1 / 2 := by decide!
    rw [this]; ring
  rw [this]
  exact mul_le_mul_of_nonneg_right h1 (pow2_pos _).le

theorem roundFinite_zero : roundFinite 0 = 0 := by
  simp [roundFinite]

theorem roundFinite_of_pos {q : ℚ} (hq : 0 < q) : roundFinite q = roundPositive q := by
  unfold roundFinite
  rw [if_neg hq.ne', if_pos hq]

theorem roundFinite_of_neg {q : ℚ} (hq : q < 0) : roundFinite q = -roundPositive (-q) := by
  unfold roundFinite
  rw [if_neg hq.ne, if_neg (not_lt.mpr hq.le)]

theorem roundFinite_neg (q : ℚ) : roundFinite (-q) = -roundFinite q := by
  rcases lt_trichotomy q 0 with h | h | h
  · rw [roundFinite_of_neg h, roundFinite_of_pos (by linarith : 0 < -q)]
    simp
  · subst h
    simp [roundFinite_zero]
  · rw [roundFinite_of_pos h, roundFinite_of_neg (by linarith : -q < 0)]
    simp

theorem roundFinite_nonneg {q : ℚ} (hq : 0 ≤ q) : 0 ≤ roundFinite q := by
  rcases lt_or_eq_of_le hq with h | h
  · rw [roundFinite_of_pos h]
    exact roundPositive_nonneg q h
  · rw [← h, roundFinite_zero]

theorem roundFinite_nonpos {q : ℚ} (hq : q ≤ 0) : roundFinite q ≤ 0 := by
  have := roundFinite_nonneg (by linarith : 0 ≤ -q)
  rw [roundFinite_neg] at this
  linarith

/-- Rounding keeps the order. -/
theorem roundFinite_mono {a b : ℚ} (hab : a ≤ b) : roundFinite a ≤ roundFinite b := by
  rcases lt_trichotomy 0 a with ha | ha | ha
  · rw [roundFinite_of_pos ha, roundFinite_of_pos (lt_of_lt_of_le ha hab)]
    exact roundPositive_mono ha hab
  · rw [← ha, roundFinite_zero]
    exact roundFinite_nonneg (by linarith)
  · rcases lt_or_le b 0 with hb | hb
    · rw [roundFinite_of_neg ha, roundFinite_of_neg hb]
      have := roundPositive_mono (by linarith : 0 < -b) (by linarith : -b ≤ -a)
      linarith
    · exact le_trans (roundFinite_nonpos ha.le) (roundFinite_nonneg hb)

theorem roundToFloat64_eq_finite {q : ℚ} (h0 : 0 ≤ q) (h1 : -pow2 1024 < roundFinite q)
    (h2 : roundFinite q < pow2 1024) : roundToFloat64 q = float64.finite (roundFinite q) := by
  unfold roundToFloat64
  rw [if_neg (not_le.mpr h2), if_neg (not_le.mpr h1), if_neg (fun h => absurd h.1 (not_lt.mpr h0))]

/-- The magnitude of the rounding of a rational that does not overflow. -/
theorem roundToFloat64_abs {q : ℚ} (h1 : -pow2 1024 < roundFinite q)
    (h2 : roundFinite q < pow2 1024) :
    (roundToFloat64 q).abs = float64.finite |roundFinite q| := by
  unfold roundToFloat64
  rw [if_neg (not_le.mpr h2), if_neg (not_le.mpr h1)]
  by_cases h : q < 0 ∧ roundFinite q = 0
  · rw [if_pos h, h.2, abs_zero]; rfl
  · rw [if_neg h]; rfl

/-- A non-negative rational below a rational that rounds to a finite number
rounds to a finite number between the roundings of its bounds. -/
theorem roundToFloat64_between (lo hi q : ℚ) (h0 : 0 ≤ lo) (hlo : lo ≤ q) (hhi : q ≤ hi)
    (h2 : roundFinite hi < pow2 1024) :
    roundToFloat64 q = float64.finite (roundFinite q) ∧ roundFinite lo ≤ roundFinite q ∧
      roundFinite q ≤ roundFinite hi := by
  have a := roundFinite_mono hlo
  have b := roundFinite_mono hhi
  have c : 0 ≤ roundFinite lo := roundFinite_nonneg h0
  have d : -pow2 1024 < 0 := neg_lt_zero.mpr (pow2_pos _)
  exact ⟨roundToFloat64_eq_finite (le_trans h0 hlo) (by linarith) (lt_of_le_of_lt b h2), a, b⟩

/-- The magnitude of the rounding of a rational between two rationals that
round to finite numbers. -/
theorem roundToFloat64_abs_between (lo hi q : ℚ) (hlo : lo ≤ q) (hhi : q ≤ hi)
    (h1 : -pow2 1024 < roundFinite lo) (h2 : roundFinite hi < pow2 1024) :
    (roundToFloat64 q).abs = float64.finite |roundFinite q| ∧ roundFinite lo ≤ roundFinite q ∧
      roundFinite q ≤ roundFinite hi := by
  have a := roundFinite_mono hlo
  have b := roundFinite_mono hhi
  exact ⟨roundToFloat64_abs (lt_of_lt_of_le h1 a) (lt_of_le_of_lt b h2), a, b⟩

/-! ## Head and shoulders in float64 -/

theorem headAndShouldersPattern64_ne_sentinel (d : float64) :
    headAndShouldersPattern64 d ≠ sentinel64 := by
  intro h
  have := congrArg Pattern64.Name h
  simp [headAndShouldersPattern64, sentinel64] at this

theorem scanHeadAndShoulders64_cons (left head right : Nat × float64)
    (rest : List (Nat × float64)) :
    scanHeadAndShoulders64 (left :: head :: right :: rest) ≠ sentinel64 ↔
      qualifyingTriple64 left.2 head.2 right.2 ∨
        scanHeadAndShoulders64 (head :: right :: rest) ≠ sentinel64 := by
  rw [scanHeadAndShoulders64]
  unfold qualifyingTriple64
  by_cases hc : (head.2.gt left.2 && head.2.gt right.2) = true
  · rw [if_pos hc]
    rw [Bool.and_eq_true] at hc
    by_cases hle : (relDiff64 left.2 right.2).le (float64.lit 0.03) = true
    · rw [if_pos hle]
      simp [hc.1, hc.2, hle, headAndShouldersPattern64_ne_sentinel]
    · rw [if_neg hle]
      simp [hle]
  · rw [if_neg hc]
    rw [Bool.and_eq_true] at hc
    have : ¬ (head.2.gt left.2 = true ∧ head.2.gt right.2 = true ∧
        (relDiff64 left.2 right.2).le (float64.lit 0.03) = true) :=
      fun hq => hc ⟨hq.1, hq.2.1⟩
    simp [this]

theorem scanHeadAndShoulders64_iff (peaks : List (Nat × float64)) :
    scanHeadAndShoulders64 peaks ≠ sentinel64 ↔
      ∃ (i : Nat) (left head right : float64),
        (peaks.map Prod.snd)[i]? = some left ∧ (peaks.map Prod.snd)[i + 1]? = some head ∧
          (peaks.map Prod.snd)[i + 2]? = some right ∧ qualifyingTriple64 left head right := by
  induction peaks with
  | nil =>
    constructor
    · intro h; exact absurd rfl h
    · rintro ⟨i, l, h, r, h1, _⟩
      simp at h1
  | cons p rest ih =>
    match rest, ih with
    | [], _ =>
      constructor
      · intro h; exact absurd (by simp [scanHeadAndShoulders64]) h
      · rintro ⟨i, l, h, r, _, h2, _⟩
        simp at h2
    | [q], _ =>
      constructor
      · intro h; exact absurd (by simp [scanHeadAndShoulders64]) h
      · rintro ⟨i, l, h, r, _, _, h3, _⟩
        simp at h3
    | q :: r :: t, ih =>
      rw [scanHeadAndShoulders64_cons, ih]
      constructor
      · rintro (hq | ⟨i, l, h, r', h1, h2, h3, hq⟩)
        · exact ⟨0, p.2, q.2, r.2, by simp, by simp, by simp, hq⟩
        · exact ⟨i + 1, l, h, r', by simpa using h1, by simpa using h2, by simpa using h3, hq⟩
      · rintro ⟨i, l, h, r', h1, h2, h3, hq⟩
        cases i with
        | zero =>
          simp at h1 h2 h3
          subst h1 h2 h3
          exact Or.inl hq
        | succ k =>
          exact Or.inr ⟨k, l, h, r', by simpa using h1, by simpa using h2, by simpa using h3, hq⟩

theorem swingHighs64_eq_map (candles : List Candle) :
    swingHighs64 candles = (highPeaks64 candles).map Prod.snd := by
  unfold swingHighs64 highPeaks64
  rw [List.map_map]
  rfl

theorem scanHeadAndShoulders64_cases (peaks : List (Nat × float64)) :
    scanHeadAndShoulders64 peaks = sentinel64 ∨
      ∃ d : float64, scanHeadAndShoulders64 peaks = headAndShouldersPattern64 d := by
  induction peaks with
  | nil => exact Or.inl rfl
  | cons p rest ih =>
    match rest, ih with
    | [], _ => exact Or.inl (by simp [scanHeadAndShoulders64])
    | [q], _ => exact Or.inl (by simp [scanHeadAndShoulders64])
    | q :: r :: t, ih =>
      rw [scanHeadAndShoulders64]
      split_ifs
      · exact Or.inr ⟨_, rfl⟩
      · exact ih
      · exact ih

theorem detectHeadAndShoulders64_cases (candles : List Candle) :
    detectHeadAndShoulders64 candles = sentinel64 ∨
      ∃ d : float64, detectHeadAndShoulders64 candles = headAndShouldersPattern64 d := by
  unfold detectHeadAndShoulders64
  by_cases h1 : candles.length < 20
  · rw [if_pos h1]; exact Or.inl rfl
  · rw [if_neg h1]
    simp only
    by_cases h2 : (highPeaks64 (trailing 20 candles)).length < 3
    · rw [if_pos h2]; exact Or.inl rfl
    · rw [if_neg h2]; exact scanHeadAndShoulders64_cases _

/-- C23 as amended: `detectHeadAndShoulders`, computing in `float64`, returns
a pattern other than the sentinel if and only if the sequence has at least 20
candles and the `float64` swing highs of the trailing 20, in position order,
contain three consecutive entries `left, head, right` with `head > left`,
`head > right` and the `float64` value of `|left - right| / max(left, right)`
at most the `float64` constant `0.03`; the pattern then has `Name`
"Head and Shoulders", `Type` "bearish" and `Breakout` false. -/
theorem head_and_shoulders_iff_float_triple (candles : List Candle) :
    (detectHeadAndShoulders64 candles ≠ sentinel64 ↔
      candles.length ≥ 20 ∧
        ∃ (i : Nat) (left head right : float64),
          (swingHighs64 (trailing 20 candles))[i]? = some left ∧
            (swingHighs64 (trailing 20 candles))[i + 1]? = some head ∧
            (swingHighs64 (trailing 20 candles))[i + 2]? = some right ∧
            qualifyingTriple64 left head right) ∧
    (detectHeadAndShoulders64 candles ≠ sentinel64 →
      (detectHeadAndShoulders64 candles).Name = "Head and Shoulders" ∧
        (detectHeadAndShoulders64 candles).Type_ = "bearish" ∧
        (detectHeadAndShoulders64 candles).Breakout = false) := by
  constructor
  · rw [swingHighs64_eq_map, ← scanHeadAndShoulders64_iff]
    unfold detectHeadAndShoulders64
    by_cases hlen : candles.length < 20
    · rw [if_pos hlen]
      constructor
      · intro h; exact absurd rfl h
      · rintro ⟨h, _⟩; omega
    · rw [if_neg hlen]
      simp only
      by_cases h3 : (highPeaks64 (trailing 20 candles)).length < 3
      · rw [if_pos h3]
        constructor
        · intro h; exact absurd rfl h
        · rintro ⟨_, hs⟩
          obtain ⟨i, l, h, r, _, _, hr, _⟩ := (scanHeadAndShoulders64_iff _).mp hs
          have := (List.getElem?_eq_some_iff.mp hr).1
          rw [List.length_map] at this
          omega
      · rw [if_neg h3]
        constructor
        · intro h; exact ⟨by omega, h⟩
        · rintro ⟨_, hs⟩; exact hs
  · intro h
    rcases detectHeadAndShoulders64_cases candles with hs | ⟨d, hd⟩
    · exact absurd hs h
    · rw [hd]
      exact ⟨rfl, rfl, rfl⟩

/-- Witness for C23 as amended on `richBars`: the swing highs 10, 12, 10.1 at
positions 0, 1, 2 qualify in `float64`. -/
theorem head_and_shoulders_iff_float_triple_witness :
    (richBars.length ≥ 20 ∧
      (swingHighs64 (trailing 20 richBars))[0]? = some (InexactFloat64 10) ∧
      (swingHighs64 (trailing 20 richBars))[0 + 1]? = some (InexactFloat64 12) ∧
      (swingHighs64 (trailing 20 richBars))[0 + 2]? = some (InexactFloat64 10.1) ∧
      qualifyingTriple64 (InexactFloat64 10) (InexactFloat64 12) (InexactFloat64 10.1)) ∧
    detectHeadAndShoulders64 richBars ≠ sentinel64 ∧
    (detectHeadAndShoulders64 richBars).Name = "Head and Shoulders" ∧
    (detectHeadAndShoulders64 richBars).Type_ = "bearish" ∧
    (detectHeadAndShoulders64 richBars).Breakout = false :=
  ⟨⟨by decide, by decide!, by decide!, by decide!, by decide!⟩,
    (head_and_shoulders_iff_float_triple richBars).1.mpr
      ⟨by decide, 0, InexactFloat64 10, InexactFloat64 12, InexactFloat64 10.1, by decide!,
        by decide!, by decide!, by decide!⟩,
    (head_and_shoulders_iff_float_triple richBars).2
      ((head_and_shoulders_iff_float_triple richBars).1.mpr
        ⟨by decide, 0, InexactFloat64 10, InexactFloat64 12, InexactFloat64 10.1, by decide!,
          by decide!, by decide!, by decide!⟩)⟩

/-- C23 as stated fails on `tieShoulderBars`: the swing highs of the trailing
20 candles are 1, 2 and 0.97, the head 2 is above both shoulders and
`|1 - 0.97| / max(1, 0.97)` is exactly `0.03`, so the triple qualifies; the
code computes the quotient in `float64` as `0.030000000000000027`, above the
`float64` constant `0.03`, and returns the sentinel. -/
theorem head_and_shoulders_missed_at_tie :
    tieShoulderBars.length ≥ 20 ∧
    swingHighs (trailing 20 tieShoulderBars) = [1, 2, 0.97] ∧
    ((2 : ℚ) > 1 ∧ (2 : ℚ) > 0.97 ∧ |(1 : ℚ) - 0.97| / max 1 0.97 ≤ 0.03) ∧
    swingHighs64 (trailing 20 tieShoulderBars) =
      [InexactFloat64 1, InexactFloat64 2, InexactFloat64 0.97] ∧
    relDiff64 (InexactFloat64 1) (InexactFloat64 0.97) =
      float64.finite (135107988821115 / 4503599627370496) ∧
    (relDiff64 (InexactFloat64 1) (InexactFloat64 0.97)).le (float64.lit 0.03) = false ∧
    detectHeadAndShoulders64 tieShoulderBars = sentinel64 := by
  decide!

/-! ## Double top in float64 -/

theorem findPartner64_some_spec (first : Nat × float64) (l : List (Nat × float64)) (d : float64)
    (h : findPartner64 first l = some d) :
    ∃ (j : Nat) (b : float64), (l.map Prod.snd)[j]? = some b ∧ relDiff64 first.2 b = d ∧
      closePair64 first.2 b ∧
      ∀ (j' : Nat) (b' : float64), j' < j → (l.map Prod.snd)[j']? = some b' →
        ¬ closePair64 first.2 b' := by
  induction l with
  | nil => simp [findPartner64] at h
  | cons s rest ih =>
    rw [findPartner64] at h
    by_cases hle : (relDiff64 first.2 s.2).le (float64.lit 0.02) = true
    · rw [if_pos hle] at h
      cases h
      exact ⟨0, s.2, by simp, rfl, hle, fun j' _ hlt _ => absurd hlt (Nat.not_lt_zero _)⟩
    · rw [if_neg hle] at h
      obtain ⟨j, b, hj, hb, hle', hmin⟩ := ih h
      refine ⟨j + 1, b, by simpa using hj, hb, hle', ?_⟩
      intro j' b' hlt hj'
      cases j' with
      | zero =>
        simp at hj'
        subst hj'
        exact hle
      | succ k => exact hmin k b' (by omega) (by simpa using hj')

theorem findPartner64_none_spec (first : Nat × float64) (l : List (Nat × float64))
    (h : findPartner64 first l = none) :
    ∀ (j : Nat) (b : float64), (l.map Prod.snd)[j]? = some b → ¬ closePair64 first.2 b := by
  induction l with
  | nil => intro j b hj; simp at hj
  | cons s rest ih =>
    rw [findPartner64] at h
    intro j b hj
    by_cases hle : (relDiff64 first.2 s.2).le (float64.lit 0.02) = true
    · rw [if_pos hle] at h
      cases h
    · rw [if_neg hle] at h
      cases j with
      | zero =>
        simp at hj
        subst hj
        exact hle
      | succ k => exact ih h k b (by simpa using hj)

theorem scanPairs64_none_spec (l : List (Nat × float64)) (h : scanPairs64 l = none) :
    ∀ (i j : Nat) (a b : float64), i < j → (l.map Prod.snd)[i]? = some a →
      (l.map Prod.snd)[j]? = some b → ¬ closePair64 a b := by
  induction l with
  | nil => intro i j a b _ hi; simp at hi
  | cons f rest ih =>
    rw [scanPairs64] at h
    cases hf : findPartner64 f rest with
    | some d => rw [hf] at h; cases h
    | none =>
      rw [hf] at h
      simp only at h
      intro i j a b hij hi hj
      cases j with
      | zero => omega
      | succ m =>
        cases i with
        | zero =>
          simp at hi
          subst hi
          exact findPartner64_none_spec f rest hf m b (by simpa using hj)
        | succ k => exact ih h k m a b (by omega) (by simpa using hi) (by simpa using hj)

theorem scanPairs64_some_spec (l : List (Nat × float64)) (d : float64)
    (h : scanPairs64 l = some d) :
    ∃ (i j : Nat) (a b : float64), i < j ∧ (l.map Prod.snd)[i]? = some a ∧
      (l.map Prod.snd)[j]? = some b ∧ relDiff64 a b = d ∧ closePair64 a b ∧
      ∀ (i' j' : Nat) (a' b' : float64), i' < j' → (l.map Prod.snd)[i']? = some a' →
        (l.map Prod.snd)[j']? = some b' → (i' < i ∨ (i' = i ∧ j' < j)) →
          ¬ closePair64 a' b' := by
  induction l with
  | nil => simp [scanPairs64] at h
  | cons f rest ih =>
    rw [scanPairs64] at h
    cases hf : findPartner64 f rest with
    | some d' =>
      rw [hf] at h
      simp only at h
      cases h
      obtain ⟨j, b, hj, hb, hle, hmin⟩ := findPartner64_some_spec f rest _ hf
      refine ⟨0, j + 1, f.2, b, by omega, by simp, by simpa using hj, hb, hle, ?_⟩
      intro i' j' a' b' hij hi' hj' hlex
      rcases hlex with hlt | ⟨rfl, hlt⟩
      · omega
      · simp at hi'
        subst hi'
        cases j' with
        | zero => omega
        | succ m => exact hmin m b' (by omega) (by simpa using hj')
    | none =>
      rw [hf] at h
      simp only at h
      obtain ⟨i, j, a, b, hij, hi, hj, hb, hle, hmin⟩ := ih h
      refine ⟨i + 1, j + 1, a, b, by omega, by simpa using hi, by simpa using hj, hb, hle, ?_⟩
      intro i' j' a' b' hij' hi' hj' hlex
      cases j' with
      | zero => omega
      | succ m =>
        cases i' with
        | zero =>
          simp at hi'
          subst hi'
          exact findPartner64_none_spec f rest hf m b' (by simpa using hj')
        | succ k =>
          exact hmin k m a' b' (by omega) (by simpa using hi') (by simpa using hj') (by omega)

theorem scanPairs64_short (peaks : List (Nat × float64)) (h : peaks.length < 2) :
    scanPairs64 peaks = none := by
  match peaks, h with
  | [], _ => rfl
  | [p], _ => simp [scanPairs64, findPartner64]

theorem detectDoubleTop64_eq_scan (candles : List Candle) (hlen : candles.length ≥ 15) :
    detectDoubleTop64 candles =
      match scanPairs64 (highPeaks64 (trailing 15 candles)) with
      | some diff => doubleTopPattern64 diff
      | none => sentinel64 := by
  unfold detectDoubleTop64
  rw [if_neg (by omega)]
  simp only
  split
  · rename_i h
    rw [scanPairs64_short _ h]
  · rfl

/-- C24 as amended: `detectDoubleTop`, computing in `float64`, uses
first-match, not best-match.  For every candle sequence of length at least 15:
if some pair of `float64` swing highs of the trailing 15 has the `float64`
value of `|a - b| / max(a, b)` at most the `float64` constant `0.02`, the
returned `Confidence` is the `float64` value of `0.8*(1 - diff)` for the first
such pair in nested-loop order (`i < j`, no pair with a smaller `i`, or the
same `i` and a smaller `j`, passes the test); otherwise the sentinel is
returned.  For some input this confidence is strictly smaller than the
`float64` value of `0.8*(1 - d)` for the difference `d` of a closer pair. -/
theorem double_top_first_float_match (candles : List Candle) (hlen : candles.length ≥ 15) :
    ((∃ (i j : Nat) (a b : float64), i < j ∧
        (swingHighs64 (trailing 15 candles))[i]? = some a ∧
        (swingHighs64 (trailing 15 candles))[j]? = some b ∧ closePair64 a b) →
      ∃ (i j : Nat) (a b : float64), i < j ∧
        (swingHighs64 (trailing 15 candles))[i]? = some a ∧
        (swingHighs64 (trailing 15 candles))[j]? = some b ∧ closePair64 a b ∧
        (∀ (i' j' : Nat) (a' b' : float64), i' < j' →
          (swingHighs64 (trailing 15 candles))[i']? = some a' →
          (swingHighs64 (trailing 15 candles))[j']? = some b' →
          (i' < i ∨ (i' = i ∧ j' < j)) → ¬ closePair64 a' b') ∧
        detectDoubleTop64 candles = doubleTopPattern64 (relDiff64 a b) ∧
        (detectDoubleTop64 candles).Confidence =
          (float64.lit 0.8).mul ((float64.lit 1).sub (relDiff64 a b))) ∧
    ((¬ ∃ (i j : Nat) (a b : float64), i < j ∧
        (swingHighs64 (trailing 15 candles))[i]? = some a ∧
        (swingHighs64 (trailing 15 candles))[j]? = some b ∧ closePair64 a b) →
      detectDoubleTop64 candles = sentinel64) ∧
    (∃ (input : List Candle) (a b : float64) (i j : Nat), input.length ≥ 15 ∧ i < j ∧
      (swingHighs64 (trailing 15 input))[i]? = some a ∧
      (swingHighs64 (trailing 15 input))[j]? = some b ∧ closePair64 a b ∧
      (detectDoubleTop64 input).Confidence.lt
        ((float64.lit 0.8).mul ((float64.lit 1).sub (relDiff64 a b))) = true) := by
  rw [swingHighs64_eq_map, detectDoubleTop64_eq_scan candles hlen]
  refine ⟨?_, ?_, ?_⟩
  · intro hex
    cases hs : scanPairs64 (highPeaks64 (trailing 15 candles)) with
    | none =>
      obtain ⟨i, j, a, b, hij, hi, hj, hc⟩ := hex
      exact absurd hc (scanPairs64_none_spec _ hs i j a b hij hi hj)
    | some d =>
      obtain ⟨i, j, a, b, hij, hi, hj, hb, hle, hmin⟩ := scanPairs64_some_spec _ d hs
      refine ⟨i, j, a, b, hij, hi, hj, hle, hmin, ?_, ?_⟩
      · simp only [hb]
      · simp only [hb]
        rfl
  · intro hno
    cases hs : scanPairs64 (highPeaks64 (trailing 15 candles)) with
    | none => rfl
    | some d =>
      obtain ⟨i, j, a, b, hij, hi, hj, hb, hle, _⟩ := scanPairs64_some_spec _ d hs
      exact absurd ⟨i, j, a, b, hij, hi, hj, hle⟩ hno
  · exact ⟨threePeakBars, InexactFloat64 101.5, InexactFloat64 101.6, 1, 2, by decide, by decide,
      by decide!, by decide!, by decide!, by decide!⟩

/-- Witness for C24 as amended on `threePeakBars`: the swing highs are 100,
101.5 and 101.6, and the first pair within 2% is 100 and 101.5. -/
theorem double_top_first_float_match_witness :
    threePeakBars.length ≥ 15 ∧
    (∃ (i j : Nat) (a b : float64), i < j ∧
        (swingHighs64 (trailing 15 threePeakBars))[i]? = some a ∧
        (swingHighs64 (trailing 15 threePeakBars))[j]? = some b ∧ closePair64 a b) ∧
    (∃ (i j : Nat) (a b : float64), i < j ∧
        (swingHighs64 (trailing 15 threePeakBars))[i]? = some a ∧
        (swingHighs64 (trailing 15 threePeakBars))[j]? = some b ∧ closePair64 a b ∧
        (∀ (i' j' : Nat) (a' b' : float64), i' < j' →
          (swingHighs64 (trailing 15 threePeakBars))[i']? = some a' →
          (swingHighs64 (trailing 15 threePeakBars))[j']? = some b' →
          (i' < i ∨ (i' = i ∧ j' < j)) → ¬ closePair64 a' b') ∧
        detectDoubleTop64 threePeakBars = doubleTopPattern64 (relDiff64 a b) ∧
        (detectDoubleTop64 threePeakBars).Confidence =
          (float64.lit 0.8).mul ((float64.lit 1).sub (relDiff64 a b))) ∧
    (detectDoubleTop64 threePeakBars).Confidence =
      (float64.lit 0.8).mul ((float64.lit 1).sub
        (relDiff64 (InexactFloat64 100) (InexactFloat64 101.5))) :=
  ⟨by decide,
    ⟨0, 1, InexactFloat64 100, InexactFloat64 101.5, by decide, by decide!, by decide!,
      by decide!⟩,
    (double_top_first_float_match threePeakBars (by decide)).1
      ⟨0, 1, InexactFloat64 100, InexactFloat64 101.5, by decide, by decide!, by decide!,
        by decide!⟩,
    by decide!⟩

/-- C24 as stated fails on `tiePeakBars`: the swing highs of the trailing 15
candles are 1 and 0.98, and `|1 - 0.98| / max(1, 0.98)` is exactly `0.02`, so
the claim gives the confidence `0.8*(1 - 0.02)`; the code computes the
quotient in `float64` as `0.020000000000000018`, above the `float64` constant
`0.02`, and returns the sentinel. -/
theorem double_top_missed_at_tie :
    tiePeakBars.length ≥ 15 ∧
    swingHighs (trailing 15 tiePeakBars) = [1, 0.98] ∧
    |(1 : ℚ) - 0.98| / max 1 0.98 ≤ 0.02 ∧
    swingHighs64 (trailing 15 tiePeakBars) = [InexactFloat64 1, InexactFloat64 0.98] ∧
    relDiff64 (InexactFloat64 1) (InexactFloat64 0.98) =
      float64.finite (45035996273705 / 2251799813685248) ∧
    (relDiff64 (InexactFloat64 1) (InexactFloat64 0.98)).le (float64.lit 0.02) = false ∧
    detectDoubleTop64 tiePeakBars = sentinel64 := by
  decide!

/-! ## The ascending triangle in float64 -/

theorem roundToFloat64_zero : roundToFloat64 0 = float64.finite 0 := by
  decide!

theorem float64.min_finite (a b : ℚ) :
    (float64.finite a).min (float64.finite b) =
      if a < b then float64.finite a else float64.finite b := by
  unfold float64.min
  by_cases h : a = 0 ∧ b = 0
  · obtain ⟨rfl, rfl⟩ := h
    simp [float64.lt, float64.isZero, float64.signbit]
  · have h2 : ((float64.finite a).isZero && (float64.finite b).isZero) = false := by
      simp only [float64.isZero, Bool.and_eq_false_imp, decide_eq_true_eq, decide_eq_false_iff_not]
      exact fun ha hb => h ⟨ha, hb⟩
    simp [float64.lt, h2]

theorem float64.mul_finite (a b : ℚ) (ha : 0 ≤ a) (hb : 0 ≤ b) :
    (float64.finite a).mul (float64.finite b) = roundToFloat64 (a * b) := by
  simp only [float64.mul]
  by_cases h : a * b = 0
  · rw [if_pos h, h, roundToFloat64_zero, decide_eq_false (not_lt.mpr ha),
      decide_eq_false (not_lt.mpr hb)]
    rfl
  · rw [if_neg h]

theorem float64.div_finite (a b : ℚ) (hb : 0 < b) :
    (float64.finite a).div (float64.finite b) = roundToFloat64 (a / b) := by
  simp only [float64.div]
  rw [if_neg hb.ne']
  by_cases h : a = 0
  · rw [if_pos h, h, zero_div, roundToFloat64_zero, decide_eq_false (not_lt.mpr hb.le)]
    rfl
  · rw [if_neg h]

theorem float64.lit_eq_finite (q : ℚ) (h0 : 0 ≤ q) (h2 : roundFinite q < pow2 1024) :
    float64.lit q = float64.finite (roundFinite q) :=
  roundToFloat64_eq_finite h0
    (lt_of_lt_of_le (neg_lt_zero.mpr (pow2_pos _)) (roundFinite_nonneg h0)) h2

/-- The confidence of the ascending triangle lies between the `float64`
constants `0.6` and `0.9` whenever the low slope is above the `float64`
constant `0.001`. -/
theorem ascendingTrianglePattern64_confidence (lowSlope : float64)
    (h : lowSlope.gt (float64.lit 0.001) = true) :
    (float64.lit 0.6).le (ascendingTrianglePattern64 lowSlope).Confidence = true ∧
      (ascendingTrianglePattern64 lowSlope).Confidence.le (float64.lit 0.9) = true := by
  have e001 : float64.lit 0.001 = float64.finite (roundFinite 0.001) :=
    float64.lit_eq_finite _ (by norm_num) (by decide!)
  have e01 : float64.lit 0.01 = float64.finite (roundFinite 0.01) :=
    float64.lit_eq_finite _ (by norm_num) (by decide!)
  have e04 : float64.lit 0.4 = float64.finite (roundFinite 0.4) :=
    float64.lit_eq_finite _ (by norm_num) (by decide!)
  have e06 : float64.lit 0.6 = float64.finite (roundFinite 0.6) :=
    float64.lit_eq_finite _ (by norm_num) (by decide!)
  have e09 : float64.lit 0.9 = float64.finite (roundFinite 0.9) :=
    float64.lit_eq_finite _ (by norm_num) (by decide!)
  -- the inner minimum is a finite number between 0 and the constant 0.01
  have hmin : ∃ w : ℚ, lowSlope.abs.min (float64.lit 0.01) = float64.finite w ∧ 0 ≤ w ∧
      w ≤ roundFinite 0.01 := by
    rw [e01]
    rw [float64.gt, e001] at h
    cases lowSlope with
    | finite v =>
      have hv : roundFinite 0.001 < v := by simpa [float64.lt] using h
      have hv0 : 0 < v := lt_trans (by decide!) hv
      rw [float64.abs, abs_of_pos hv0, float64.min_finite]
      by_cases hlt : v < roundFinite 0.01
      · rw [if_pos hlt]; exact ⟨v, rfl, hv0.le, hlt.le⟩
      · rw [if_neg hlt]; exact ⟨_, rfl, by decide!, le_rfl⟩
    | posInf =>
      refine ⟨roundFinite 0.01, ?_, by decide!, le_rfl⟩
      simp [float64.abs, float64.min, float64.lt, float64.isZero]
    | negZero =>
      have h0 : (0 : ℚ) < roundFinite 0.001 := by decide!
      simp [float64.lt, not_lt.mpr h0.le] at h
    | negInf => simp [float64.lt] at h
    | nan => simp [float64.lt] at h
  obtain ⟨w, hw, hw0, hw1⟩ := hmin
  -- the product 0.4 * min
  obtain ⟨ha, ha0, ha1⟩ := roundToFloat64_between 0 (roundFinite 0.4 * roundFinite 0.01)
    (roundFinite 0.4 * w) le_rfl (mul_nonneg (by decide!) hw0)
    (mul_le_mul_of_nonneg_left hw1 (by decide!)) (by decide!)
  rw [roundFinite_zero] at ha0
  -- the quotient by 0.01
  have ht01 : (0 : ℚ) < roundFinite 0.01 := by decide!
  obtain ⟨hb, hb0, hb1⟩ := roundToFloat64_between 0
    (roundFinite (roundFinite 0.4 * roundFinite 0.01) / roundFinite 0.01)
    (roundFinite (roundFinite 0.4 * w) / roundFinite 0.01) le_rfl
    (div_nonneg ha0 ht01.le) (div_le_div_of_nonneg_right ha1 ht01.le) (by decide!)
  rw [roundFinite_zero] at hb0
  -- the sum with 0.6
  obtain ⟨hc, hc0, _⟩ := roundToFloat64_between (roundFinite 0.6)
    (roundFinite 0.6 +
      roundFinite (roundFinite (roundFinite 0.4 * roundFinite 0.01) / roundFinite 0.01))
    (roundFinite 0.6 + roundFinite (roundFinite (roundFinite 0.4 * w) / roundFinite 0.01))
    (by decide!) (by linarith) (by linarith) (by decide!)
  have hc0' : roundFinite 0.6 ≤
      roundFinite (roundFinite 0.6 +
        roundFinite (roundFinite (roundFinite 0.4 * w) / roundFinite 0.01)) :=
    le_trans (by decide!) hc0
  have hconf : (ascendingTrianglePattern64 lowSlope).Confidence =
      (float64.finite (roundFinite (roundFinite 0.6 +
        roundFinite (roundFinite (roundFinite 0.4 * w) / roundFinite 0.01)))).min
        (float64.finite (roundFinite 0.9)) := by
    show ((float64.lit 0.6).add
        (((float64.lit 0.4).mul (lowSlope.abs.min (float64.lit 0.01))).div (float64.lit 0.01))).min
        (float64.lit 0.9) = _
    rw [hw, e04, e01, e06, e09]
    rw [float64.mul_finite _ _ (by decide!) hw0, ha, float64.div_finite _ _ ht01, hb]
    rw [show (float64.finite (roundFinite 0.6)).add
        (float64.finite (roundFinite (roundFinite (roundFinite 0.4 * w) / roundFinite 0.01))) =
      roundToFloat64 (roundFinite 0.6 +
        roundFinite (roundFinite (roundFinite 0.4 * w) / roundFinite 0.01)) from rfl, hc]
  rw [hconf, e06, e09, float64.min_finite]
  have h69 : roundFinite 0.6 ≤ roundFinite 0.9 := by decide!
  split_ifs with hlt
  · exact ⟨by simpa [float64.le] using hc0', by simpa [float64.le] using hlt.le⟩
  · exact ⟨by simpa [float64.le] using h69, by simp [float64.le]⟩

theorem sentinel64_not_detected : sentinel64.Confidence.gt (float64.finite 0) = false := by
  decide!

theorem scanInverseHeadAndShoulders64_cases (troughs : List (Nat × float64)) :
    scanInverseHeadAndShoulders64 troughs = sentinel64 ∨
      ∃ d : float64, scanInverseHeadAndShoulders64 troughs =
        inverseHeadAndShouldersPattern64 d := by
  induction troughs with
  | nil => exact Or.inl rfl
  | cons p rest ih =>
    match rest, ih with
    | [], _ => exact Or.inl (by simp [scanInverseHeadAndShoulders64])
    | [q], _ => exact Or.inl (by simp [scanInverseHeadAndShoulders64])
    | q :: r :: t, ih =>
      rw [scanInverseHeadAndShoulders64]
      split_ifs
      · exact Or.inr ⟨_, rfl⟩
      · exact ih
      · exact ih

theorem detectInverseHeadAndShoulders64_cases (candles : List Candle) :
    detectInverseHeadAndShoulders64 candles = sentinel64 ∨
      ∃ d : float64, detectInverseHeadAndShoulders64 candles =
        inverseHeadAndShouldersPattern64 d := by
  unfold detectInverseHeadAndShoulders64
  by_cases h1 : candles.length < 20
  · rw [if_pos h1]; exact Or.inl rfl
  · rw [if_neg h1]
    simp only
    by_cases h2 : (lowTroughs64 (trailing 20 candles)).length < 3
    · rw [if_pos h2]; exact Or.inl rfl
    · rw [if_neg h2]; exact scanInverseHeadAndShoulders64_cases _

theorem detectDoubleTop64_cases (candles : List Candle) :
    detectDoubleTop64 candles = sentinel64 ∨
      ∃ d : float64, detectDoubleTop64 candles = doubleTopPattern64 d := by
  unfold detectDoubleTop64
  by_cases h1 : candles.length < 15
  · rw [if_pos h1]; exact Or.inl rfl
  · rw [if_neg h1]
    simp only
    by_cases h2 : (highPeaks64 (trailing 15 candles)).length < 2
    · rw [if_pos h2]; exact Or.inl rfl
    · rw [if_neg h2]
      cases scanPairs64 (highPeaks64 (trailing 15 candles)) with
      | none => exact Or.inl rfl
      | some d => exact Or.inr ⟨d, rfl⟩

theorem detectDoubleBottom64_cases (candles : List Candle) :
    detectDoubleBottom64 candles = sentinel64 ∨
      ∃ d : float64, detectDoubleBottom64 candles = doubleBottomPattern64 d := by
  unfold detectDoubleBottom64
  by_cases h1 : candles.length < 15
  · rw [if_pos h1]; exact Or.inl rfl
  · rw [if_neg h1]
    simp only
    by_cases h2 : (lowTroughs64 (trailing 15 candles)).length < 2
    · rw [if_pos h2]; exact Or.inl rfl
    · rw [if_neg h2]
      cases scanPairs64 (lowTroughs64 (trailing 15 candles)) with
      | none => exact Or.inl rfl
      | some d => exact Or.inr ⟨d, rfl⟩

theorem detectDescendingTriangle64_cases (candles : List Candle) :
    detectDescendingTriangle64 candles = sentinel64 ∨
      ∃ s : float64, detectDescendingTriangle64 candles = descendingTrianglePattern64 s := by
  unfold detectDescendingTriangle64
  by_cases h1 : candles.length < 10
  · rw [if_pos h1]; exact Or.inl rfl
  · rw [if_neg h1]
    simp only
    split_ifs
    · exact Or.inr ⟨_, rfl⟩
    · exact Or.inl rfl

theorem detectSymmetricalTriangle64_cases (candles : List Candle) :
    detectSymmetricalTriangle64 candles = sentinel64 ∨
      ∃ s t : float64, detectSymmetricalTriangle64 candles =
        symmetricalTrianglePattern64 s t := by
  unfold detectSymmetricalTriangle64
  by_cases h1 : candles.length < 10
  · rw [if_pos h1]; exact Or.inl rfl
  · rw [if_neg h1]
    simp only
    split_ifs
    · exact Or.inr ⟨_, _, rfl⟩
    · exact Or.inl rfl

theorem appendIfDetected64_eq (patterns : List Pattern64) (p : Pattern64) :
    appendIfDetected64 patterns p =
      patterns ++ [p].filter (fun q => q.Confidence.gt (float64.finite 0)) := by
  unfold appendIfDetected64
  by_cases h : p.Confidence.gt (float64.finite 0) = true
  · simp [h]
  · simp [h]

theorem collectPatterns64_eq_filter (candles : List Candle) :
    collectPatterns64 candles =
      (detectorOutputs64 candles).filter (fun q => q.Confidence.gt (float64.finite 0)) := by
  unfold collectPatterns64 detectorOutputs64
  simp only [appendIfDetected64_eq, List.nil_append]
  simp only [← List.filter_append]
  rfl

theorem not_named64 (p : Pattern64) (n m : String)
    (h : p = sentinel64 ∨ p.Name = n) (hnm : n ≠ m) :
    (p.Confidence.gt (float64.finite 0) && (p.Name == m)) = false := by
  rcases h with h | h
  · rw [h, sentinel64_not_detected]; rfl
  · simp [h, hnm]

theorem detected_named_ascending64 (candles : List Candle)
    (hpos : (detectAscendingTriangle64 candles).Confidence.gt (float64.finite 0) = true)
    (hname : (detectAscendingTriangle64 candles).Name = "Ascending Triangle") :
    ((detectorOutputs64 candles).filter (fun q => q.Confidence.gt (float64.finite 0))).filter
        (fun q => q.Name == "Ascending Triangle") = [detectAscendingTriangle64 candles] := by
  rw [List.filter_filter]
  unfold detectorOutputs64
  have h1 := not_named64 (detectHeadAndShoulders64 candles) "Head and Shoulders"
    "Ascending Triangle"
    ((detectHeadAndShoulders64_cases candles).imp id (fun ⟨d, hd⟩ => by rw [hd]; rfl)) (by decide)
  have h2 := not_named64 (detectInverseHeadAndShoulders64 candles) "Inverse Head and Shoulders"
    "Ascending Triangle"
    ((detectInverseHeadAndShoulders64_cases candles).imp id (fun ⟨d, hd⟩ => by rw [hd]; rfl))
    (by decide)
  have h3 := not_named64 (detectDoubleTop64 candles) "Double Top" "Ascending Triangle"
    ((detectDoubleTop64_cases candles).imp id (fun ⟨d, hd⟩ => by rw [hd]; rfl)) (by decide)
  have h4 := not_named64 (detectDoubleBottom64 candles) "Double Bottom" "Ascending Triangle"
    ((detectDoubleBottom64_cases candles).imp id (fun ⟨d, hd⟩ => by rw [hd]; rfl)) (by decide)
  have h6 := not_named64 (detectDescendingTriangle64 candles) "Descending Triangle"
    "Ascending Triangle"
    ((detectDescendingTriangle64_cases candles).imp id (fun ⟨d, hd⟩ => by rw [hd]; rfl))
    (by decide)
  have h7 := not_named64 (detectSymmetricalTriangle64 candles) "Symmetrical Triangle"
    "Ascending Triangle"
    ((detectSymmetricalTriangle64_cases candles).imp id (fun ⟨s, t, hd⟩ => by rw [hd]; rfl))
    (by decide)
  have h5 : ((detectAscendingTriangle64 candles).Confidence.gt (float64.finite 0) &&
      ((detectAscendingTriangle64 candles).Name == "Ascending Triangle")) = true := by
    simp [hpos, hname]
  simp only [Bool.and_comm] at h1 h2 h3 h4 h5 h6 h7
  simp only [List.filter_cons, h1, h2, h3, h4, h5, h6, h7, List.filter_nil, if_true,
    Bool.false_eq_true, if_false]

theorem float64.lt_trans_le {a b c : float64} (h1 : a.lt b = true) (h2 : b.le c = true) :
    a.lt c = true := by
  cases a <;> cases b <;> cases c <;> simp [float64.lt, float64.le] at h1 h2 ⊢ <;> linarith

/-- C8 as amended: for every candle sequence of length at least 10 whose
trailing 10 candles have, as `calculateSlope` computes them in `float64`, a
low-price slope above the `float64` constant `0.001` and a high-price slope in
the half-open interval from `-0.001` to `0.001` (the upper end excluded), the
result of `detectPatterns` contains exactly one pattern named
"Ascending Triangle", and its `Confidence` lies between the `float64`
constants `0.6` and `0.9` (for every sorting procedure that rearranges the
slice). -/
theorem ascending_triangle_float_detected
    (sortSlice : (Pattern64 → Pattern64 → Bool) → List Pattern64 → List Pattern64)
    (hsort : ∀ l : List Pattern64, (sortSlice confidenceLess64 l).Perm l)
    (candles : List Candle) (hlen : candles.length ≥ 10)
    (hrising : (calculateSlope64 (trailing 10 candles) false).gt (float64.lit 0.001) = true)
    (hflat : (float64.lit (-0.001)).le (calculateSlope64 (trailing 10 candles) true) = true ∧
      (calculateSlope64 (trailing 10 candles) true).lt (float64.lit 0.001) = true) :
    ∃ p : Pattern64,
      (detectPatterns64 sortSlice candles).filter
          (fun q => q.Name == "Ascending Triangle") = [p] ∧
        (float64.lit 0.6).le p.Confidence = true ∧ p.Confidence.le (float64.lit 0.9) = true := by
  have hfire : detectAscendingTriangle64 candles =
      ascendingTrianglePattern64 (calculateSlope64 (trailing 10 candles) false) := by
    unfold detectAscendingTriangle64
    rw [if_neg (by omega)]
    simp only
    rw [if_pos (by rw [hflat.2, hrising]; rfl)]
  have hconf := ascendingTrianglePattern64_confidence _ hrising
  have hpos : (detectAscendingTriangle64 candles).Confidence.gt (float64.finite 0) = true := by
    rw [hfire]
    exact float64.lt_trans_le (b := float64.lit 0.6) (by decide!) hconf.1
  refine ⟨ascendingTrianglePattern64 (calculateSlope64 (trailing 10 candles) false), ?_, hconf⟩
  have hperm : ((detectPatterns64 sortSlice candles).filter
      (fun q => q.Name == "Ascending Triangle")).Perm
      ((collectPatterns64 candles).filter (fun q => q.Name == "Ascending Triangle")) :=
    (hsort (collectPatterns64 candles)).filter _
  rw [collectPatterns64_eq_filter, detected_named_ascending64 candles hpos (by rw [hfire]; rfl),
    hfire] at hperm
  exact List.perm_singleton.mp hperm

/-- The `float64` slopes of `flatTopBars`. -/
theorem flatTopBars_slopes64 :
    calculateSlope64 (trailing 10 flatTopBars) false = float64.finite 1 ∧
      calculateSlope64 (trailing 10 flatTopBars) true = float64.finite 0 := by
  decide!

/-- Witness for C8 as amended on `flatTopBars`: the `float64` high slope is 0
and the low slope is 1. -/
theorem ascending_triangle_float_detected_witness :
    (∀ l : List Pattern64, (insertionSortLessFunc confidenceLess64 l).Perm l) ∧
    flatTopBars.length ≥ 10 ∧
    calculateSlope64 (trailing 10 flatTopBars) false = float64.finite 1 ∧
    calculateSlope64 (trailing 10 flatTopBars) true = float64.finite 0 ∧
    ∃ p : Pattern64,
      (detectPatterns64 insertionSortLessFunc flatTopBars).filter
          (fun q => q.Name == "Ascending Triangle") = [p] ∧
        (float64.lit 0.6).le p.Confidence = true ∧ p.Confidence.le (float64.lit 0.9) = true :=
  ⟨insertionSortLessFunc_perm confidenceLess64, by decide, flatTopBars_slopes64.1,
    flatTopBars_slopes64.2,
    ascending_triangle_float_detected insertionSortLessFunc
      (insertionSortLessFunc_perm confidenceLess64) flatTopBars (by decide)
      (by rw [flatTopBars_slopes64.1]; decide!)
      ⟨by rw [flatTopBars_slopes64.2]; decide!, by rw [flatTopBars_slopes64.2]; decide!⟩⟩

/-- The `float64` slopes of `tieSlopeBars`: the high slope is the constant
`0.001`, the low slope is `0.0010002000000000001`. -/
theorem tieSlopeBars_slopes64 :
    calculateSlope64 (trailing 10 tieSlopeBars) true = float64.lit 0.001 ∧
      calculateSlope64 (trailing 10 tieSlopeBars) false =
        float64.finite (2306304177815537 / 2305843009213693952) := by
  decide!

/-- Without a computed high slope below `0.001` the ascending triangle does
not fire. -/
theorem detectAscendingTriangle64_of_not_flat (candles : List Candle)
    (h : (calculateSlope64 (trailing 10 candles) true).lt (float64.lit 0.001) = false) :
    detectAscendingTriangle64 candles = sentinel64 := by
  unfold detectAscendingTriangle64
  by_cases h1 : candles.length < 10
  · rw [if_pos h1]
  · rw [if_neg h1]
    simp only [h, Bool.false_and, Bool.false_eq_true, if_false]

/-- When the ascending triangle does not fire, no pattern of the result bears
its name. -/
theorem no_ascending_of_sentinel
    (sortSlice : (Pattern64 → Pattern64 → Bool) → List Pattern64 → List Pattern64)
    (hsort : ∀ l : List Pattern64, (sortSlice confidenceLess64 l).Perm l)
    (candles : List Candle) (h : detectAscendingTriangle64 candles = sentinel64) :
    (detectPatterns64 sortSlice candles).filter (fun q => q.Name == "Ascending Triangle") = [] := by
  have hperm : ((detectPatterns64 sortSlice candles).filter
      (fun q => q.Name == "Ascending Triangle")).Perm
      ((collectPatterns64 candles).filter (fun q => q.Name == "Ascending Triangle")) :=
    (hsort (collectPatterns64 candles)).filter _
  have hnone : (collectPatterns64 candles).filter (fun q => q.Name == "Ascending Triangle") =
      [] := by
    rw [collectPatterns64_eq_filter, List.filter_filter]
    unfold detectorOutputs64
    have h1 := not_named64 (detectHeadAndShoulders64 candles) "Head and Shoulders"
      "Ascending Triangle"
      ((detectHeadAndShoulders64_cases candles).imp id (fun ⟨d, hd⟩ => by rw [hd]; rfl))
      (by decide)
    have h2 := not_named64 (detectInverseHeadAndShoulders64 candles)
      "Inverse Head and Shoulders" "Ascending Triangle"
      ((detectInverseHeadAndShoulders64_cases candles).imp id (fun ⟨d, hd⟩ => by rw [hd]; rfl))
      (by decide)
    have h3 := not_named64 (detectDoubleTop64 candles) "Double Top" "Ascending Triangle"
      ((detectDoubleTop64_cases candles).imp id (fun ⟨d, hd⟩ => by rw [hd]; rfl)) (by decide)
    have h4 := not_named64 (detectDoubleBottom64 candles) "Double Bottom" "Ascending Triangle"
      ((detectDoubleBottom64_cases candles).imp id (fun ⟨d, hd⟩ => by rw [hd]; rfl)) (by decide)
    have h5 : ((detectAscendingTriangle64 candles).Confidence.gt (float64.finite 0) &&
        ((detectAscendingTriangle64 candles).Name == "Ascending Triangle")) = false := by
      rw [h, sentinel64_not_detected]; rfl
    have h6 := not_named64 (detectDescendingTriangle64 candles) "Descending Triangle"
      "Ascending Triangle"
      ((detectDescendingTriangle64_cases candles).imp id (fun ⟨d, hd⟩ => by rw [hd]; rfl))
      (by decide)
    have h7 := not_named64 (detectSymmetricalTriangle64 candles) "Symmetrical Triangle"
      "Ascending Triangle"
      ((detectSymmetricalTriangle64_cases candles).imp id (fun ⟨s, t, hd⟩ => by rw [hd]; rfl))
      (by decide)
    simp only [Bool.and_comm] at h1 h2 h3 h4 h5 h6 h7
    simp only [List.filter_cons, h1, h2, h3, h4, h5, h6, h7, List.filter_nil,
      Bool.false_eq_true, if_false]
  rw [hnone] at hperm
  exact List.perm_nil.mp hperm

/-- C8 as stated fails on `tieSlopeBars`: the regression slope of the lows is
above `0.001` and the regression slope of the highs is `0.001`, inside the
closed interval from `-0.001` to `0.001`, both in exact arithmetic and as
`calculateSlope` computes them in `float64`; yet `detectAscendingTriangle`
returns the sentinel and the result of `detectPatterns` holds no pattern named
"Ascending Triangle". -/
theorem ascending_triangle_missed_at_float_boundary :
    tieSlopeBars.length ≥ 10 ∧
    calculateSlope (trailing 10 tieSlopeBars) false = some (55011 / 55000000) ∧
    (55011 / 55000000 : ℚ) > 0.001 ∧
    calculateSlope (trailing 10 tieSlopeBars) true = some 0.001 ∧
    (calculateSlope64 (trailing 10 tieSlopeBars) false).gt (float64.lit 0.001) = true ∧
    calculateSlope64 (trailing 10 tieSlopeBars) true = float64.lit 0.001 ∧
    (float64.lit (-0.001)).le (calculateSlope64 (trailing 10 tieSlopeBars) true) = true ∧
    (calculateSlope64 (trailing 10 tieSlopeBars) true).le (float64.lit 0.001) = true ∧
    detectAscendingTriangle64 tieSlopeBars = sentinel64 ∧
    (detectPatterns64 insertionSortLessFunc tieSlopeBars).filter
      (fun q => q.Name == "Ascending Triangle") = [] :=
  have hsent : detectAscendingTriangle64 tieSlopeBars = sentinel64 :=
    detectAscendingTriangle64_of_not_flat _ (by rw [tieSlopeBars_slopes64.1]; decide!)
  ⟨by decide, by decide!, by decide!, by decide!, by rw [tieSlopeBars_slopes64.2]; decide!,
    tieSlopeBars_slopes64.1, by rw [tieSlopeBars_slopes64.1]; decide!,
    by rw [tieSlopeBars_slopes64.1]; decide!, hsent,
    no_ascending_of_sentinel _ (insertionSortLessFunc_perm confidenceLess64) _ hsent⟩

/-! ## Rounding error of float64 operations in the normal range -/

/-- A positive rational at most `2^k` rounds to at most `2^k`. -/
theorem roundFinite_le_pow2 (q : ℚ) (k : ℤ) (hq : 0 < q) (hk : -1074 ≤ k) (h : q ≤ pow2 k) :
    roundFinite q ≤ pow2 k := by
  rw [roundFinite_of_pos hq]
  apply roundPositive_le_pow2 q k _ h
  have h1 := (log2Floor_spec q hq).1
  have h2 : pow2 (log2Floor q) < pow2 (k + 1) :=
    lt_of_le_of_lt (le_trans h1 h) (pow2_lt_pow2_iff.mpr (by omega))
  have := pow2_lt_pow2_iff.mp h2
  unfold lastPlace
  omega

/-- A positive rational in the normal range rounds to a finite `float64` with
relative error at most `2^-53`. -/
theorem roundToFloat64_normal (q : ℚ) (h1 : pow2 (-1022) ≤ q) (h2 : q ≤ pow2 1023) :
    roundToFloat64 q = float64.finite (roundFinite q) ∧
      q * (1 - pow2 (-53)) ≤ roundFinite q ∧ roundFinite q ≤ q * (1 + pow2 (-53)) := by
  have hpos : 0 < q := lt_of_lt_of_le (pow2_pos _) h1
  have herr := roundPositive_rel_error q h1
  rw [← roundFinite_of_pos hpos, abs_le] at herr
  have hfin : roundFinite q ≤ pow2 1023 := roundFinite_le_pow2 q 1023 hpos (by norm_num) h2
  have h0 := roundFinite_nonneg hpos.le
  refine ⟨roundToFloat64_eq_finite hpos.le ?_ ?_, by linarith, by linarith⟩
  · exact lt_of_lt_of_le (neg_lt_zero.mpr (pow2_pos _)) h0
  · exact lt_of_le_of_lt hfin (pow2_lt_pow2_iff.mpr (by norm_num))

/-- Natural numbers below `2^53` are `float64` values. -/
theorem roundFinite_natCast (n : ℕ) (hn : n < 2 ^ 53) : roundFinite (n : ℚ) = n := by
  rcases Nat.eq_zero_or_pos n with h0 | hpos
  · subst h0; simp [roundFinite_zero]
  · have hq : (0 : ℚ) < (n : ℚ) := by exact_mod_cast hpos
    rw [roundFinite_of_pos hq, roundPositive_eq]
    have hlog : log2Floor (n : ℚ) < 53 := by
      have h1 := (log2Floor_spec (n : ℚ) hq).1
      have h2 : (n : ℚ) < pow2 53 := by
        rw [pow2_eq_zpow]
        have : ((2 : ℚ) ^ (53 : ℤ)) = ((2 ^ 53 : ℕ) : ℚ) := by norm_num
        rw [this]
        exact_mod_cast hn
      exact pow2_lt_pow2_iff.mp (lt_of_le_of_lt h1 h2)
    have hp : lastPlace (n : ℚ) ≤ 0 := by unfold lastPlace; omega
    obtain ⟨j, hj⟩ := Int.eq_ofNat_of_zero_le (by omega : 0 ≤ -lastPlace (n : ℚ))
    have hsplit : pow2 (lastPlace (n : ℚ)) * pow2 (j : ℤ) = 1 := by
      rw [← pow2_add, ← hj]
      have : lastPlace (n : ℚ) + -lastPlace (n : ℚ) = 0 := by ring
      rw [this]
      decide!
    have hx : (n : ℚ) / pow2 (lastPlace (n : ℚ)) = (((n * 2 ^ j : ℕ) : ℤ) : ℚ) := by
      rw [div_eq_iff (pow2_pos _).ne']
      push_cast
      rw [← zpow_natCast, ← pow2_eq_zpow, mul_assoc, mul_comm (pow2 (j : ℤ)), hsplit, mul_one]
    rw [hx, roundHalfEven_intCast]
    push_cast
    rw [← zpow_natCast, ← pow2_eq_zpow, mul_assoc, mul_comm (pow2 (j : ℤ)), hsplit, mul_one]

theorem float64.ofInt_natCast (n : ℕ) (hn : n < 2 ^ 53) :
    float64.ofInt (n : Int) = float64.finite (n : ℚ) := by
  unfold float64.ofInt
  have h := roundFinite_natCast n hn
  have hc : (((n : ℤ) : ℚ)) = (n : ℚ) := Int.cast_natCast n
  rw [hc]
  have h0 : (0 : ℚ) ≤ (n : ℚ) := Nat.cast_nonneg n
  have hlt : (n : ℚ) < pow2 1024 := by
    have : (n : ℚ) < ((2 ^ 53 : ℕ) : ℚ) := by exact_mod_cast hn
    have e : ((2 ^ 53 : ℕ) : ℚ) = pow2 53 := by decide!
    rw [e] at this
    exact lt_trans this (pow2_lt_pow2_iff.mpr (by norm_num))
  have := roundToFloat64_eq_finite (q := (n : ℚ)) h0
    (by rw [h]; exact lt_of_lt_of_le (neg_lt_zero.mpr (pow2_pos _)) h0)
    (by rw [h]; exact hlt)
  rw [this, h]

/-! ## The float64 mean of nearby prices -/

theorem pow2_neg53 : pow2 (-53) = 1 / 9007199254740992 := by decide!

theorem pow2_neg30 : pow2 (-30) = 1 / 1073741824 := by decide!

theorem natCast_mul_unit_le (c : ℕ) (hc : c ≤ 1048576) :
    (c : ℚ) * pow2 (-53) ≤ 1 / 8589934592 := by
  rw [pow2_neg53]
  have : (c : ℚ) ≤ 1048576 := by exact_mod_cast hc
  linarith

theorem range_lo {a : ℚ} (ha : pow2 (-400) ≤ a) : pow2 (-1022) ≤ a / 4 := by
  have h : pow2 (-1022) ≤ pow2 (-400) / 4 := by
    have : pow2 (-400) / 4 = pow2 (-402) := by
      have e : pow2 (-402) * pow2 2 = pow2 (-400) := by rw [← pow2_add]; norm_num
      have e2 : pow2 2 = 4 := by decide!
      rw [← e, e2]; ring
    rw [this]
    exact pow2_le_pow2 (by norm_num)
  linarith

theorem range_hi {b : ℚ} (hb : b ≤ pow2 400) : 8388608 * b ≤ pow2 1023 := by
  have e : (8388608 : ℚ) = pow2 23 := by decide!
  have h : pow2 23 * pow2 400 ≤ pow2 1023 := by
    rw [← pow2_add]; exact pow2_le_pow2 (by norm_num)
  have h0 : (0 : ℚ) ≤ 8388608 := by norm_num
  calc 8388608 * b ≤ 8388608 * pow2 400 := mul_le_mul_of_nonneg_left hb h0
    _ = pow2 23 * pow2 400 := by rw [e]
    _ ≤ pow2 1023 := h

/-- Summing `float64` prices from the left: after `c` prices between `a` and
`b` the sum lies between `c*a*(1 - c*2^-53)` and `c*b*(1 + 2*c*2^-53)`. -/
theorem foldl_add_bounds (vals : List ℚ) (a b : ℚ) (ha : pow2 (-400) ≤ a) (hab : a ≤ b)
    (hb : b ≤ pow2 400) (h : ∀ v ∈ vals, a ≤ v ∧ v ≤ b) (c : ℕ) (s : ℚ)
    (hc : c + vals.length ≤ 1048576)
    (hs1 : (c : ℚ) * a * (1 - (c : ℚ) * pow2 (-53)) ≤ s)
    (hs2 : s ≤ (c : ℚ) * b * (1 + 2 * (c : ℚ) * pow2 (-53))) :
    ∃ s' : ℚ,
      (vals.map float64.finite).foldl (fun sum p => sum.add p) (float64.finite s) =
        float64.finite s' ∧
      ((c + vals.length : ℕ) : ℚ) * a * (1 - ((c + vals.length : ℕ) : ℚ) * pow2 (-53)) ≤ s' ∧
      s' ≤ ((c + vals.length : ℕ) : ℚ) * b * (1 + 2 * ((c + vals.length : ℕ) : ℚ) * pow2 (-53)) := by
  induction vals generalizing c s with
  | nil => exact ⟨s, rfl, by simpa using hs1, by simpa using hs2⟩
  | cons v vs ih =>
    have hv := h v (List.mem_cons_self _ _)
    have hcl : c ≤ 1048576 := by simp at hc; omega
    have hcu := natCast_mul_unit_le c hcl
    have hc0 : (0 : ℚ) ≤ (c : ℚ) := Nat.cast_nonneg c
    have hcq : (c : ℚ) ≤ 1048576 := by exact_mod_cast hcl
    have hapos : 0 < a := lt_of_lt_of_le (pow2_pos _) ha
    have hbpos : 0 < b := lt_of_lt_of_le hapos hab
    have hu : pow2 (-53) = 1 / 9007199254740992 := pow2_neg53
    have hupos : (0 : ℚ) < pow2 (-53) := pow2_pos _
    have hs0 : 0 ≤ s := by
      refine le_trans ?_ hs1
      apply mul_nonneg (mul_nonneg hc0 hapos.le)
      linarith
    have hs3 : s ≤ 2 * (c : ℚ) * b := by
      refine le_trans hs2 ?_
      have : (c : ℚ) * b * (1 + 2 * (c : ℚ) * pow2 (-53)) ≤ (c : ℚ) * b * 2 := by
        apply mul_le_mul_of_nonneg_left _ (mul_nonneg hc0 hbpos.le)
        linarith
      linarith
    have hlo : pow2 (-1022) ≤ s + v := by
      have := range_lo ha
      linarith [hv.1]
    have hhi : s + v ≤ pow2 1023 := by
      have := range_hi hb
      have : s + v ≤ 8388608 * b := by
        have h1 : 2 * (c : ℚ) * b ≤ 2 * 1048576 * b := by
          apply mul_le_mul_of_nonneg_right _ hbpos.le
          linarith
        linarith [hv.2]
      linarith
    obtain ⟨hr, hr1, hr2⟩ := roundToFloat64_normal (s + v) hlo hhi
    have hstep : (float64.finite s).add (float64.finite v) =
        float64.finite (roundFinite (s + v)) := hr
    have hcast : ((c + 1 : ℕ) : ℚ) = (c : ℚ) + 1 := by push_cast; ring
    have key1 : ((c + 1 : ℕ) : ℚ) * a * (1 - ((c + 1 : ℕ) : ℚ) * pow2 (-53)) ≤
        roundFinite (s + v) := by
      rw [hcast]
      refine le_trans ?_ hr1
      have h1 : ((c : ℚ) * a * (1 - (c : ℚ) * pow2 (-53)) + a) * (1 - pow2 (-53)) ≤
          (s + v) * (1 - pow2 (-53)) := by
        apply mul_le_mul_of_nonneg_right _ (by rw [hu]; norm_num)
        linarith [hv.1]
      refine le_trans ?_ h1
      have : ((c : ℚ) * a * (1 - (c : ℚ) * pow2 (-53)) + a) * (1 - pow2 (-53)) -
          ((c : ℚ) + 1) * a * (1 - ((c : ℚ) + 1) * pow2 (-53)) =
          a * ((c : ℚ) * pow2 (-53) + ((c : ℚ) * pow2 (-53)) ^ 2) := by ring
      have hnn : 0 ≤ a * ((c : ℚ) * pow2 (-53) + ((c : ℚ) * pow2 (-53)) ^ 2) :=
        mul_nonneg hapos.le (add_nonneg (mul_nonneg hc0 hupos.le) (sq_nonneg _))
      linarith
    have key2 : roundFinite (s + v) ≤
        ((c + 1 : ℕ) : ℚ) * b * (1 + 2 * ((c + 1 : ℕ) : ℚ) * pow2 (-53)) := by
      rw [hcast]
      refine le_trans hr2 ?_
      have h1 : (s + v) * (1 + pow2 (-53)) ≤
          ((c : ℚ) * b * (1 + 2 * (c : ℚ) * pow2 (-53)) + b) * (1 + pow2 (-53)) := by
        apply mul_le_mul_of_nonneg_right _ (by rw [hu]; norm_num)
        linarith [hv.2]
      refine le_trans h1 ?_
      have : ((c : ℚ) + 1) * b * (1 + 2 * ((c : ℚ) + 1) * pow2 (-53)) -
          ((c : ℚ) * b * (1 + 2 * (c : ℚ) * pow2 (-53)) + b) * (1 + pow2 (-53)) =
          b * (pow2 (-53) + (c : ℚ) * pow2 (-53) * (3 - 2 * ((c : ℚ) * pow2 (-53)))) := by ring
      have hnn : 0 ≤ b * (pow2 (-53) + (c : ℚ) * pow2 (-53) * (3 - 2 * ((c : ℚ) * pow2 (-53)))) := by
        apply mul_nonneg hbpos.le
        apply add_nonneg hupos.le
        apply mul_nonneg (mul_nonneg hc0 hupos.le)
        linarith
      linarith
    obtain ⟨s', e, b1, b2⟩ := ih (fun w hw => h w (List.mem_cons_of_mem _ hw)) (c + 1)
      (roundFinite (s + v)) (by simp at hc ⊢; omega) key1 key2
    have hidx : c + 1 + vs.length = c + (v :: vs).length := by simp; omega
    rw [hidx] at b1 b2
    exact ⟨s', by simpa [List.foldl_cons, hstep] using e, b1, b2⟩

/-- The `float64` mean of at most `2^20` prices between `a` and `b` lies
between `a*(1 - 2^-30)` and `b*(1 + 2^-30)`. -/
theorem mean64_bounds (vals : List ℚ) (a b : ℚ) (ha : pow2 (-400) ≤ a) (hab : a ≤ b)
    (hb : b ≤ pow2 400) (hne : vals ≠ []) (hlen : vals.length ≤ 1048576)
    (h : ∀ v ∈ vals, a ≤ v ∧ v ≤ b) :
    ∃ m : ℚ, mean64 (vals.map float64.finite) = float64.finite m ∧
      a * (1 - pow2 (-30)) ≤ m ∧ m ≤ b * (1 + pow2 (-30)) := by
  obtain ⟨s, es, s1, s2⟩ := foldl_add_bounds vals a b ha hab hb h 0 0 (by simpa using hlen)
    (by simp) (by simp)
  simp only [Nat.zero_add] at s1 s2
  have hn0 : 0 < vals.length := List.length_pos.mpr hne
  have hnq : (0 : ℚ) < (vals.length : ℚ) := by exact_mod_cast hn0
  have hnle : (vals.length : ℚ) ≤ 1048576 := by exact_mod_cast hlen
  have hnu := natCast_mul_unit_le vals.length hlen
  have hapos : 0 < a := lt_of_lt_of_le (pow2_pos _) ha
  have hbpos : 0 < b := lt_of_lt_of_le hapos hab
  have hu : pow2 (-53) = 1 / 9007199254740992 := pow2_neg53
  have he : pow2 (-30) = 1 / 1073741824 := pow2_neg30
  have hupos : (0 : ℚ) < pow2 (-53) := pow2_pos _
  have hnu0 : 0 ≤ (vals.length : ℚ) * pow2 (-53) := mul_nonneg hnq.le hupos.le
  -- the quotient sum / n
  have q1 : a * (1 - (vals.length : ℚ) * pow2 (-53)) ≤ s / (vals.length : ℚ) := by
    rw [le_div_iff₀ hnq]
    linarith
  have q2 : s / (vals.length : ℚ) ≤ b * (1 + 2 * (vals.length : ℚ) * pow2 (-53)) := by
    rw [div_le_iff₀ hnq]
    linarith
  have q1' : a / 2 ≤ s / (vals.length : ℚ) := by
    refine le_trans ?_ q1
    have : a * (1 / 2) ≤ a * (1 - (vals.length : ℚ) * pow2 (-53)) :=
      mul_le_mul_of_nonneg_left (by linarith) hapos.le
    linarith
  have q2' : s / (vals.length : ℚ) ≤ 2 * b := by
    refine le_trans q2 ?_
    have : b * (1 + 2 * (vals.length : ℚ) * pow2 (-53)) ≤ b * 2 :=
      mul_le_mul_of_nonneg_left (by linarith) hbpos.le
    linarith
  obtain ⟨hr, hr1, hr2⟩ := roundToFloat64_normal (s / (vals.length : ℚ))
    (by have := range_lo ha; linarith) (by have := range_hi hb; linarith)
  refine ⟨roundFinite (s / (vals.length : ℚ)), ?_, ?_, ?_⟩
  · unfold mean64 sum64
    rw [es, List.length_map, float64.ofInt_natCast _ (lt_of_le_of_lt hlen (by norm_num)),
      float64.div_finite _ _ hnq, hr]
  · refine le_trans ?_ hr1
    have h1 : a * (1 - (vals.length : ℚ) * pow2 (-53)) * (1 - pow2 (-53)) ≤
        s / (vals.length : ℚ) * (1 - pow2 (-53)) :=
      mul_le_mul_of_nonneg_right q1 (by rw [hu]; norm_num)
    refine le_trans ?_ h1
    have : a * (1 - pow2 (-30)) ≤
        a * ((1 - (vals.length : ℚ) * pow2 (-53)) * (1 - pow2 (-53))) := by
      apply mul_le_mul_of_nonneg_left _ hapos.le
      have : (1 - (vals.length : ℚ) * pow2 (-53)) * (1 - pow2 (-53)) =
          1 - (vals.length : ℚ) * pow2 (-53) - pow2 (-53) +
            (vals.length : ℚ) * pow2 (-53) * pow2 (-53) := by ring
      rw [this, he]
      have : 0 ≤ (vals.length : ℚ) * pow2 (-53) * pow2 (-53) := mul_nonneg hnu0 hupos.le
      rw [hu] at hnu this ⊢
      linarith
    linarith
  · refine le_trans hr2 ?_
    have h1 : s / (vals.length : ℚ) * (1 + pow2 (-53)) ≤
        b * (1 + 2 * (vals.length : ℚ) * pow2 (-53)) * (1 + pow2 (-53)) :=
      mul_le_mul_of_nonneg_right q2 (by rw [hu]; norm_num)
    refine le_trans h1 ?_
    have : b * ((1 + 2 * (vals.length : ℚ) * pow2 (-53)) * (1 + pow2 (-53))) ≤
        b * (1 + pow2 (-30)) := by
      apply mul_le_mul_of_nonneg_left _ hbpos.le
      have : (1 + 2 * (vals.length : ℚ) * pow2 (-53)) * (1 + pow2 (-53)) =
          1 + 2 * ((vals.length : ℚ) * pow2 (-53)) + pow2 (-53) +
            2 * ((vals.length : ℚ) * pow2 (-53)) * pow2 (-53) := by ring
      rw [this, he]
      have : (vals.length : ℚ) * pow2 (-53) * pow2 (-53) ≤ 1 / 8589934592 * pow2 (-53) :=
        mul_le_mul_of_nonneg_right hnu hupos.le
      rw [hu] at hnu this ⊢
      linarith
    linarith

/-! ## The tolerance test of clusterLevels in float64 -/

theorem float64.sub_finite (x m : ℚ) (hm : m ≠ 0) :
    (float64.finite x).sub (float64.finite m) = roundToFloat64 (x - m) := by
  simp only [float64.sub, float64.neg, if_neg hm, float64.add, sub_eq_add_neg]

theorem lit_two_percent : float64.lit 0.02 = float64.finite (roundFinite 0.02) :=
  float64.lit_eq_finite _ (by norm_num) (by decide!)

/-- Two `float64` numbers in a range whose ends differ by less than 2% pass
the tolerance test of `clusterLevels`. -/
theorem withinTolerance64_of_close (x m a b : ℚ) (ha : pow2 (-400) ≤ a) (hab : a ≤ b)
    (hb : b ≤ pow2 400) (htight : b ≤ 1.01999991 * a)
    (hx : a * (1 - pow2 (-30)) ≤ x ∧ x ≤ b * (1 + pow2 (-30)))
    (hm : a * (1 - pow2 (-30)) ≤ m ∧ m ≤ b * (1 + pow2 (-30))) :
    withinTolerance64 (float64.finite x) (float64.finite m) (float64.lit 0.02) = true := by
  have hapos : 0 < a := lt_of_lt_of_le (pow2_pos _) ha
  have hbpos : 0 < b := lt_of_lt_of_le hapos hab
  have hu : pow2 (-53) = 1 / 9007199254740992 := pow2_neg53
  have he : pow2 (-30) = 1 / 1073741824 := pow2_neg30
  have hmpos : 0 < m := by
    refine lt_of_lt_of_le ?_ hm.1
    apply mul_pos hapos
    rw [he]; norm_num
  -- the largest possible difference
  have hD1 : x - m ≤ b * (1 + pow2 (-30)) - a * (1 - pow2 (-30)) := by linarith [hx.2, hm.1]
  have hD2 : -(b * (1 + pow2 (-30)) - a * (1 - pow2 (-30))) ≤ x - m := by
    linarith [hx.1, hm.2]
  have hDlo : pow2 (-1022) ≤ b * (1 + pow2 (-30)) - a * (1 - pow2 (-30)) := by
    have h1 : pow2 (-1022) ≤ pow2 (-400) * pow2 (-30) := by
      rw [← pow2_add]; exact pow2_le_pow2 (by norm_num)
    have h2 : pow2 (-400) * pow2 (-30) ≤ a * pow2 (-30) :=
      mul_le_mul_of_nonneg_right ha (pow2_pos _).le
    have h3 : a * pow2 (-30) ≤ b * (1 + pow2 (-30)) - a * (1 - pow2 (-30)) := by
      have : 0 ≤ b * pow2 (-30) := mul_nonneg hbpos.le (pow2_pos _).le
      linarith
    linarith
  have hDhi : b * (1 + pow2 (-30)) - a * (1 - pow2 (-30)) ≤ pow2 1023 := by
    have := range_hi hb
    have h1 : b * (1 + pow2 (-30)) ≤ b * 2 :=
      mul_le_mul_of_nonneg_left (by rw [he]; norm_num) hbpos.le
    have h2 : 0 ≤ a * (1 - pow2 (-30)) := mul_nonneg hapos.le (by rw [he]; norm_num)
    linarith
  obtain ⟨_, _, hrD⟩ := roundToFloat64_normal _ hDlo hDhi
  have hrDfin : roundFinite (b * (1 + pow2 (-30)) - a * (1 - pow2 (-30))) ≤ pow2 1023 :=
    roundFinite_le_pow2 _ 1023 (lt_of_lt_of_le (pow2_pos _) hDlo) (by norm_num) hDhi
  have hlt : pow2 1023 < pow2 1024 := pow2_lt_pow2_iff.mpr (by norm_num)
  obtain ⟨hs, hs1, hs2⟩ := roundToFloat64_abs_between _ _ _ hD2 hD1
    (by rw [roundFinite_neg]; linarith) (by linarith)
  rw [roundFinite_neg] at hs1
  have habs : |roundFinite (x - m)| ≤
      (b * (1 + pow2 (-30)) - a * (1 - pow2 (-30))) * (1 + pow2 (-53)) :=
    le_trans (abs_le.mpr ⟨hs1, hs2⟩) hrD
  -- the quotient is at most 0.02
  have hq : |roundFinite (x - m)| / m ≤ 0.02 := by
    rw [div_le_iff₀ hmpos]
    refine le_trans habs ?_
    have h1 : (0.02 : ℚ) * (a * (1 - pow2 (-30))) ≤ 0.02 * m :=
      mul_le_mul_of_nonneg_left hm.1 (by norm_num)
    refine le_trans ?_ h1
    have h2 : b * (1 + pow2 (-30)) ≤ 1.01999991 * a * (1 + pow2 (-30)) :=
      mul_le_mul_of_nonneg_right htight (by rw [he]; norm_num)
    have h3 : (b * (1 + pow2 (-30)) - a * (1 - pow2 (-30))) * (1 + pow2 (-53)) ≤
        (1.01999991 * a * (1 + pow2 (-30)) - a * (1 - pow2 (-30))) * (1 + pow2 (-53)) :=
      mul_le_mul_of_nonneg_right (by linarith) (by rw [hu]; norm_num)
    refine le_trans h3 ?_
    rw [hu, he]
    have : (1.01999991 * a * (1 + 1 / 1073741824) - a * (1 - 1 / 1073741824)) *
        (1 + 1 / 9007199254740992) =
        a * ((1.01999991 * (1 + 1 / 1073741824) - (1 - 1 / 1073741824)) *
          (1 + 1 / 9007199254740992)) := by ring
    rw [this]
    have : (0.02 : ℚ) * (a * (1 - 1 / 1073741824)) = a * (0.02 * (1 - 1 / 1073741824)) := by ring
    rw [this]
    exact mul_le_mul_of_nonneg_left (by norm_num) hapos.le
  obtain ⟨hd, _, hd2⟩ := roundToFloat64_between 0 0.02
    (|roundFinite (x - m)| / m) le_rfl (div_nonneg (abs_nonneg _) hmpos.le) hq
    (by decide!)
  unfold withinTolerance64
  rw [float64.sub_finite _ _ hmpos.ne', hs, float64.div_finite _ _ hmpos, hd, lit_two_percent]
  simpa [float64.le] using hd2

/-- A `float64` number more than 2% above another fails the tolerance test of
`clusterLevels` against it. -/
theorem withinTolerance64_of_far (y m : ℚ) (hm : pow2 (-401) ≤ m) (hy : y ≤ pow2 401)
    (hfar : 1.02000009 * m ≤ y) :
    withinTolerance64 (float64.finite y) (float64.finite m) (float64.lit 0.02) = false := by
  have hmpos : 0 < m := lt_of_lt_of_le (pow2_pos _) hm
  have hu : pow2 (-53) = 1 / 9007199254740992 := pow2_neg53
  have hdlo : 0.02000009 * m ≤ y - m := by linarith
  have hlo : pow2 (-1022) ≤ y - m := by
    have h1 : pow2 (-1022) ≤ pow2 (-6) * pow2 (-401) := by
      rw [← pow2_add]; exact pow2_le_pow2 (by norm_num)
    have e : pow2 (-6) = 1 / 64 := by decide!
    have h2 : pow2 (-6) * pow2 (-401) ≤ 0.02000009 * m := by
      rw [e]
      have : (1 / 64 : ℚ) * pow2 (-401) ≤ 1 / 64 * m :=
        mul_le_mul_of_nonneg_left hm (by norm_num)
      linarith
    linarith
  have hhi : y - m ≤ pow2 1023 := by
    have : pow2 401 ≤ pow2 1023 := pow2_le_pow2 (by norm_num)
    linarith
  obtain ⟨hs, hs1, hs2⟩ := roundToFloat64_normal (y - m) hlo hhi
  have hrpos : 0 < roundFinite (y - m) := by
    refine lt_of_lt_of_le ?_ hs1
    apply mul_pos (lt_of_lt_of_le (pow2_pos _) hlo)
    rw [hu]; norm_num
  -- the quotient is at least 0.02000008
  have hq1 : (0.02000008 : ℚ) ≤ roundFinite (y - m) / m := by
    rw [le_div_iff₀ hmpos]
    refine le_trans ?_ hs1
    have h1 : 0.02000009 * m * (1 - pow2 (-53)) ≤ (y - m) * (1 - pow2 (-53)) :=
      mul_le_mul_of_nonneg_right hdlo (by rw [hu]; norm_num)
    refine le_trans ?_ h1
    rw [hu]
    have : (0.02000009 : ℚ) * m * (1 - 1 / 9007199254740992) =
        m * (0.02000009 * (1 - 1 / 9007199254740992)) := by ring
    rw [this, mul_comm]
    exact mul_le_mul_of_nonneg_left (by norm_num) hmpos.le
  have hq2 : roundFinite (y - m) / m ≤ pow2 804 := by
    rw [div_le_iff₀ hmpos]
    have h1 : roundFinite (y - m) ≤ pow2 403 := by
      refine roundFinite_le_pow2 _ 403 (lt_of_lt_of_le (pow2_pos _) hlo) (by norm_num) ?_
      have : pow2 401 ≤ pow2 403 := pow2_le_pow2 (by norm_num)
      linarith
    have h2 : pow2 403 = pow2 804 * pow2 (-401) := by rw [← pow2_add]; norm_num
    have h3 : pow2 804 * pow2 (-401) ≤ pow2 804 * m :=
      mul_le_mul_of_nonneg_left hm (pow2_pos _).le
    linarith
  have hfin : roundFinite (pow2 804) < pow2 1024 :=
    lt_of_le_of_lt (roundFinite_le_pow2 _ 804 (pow2_pos _) (by norm_num) le_rfl)
      (pow2_lt_pow2_iff.mpr (by norm_num))
  obtain ⟨hd, hd1, _⟩ := roundToFloat64_between _ _ _ (by norm_num) hq1 hq2 hfin
  have hgt : roundFinite 0.02 < roundFinite 0.02000008 := by decide!
  unfold withinTolerance64
  rw [float64.sub_finite _ _ hmpos.ne', hs, float64.abs, abs_of_pos hrpos,
    float64.div_finite _ _ hmpos, hd, lit_two_percent]
  simp only [float64.le, decide_eq_false_iff_not, not_le]
  exact lt_of_lt_of_le hgt hd1

/-! ## Sorting float64 prices -/

theorem float64sLess_asymm (a b : float64) (h : float64sLess a b = true) :
    float64sLess b a = false := by
  cases a <;> cases b <;> simp [float64sLess, float64.lt] at h ⊢ <;> linarith

theorem float64sLess_negTrans (a b c : float64) (h1 : float64sLess a b = false)
    (h2 : float64sLess b c = false) : float64sLess a c = false := by
  cases a <;> cases b <;> cases c <;> simp [float64sLess, float64.lt] at h1 h2 ⊢ <;> linarith

theorem float64sLess_antisymm (a b : ℚ)
    (h1 : float64sLess (float64.finite b) (float64.finite a) = false)
    (h2 : float64sLess (float64.finite a) (float64.finite b) = false) : a = b := by
  simp [float64sLess, float64.lt] at h1 h2
  exact le_antisymm h1 h2

/-- The insertion sort of `sort.Float64s` meets the contract of
`sort.Float64s`. -/
theorem sortFloat64s_contract : SortFloat64sContract sortFloat64s :=
  insertionSortLessFunc_contract float64sLess float64sLess_asymm float64sLess_negTrans

/-- Finite `float64` numbers have one ascending arrangement: every procedure
that meets the contract of `sort.Float64s` sorts their values. -/
theorem sortFloats_finite (sortFloats : List float64 → List float64)
    (hsort : SortFloat64sContract sortFloats) (vals : List ℚ) :
    sortFloats (vals.map float64.finite) =
      (vals.insertionSort (fun a b => a ≤ b)).map float64.finite := by
  have hc := hsort (vals.map float64.finite)
  refine @List.Perm.eq_of_sorted _ (fun a b : float64 => float64sLess b a = false) _ _ ?_ hc.2 ?_
    (hc.1.trans ((List.perm_insertionSort _ vals).symm.map _))
  · intro a b ha hb h1 h2
    obtain ⟨x, _, rfl⟩ := List.mem_map.mp (hc.1.subset ha)
    obtain ⟨y, _, rfl⟩ := List.mem_map.mp hb
    rw [float64sLess_antisymm x y h1 h2]
  · rw [List.pairwise_map]
    refine (List.sorted_insertionSort (fun a b : ℚ => a ≤ b) vals).imp ?_
    intro a b hab
    simpa [float64sLess, float64.lt] using hab

/-- Sorting finite `float64` numbers sorts their values. -/
theorem sortFloat64s_finite (vals : List ℚ) :
    sortFloat64s (vals.map float64.finite) =
      (vals.insertionSort (fun a b => a ≤ b)).map float64.finite :=
  sortFloats_finite sortFloat64s sortFloat64s_contract vals

/-! ## Well-separated tight groups in float64 -/

theorem placePrice64_append_reject (tolerance x : float64) (pre rest : List cluster64)
    (h : ∀ p ∈ pre, withinTolerance64 x p.Price tolerance = false) :
    placePrice64 tolerance x (pre ++ rest) = pre ++ placePrice64 tolerance x rest := by
  induction pre with
  | nil => rfl
  | cons p ps ih =>
    have hp := h p (List.mem_cons_self _ _)
    have ih' := ih (fun q hq => h q (List.mem_cons_of_mem _ hq))
    show placePrice64 tolerance x (p :: (ps ++ rest)) = p :: (ps ++ placePrice64 tolerance x rest)
    rw [← ih']
    simp only [placePrice64, hp, Bool.false_eq_true, if_false]

theorem joinCluster64_eq (price avg : float64) (count : Int) (members : List float64) :
    joinCluster64 ⟨avg, count, members⟩ price =
      ⟨mean64 (members ++ [price]), ((members ++ [price]).length : Int), members ++ [price]⟩ :=
  rfl

theorem widen_range {a b v : ℚ} (ha : 0 < a) (hab : a ≤ b) (h : a ≤ v ∧ v ≤ b) :
    a * (1 - pow2 (-30)) ≤ v ∧ v ≤ b * (1 + pow2 (-30)) := by
  have he : pow2 (-30) = 1 / 1073741824 := pow2_neg30
  have hb : 0 < b := lt_of_lt_of_le ha hab
  constructor
  · have : a * (1 - pow2 (-30)) ≤ a * 1 :=
      mul_le_mul_of_nonneg_left (by rw [he]; norm_num) ha.le
    linarith [h.1]
  · have : b * 1 ≤ b * (1 + pow2 (-30)) :=
      mul_le_mul_of_nonneg_left (by rw [he]; norm_num) hb.le
    linarith [h.2]

theorem foldl_placePrice64_group (pre : List cluster64) (group members : List ℚ) (p a b : ℚ)
    (ha : pow2 (-400) ≤ a) (hab : a ≤ b) (hb : b ≤ pow2 400) (htight : b ≤ 1.01999991 * a)
    (hne : members ≠ []) (hsize : (members ++ group).length ≤ 1048576)
    (hval : ∀ v ∈ members ++ group, a ≤ v ∧ v ≤ b)
    (hp : a * (1 - pow2 (-30)) ≤ p ∧ p ≤ b * (1 + pow2 (-30)))
    (hpre : ∀ c ∈ pre, ∀ x ∈ group,
      withinTolerance64 (float64.finite x) c.Price (float64.lit 0.02) = false) :
    (group.map float64.finite).foldl
        (fun clusters price => placePrice64 (float64.lit 0.02) price clusters)
        (pre ++ [⟨float64.finite p, (members.length : Int), members.map float64.finite⟩]) =
      pre ++ [⟨if group = [] then float64.finite p
                else mean64 ((members ++ group).map float64.finite),
              ((members ++ group).length : Int), (members ++ group).map float64.finite⟩] := by
  induction group generalizing members p with
  | nil => simp
  | cons x g ih =>
    have hapos : 0 < a := lt_of_lt_of_le (pow2_pos _) ha
    have hxmem : x ∈ members ++ x :: g := by simp
    have hw : withinTolerance64 (float64.finite x) (float64.finite p) (float64.lit 0.02) = true :=
      withinTolerance64_of_close x p a b ha hab hb htight
        (widen_range hapos hab (hval x hxmem)) hp
    have hassoc : members ++ [x] ++ g = members ++ x :: g := by simp
    obtain ⟨p', hp', hb1, hb2⟩ := mean64_bounds (members ++ [x]) a b ha hab hb (by simp)
      (by
        have : (members ++ [x]).length ≤ (members ++ x :: g).length := by simp
        omega)
      (fun v hv => hval v (by
        rcases List.mem_append.mp hv with h | h
        · exact List.mem_append_left _ h
        · rw [List.mem_singleton] at h; subst h; exact hxmem))
    have hstep : placePrice64 (float64.lit 0.02) (float64.finite x)
        (pre ++ [⟨float64.finite p, (members.length : Int), members.map float64.finite⟩]) =
        pre ++ [⟨float64.finite p', ((members ++ [x]).length : Int),
          (members ++ [x]).map float64.finite⟩] := by
      rw [placePrice64_append_reject _ _ pre _
        (fun c hc => hpre c hc x (List.mem_cons_self _ _))]
      simp only [placePrice64, hw, if_true, joinCluster64_eq]
      rw [← hp']
      simp
    simp only [List.map_cons, List.foldl_cons, hstep]
    rw [ih (members ++ [x]) p' (by simp) (by rw [hassoc]; exact hsize)
      (by rw [hassoc]; exact hval) ⟨hb1, hb2⟩
      (fun c hc y hy => hpre c hc y (List.mem_cons_of_mem _ hy)), hassoc]
    by_cases hg : g = []
    · subst hg
      simp only [if_true, List.cons_ne_self, if_false, ← hp']
    · simp [hg]

theorem foldl_placePrice64_new_group (pre : List cluster64) (group : List ℚ) (a b : ℚ)
    (ha : pow2 (-400) ≤ a) (hab : a ≤ b) (hb : b ≤ pow2 400) (htight : b ≤ 1.01999991 * a)
    (h2 : 2 ≤ group.length) (hsize : group.length ≤ 1048576)
    (hval : ∀ v ∈ group, a ≤ v ∧ v ≤ b)
    (hpre : ∀ c ∈ pre, ∀ x ∈ group,
      withinTolerance64 (float64.finite x) c.Price (float64.lit 0.02) = false) :
    (group.map float64.finite).foldl
        (fun clusters price => placePrice64 (float64.lit 0.02) price clusters) pre =
      pre ++ [⟨mean64 (group.map float64.finite), (group.length : Int),
        group.map float64.finite⟩] := by
  match group, h2 with
  | x :: y :: g, _ =>
    have hapos : 0 < a := lt_of_lt_of_le (pow2_pos _) ha
    have hstep : placePrice64 (float64.lit 0.02) (float64.finite x) pre =
        pre ++ [⟨float64.finite x, (([x] : List ℚ).length : Int),
          ([x] : List ℚ).map float64.finite⟩] := by
      have := placePrice64_append_reject (float64.lit 0.02) (float64.finite x) pre []
        (fun c hc => hpre c hc x (List.mem_cons_self _ _))
      rw [List.append_nil] at this
      rw [this]
      rfl
    simp only [List.map_cons, List.foldl_cons, hstep]
    have := foldl_placePrice64_group pre (y :: g) [x] x a b ha hab hb htight (by simp)
      (by simpa using hsize) (by simpa using hval)
      (widen_range hapos hab (hval x (List.mem_cons_self _ _)))
      (fun c hc z hz => hpre c hc z (List.mem_cons_of_mem _ hz))
    simpa using this

theorem exists_min_max (l : List ℚ) (hne : l ≠ []) :
    ∃ lo ∈ l, ∃ hi ∈ l, ∀ x ∈ l, lo ≤ x ∧ x ≤ hi := by
  induction l with
  | nil => exact absurd rfl hne
  | cons x xs ih =>
    by_cases hxs : xs = []
    · subst hxs
      exact ⟨x, by simp, x, by simp, fun y hy => by simp at hy; subst hy; exact ⟨le_rfl, le_rfl⟩⟩
    · obtain ⟨lo, hlo, hi, hhi, h⟩ := ih hxs
      refine ⟨min x lo, ?_, max x hi, ?_, ?_⟩
      · rcases min_choice x lo with e | e <;> rw [e] <;> simp [hlo]
      · rcases max_choice x hi with e | e <;> rw [e] <;> simp [hhi]
      · intro y hy
        rcases List.mem_cons.mp hy with rfl | hy
        · exact ⟨min_le_left _ _, le_max_left _ _⟩
        · exact ⟨le_trans (min_le_right _ _) (h y hy).1, le_trans (h y hy).2 (le_max_right _ _)⟩

theorem decimal_range_lo : pow2 (-333) ≤ (1 : ℚ) / 10 ^ 100 := by decide!

theorem decimal_range_hi : (10 : ℚ) ^ 100 ≤ pow2 333 := by decide!

/-- A decimal between `10^-100` and `10^100` converts to a finite `float64`
with relative error at most `2^-53`. -/
theorem InexactFloat64_decimal (x : ℚ) (hx : 1 / 10 ^ 100 ≤ x ∧ x ≤ 10 ^ 100) :
    InexactFloat64 x = float64.finite (roundFinite x) ∧
      x * (1 - pow2 (-53)) ≤ roundFinite x ∧ roundFinite x ≤ x * (1 + pow2 (-53)) := by
  have h1 : pow2 (-1022) ≤ x :=
    le_trans (le_trans (pow2_le_pow2 (by norm_num)) decimal_range_lo) hx.1
  have h2 : x ≤ pow2 1023 :=
    le_trans hx.2 (le_trans decimal_range_hi (pow2_le_pow2 (by norm_num)))
  exact roundToFloat64_normal x h1 h2

theorem map_InexactFloat64 (l : List ℚ) (h : ∀ x ∈ l, 1 / 10 ^ 100 ≤ x ∧ x ≤ 10 ^ 100) :
    l.map InexactFloat64 = (l.map roundFinite).map float64.finite := by
  rw [List.map_map]
  apply List.map_congr_left
  intro x hx
  exact (InexactFloat64_decimal x (h x hx)).1

/-- The `float64` values of a group of decimals between `lo` and `hi` lie in a
range fit for the lemmas on `float64` clusters. -/
theorem group_range (group : List ℚ) (lo hi : ℚ) (hlo : 1 / 10 ^ 100 ≤ lo) (hhi : hi ≤ 10 ^ 100)
    (hlohi : lo ≤ hi) (h : ∀ x ∈ group, lo ≤ x ∧ x ≤ hi) :
    pow2 (-400) ≤ lo * (1 - pow2 (-53)) ∧ lo * (1 - pow2 (-53)) ≤ hi * (1 + pow2 (-53)) ∧
      hi * (1 + pow2 (-53)) ≤ pow2 400 ∧
      ∀ v ∈ (group.map roundFinite).insertionSort (fun a b => a ≤ b),
        lo * (1 - pow2 (-53)) ≤ v ∧ v ≤ hi * (1 + pow2 (-53)) := by
  have hu : pow2 (-53) = 1 / 9007199254740992 := pow2_neg53
  have hlopos : 0 < lo := lt_of_lt_of_le (lt_of_lt_of_le (pow2_pos _) decimal_range_lo) hlo
  have hhipos : 0 < hi := lt_of_lt_of_le hlopos hlohi
  have h1 : pow2 (-333) ≤ lo := le_trans decimal_range_lo hlo
  have h2 : hi ≤ pow2 333 := le_trans hhi decimal_range_hi
  refine ⟨?_, ?_, ?_, ?_⟩
  · have e : pow2 (-400) ≤ pow2 (-333) * pow2 (-1) := by
      rw [← pow2_add]; exact pow2_le_pow2 (by norm_num)
    have e1 : pow2 (-1) = 1 / 2 := by decide!
    have : pow2 (-333) * (1 / 2) ≤ lo * (1 - pow2 (-53)) := by
      apply mul_le_mul h1 (by rw [hu]; norm_num) (by norm_num) hlopos.le
    rw [e1] at e
    linarith
  · have a1 : lo * (1 - pow2 (-53)) ≤ lo * 1 :=
      mul_le_mul_of_nonneg_left (by rw [hu]; norm_num) hlopos.le
    have a2 : hi * 1 ≤ hi * (1 + pow2 (-53)) :=
      mul_le_mul_of_nonneg_left (by rw [hu]; norm_num) hhipos.le
    linarith
  · have e : pow2 333 * pow2 1 ≤ pow2 400 := by
      rw [← pow2_add]; exact pow2_le_pow2 (by norm_num)
    have e1 : pow2 1 = 2 := by decide!
    have : hi * (1 + pow2 (-53)) ≤ pow2 333 * 2 := by
      apply mul_le_mul h2 (by rw [hu]; norm_num) (by rw [hu]; norm_num) (pow2_pos _).le
    rw [e1] at e
    linarith
  · intro v hv
    rw [List.mem_insertionSort, List.mem_map] at hv
    obtain ⟨x, hx, rfl⟩ := hv
    have hxr := h x hx
    have hxpos : 0 < x := lt_of_lt_of_le hlopos hxr.1
    obtain ⟨_, r1, r2⟩ := InexactFloat64_decimal x
      ⟨le_trans hlo hxr.1, le_trans hxr.2 hhi⟩
    have a1 : lo * (1 - pow2 (-53)) ≤ x * (1 - pow2 (-53)) :=
      mul_le_mul_of_nonneg_right hxr.1 (by rw [hu]; norm_num)
    have a2 : x * (1 + pow2 (-53)) ≤ hi * (1 + pow2 (-53)) :=
      mul_le_mul_of_nonneg_right hxr.2 (by rw [hu]; norm_num)
    exact ⟨le_trans a1 r1, le_trans r2 a2⟩

/-- The two clusters `clusterLevels` builds in `float64` from two
well-separated tight groups of decimal prices. -/
theorem clusterLevels64_two_groups (sortFloats : List float64 → List float64)
    (hfloats : SortFloat64sContract sortFloats) (prices lower higher : List ℚ)
    (hsplit : prices.Perm (lower ++ higher))
    (hl2 : lower.length ≥ 2) (hh2 : higher.length ≥ 2) (hsize : prices.length ≤ 1000000)
    (hrange : ∀ x ∈ prices, 1 / 10 ^ 100 ≤ x ∧ x ≤ 10 ^ 100)
    (hltight : ∀ x ∈ lower, ∀ y ∈ lower, y ≤ 1.0199999 * x)
    (hhtight : ∀ x ∈ higher, ∀ y ∈ higher, y ≤ 1.0199999 * x)
    (hsep : ∀ x ∈ lower, ∀ y ∈ higher, 1.0200001 * x ≤ y) :
    clusterLevels64 sortFloats (prices.map InexactFloat64) (float64.lit 0.02) =
      [⟨mean64 (sortFloats (lower.map InexactFloat64)), (lower.length : Int),
          sortFloats (lower.map InexactFloat64)⟩,
        ⟨mean64 (sortFloats (higher.map InexactFloat64)), (higher.length : Int),
          sortFloats (higher.map InexactFloat64)⟩] := by
  have hu : pow2 (-53) = 1 / 9007199254740992 := pow2_neg53
  have he : pow2 (-30) = 1 / 1073741824 := pow2_neg30
  have hlmem : ∀ x ∈ lower, x ∈ prices := fun x hx =>
    hsplit.mem_iff.mpr (List.mem_append_left _ hx)
  have hhmem : ∀ x ∈ higher, x ∈ prices := fun x hx =>
    hsplit.mem_iff.mpr (List.mem_append_right _ hx)
  have hpos : ∀ x ∈ prices, 0 < x := fun x hx =>
    lt_of_lt_of_le (lt_of_lt_of_le (pow2_pos _) decimal_range_lo) (hrange x hx).1
  have hlen : lower.length + higher.length ≤ 1000000 := by
    have := hsplit.length_eq
    rw [List.length_append] at this
    omega
  have hneL : lower ≠ [] := by intro h; rw [h] at hl2; simp at hl2
  have hneH : higher ≠ [] := by intro h; rw [h] at hh2; simp at hh2
  obtain ⟨loL, hloL, hiL, hhiL, hL⟩ := exists_min_max lower hneL
  obtain ⟨loH, hloH, hiH, hhiH, hH⟩ := exists_min_max higher hneH
  have hloLpos : 0 < loL := hpos _ (hlmem _ hloL)
  have hhiLpos : 0 < hiL := hpos _ (hlmem _ hhiL)
  have hloHpos : 0 < loH := hpos _ (hhmem _ hloH)
  -- the float64 ranges of the two groups
  obtain ⟨aL1, aL2, aL3, aL4⟩ := group_range lower loL hiL (hrange _ (hlmem _ hloL)).1
    (hrange _ (hlmem _ hhiL)).2 (hL hiL hhiL).1 hL
  obtain ⟨aH1, aH2, aH3, aH4⟩ := group_range higher loH hiH (hrange _ (hhmem _ hloH)).1
    (hrange _ (hhmem _ hhiH)).2 (hH hiH hhiH).1 hH
  have tL : hiL * (1 + pow2 (-53)) ≤ 1.01999991 * (loL * (1 - pow2 (-53))) := by
    have h1 := hltight loL hloL hiL hhiL
    have h2 : hiL * (1 + pow2 (-53)) ≤ 1.0199999 * loL * (1 + pow2 (-53)) :=
      mul_le_mul_of_nonneg_right h1 (by rw [hu]; norm_num)
    refine le_trans h2 ?_
    rw [hu]
    have : (1.0199999 : ℚ) * loL * (1 + 1 / 9007199254740992) =
        loL * (1.0199999 * (1 + 1 / 9007199254740992)) := by ring
    rw [this]
    have : (1.01999991 : ℚ) * (loL * (1 - 1 / 9007199254740992)) =
        loL * (1.01999991 * (1 - 1 / 9007199254740992)) := by ring
    rw [this]
    exact mul_le_mul_of_nonneg_left (by norm_num) hloLpos.le
  have tH : hiH * (1 + pow2 (-53)) ≤ 1.01999991 * (loH * (1 - pow2 (-53))) := by
    have h1 := hhtight loH hloH hiH hhiH
    have h2 : hiH * (1 + pow2 (-53)) ≤ 1.0199999 * loH * (1 + pow2 (-53)) :=
      mul_le_mul_of_nonneg_right h1 (by rw [hu]; norm_num)
    refine le_trans h2 ?_
    rw [hu]
    have : (1.0199999 : ℚ) * loH * (1 + 1 / 9007199254740992) =
        loH * (1.0199999 * (1 + 1 / 9007199254740992)) := by ring
    rw [this]
    have : (1.01999991 : ℚ) * (loH * (1 - 1 / 9007199254740992)) =
        loH * (1.01999991 * (1 - 1 / 9007199254740992)) := by ring
    rw [this]
    exact mul_le_mul_of_nonneg_left (by norm_num) hloHpos.le
  -- the sorted float64 prices
  have hlenL : ((lower.map roundFinite).insertionSort (fun a b => a ≤ b)).length =
      lower.length := by rw [List.length_insertionSort, List.length_map]
  have hlenH : ((higher.map roundFinite).insertionSort (fun a b => a ≤ b)).length =
      higher.length := by rw [List.length_insertionSort, List.length_map]
  have hsorted : sortFloats (prices.map InexactFloat64) =
      ((lower.map roundFinite).insertionSort (fun a b => a ≤ b)).map float64.finite ++
        ((higher.map roundFinite).insertionSort (fun a b => a ≤ b)).map float64.finite := by
    rw [map_InexactFloat64 prices hrange, sortFloats_finite sortFloats hfloats,
      ← List.map_append]
    congr 1
    apply insertionSort_of_split
    · rw [← List.map_append]
      exact hsplit.map _
    · intro x hx y hy
      obtain ⟨x', hx', rfl⟩ := List.mem_map.mp hx
      obtain ⟨y', hy', rfl⟩ := List.mem_map.mp hy
      apply roundFinite_mono
      have h1 := hsep x' hx' y' hy'
      have h2 := hpos x' (hlmem x' hx')
      linarith
  have hsL : sortFloats (lower.map InexactFloat64) =
      ((lower.map roundFinite).insertionSort (fun a b => a ≤ b)).map float64.finite := by
    rw [map_InexactFloat64 lower (fun x hx => hrange x (hlmem x hx)),
      sortFloats_finite sortFloats hfloats]
  have hsH : sortFloats (higher.map InexactFloat64) =
      ((higher.map roundFinite).insertionSort (fun a b => a ≤ b)).map float64.finite := by
    rw [map_InexactFloat64 higher (fun x hx => hrange x (hhmem x hx)),
      sortFloats_finite sortFloats hfloats]
  -- the lower group forms the first cluster
  have hA := foldl_placePrice64_new_group []
    ((lower.map roundFinite).insertionSort (fun a b => a ≤ b)) _ _ aL1 aL2 aL3 tL
    (by rw [hlenL]; exact hl2) (by rw [hlenL]; omega) aL4
    (fun _ hc => absurd hc (List.not_mem_nil _))
  rw [List.nil_append] at hA
  -- its price
  obtain ⟨mL, hmL, mL1, mL2⟩ := mean64_bounds
    ((lower.map roundFinite).insertionSort (fun a b => a ≤ b)) _ _ aL1 aL2 aL3
    (by intro h; rw [h] at hlenL; simp at hlenL; omega) (by rw [hlenL]; omega) aL4
  -- the higher group is rejected by the first cluster and forms the second
  have hB := foldl_placePrice64_new_group
    [⟨mean64 (((lower.map roundFinite).insertionSort (fun a b => a ≤ b)).map float64.finite),
      (((lower.map roundFinite).insertionSort (fun a b => a ≤ b)).length : Int),
      ((lower.map roundFinite).insertionSort (fun a b => a ≤ b)).map float64.finite⟩]
    ((higher.map roundFinite).insertionSort (fun a b => a ≤ b)) _ _ aH1 aH2 aH3 tH
    (by rw [hlenH]; exact hh2) (by rw [hlenH]; omega) aH4
    (by
      intro c hc y hy
      rw [List.mem_singleton] at hc
      subst hc
      simp only
      rw [hmL]
      have hy1 := (aH4 y hy).1
      have hy2 := (aH4 y hy).2
      apply withinTolerance64_of_far
      · have e : pow2 (-401) = pow2 (-400) * pow2 (-1) := by rw [← pow2_add]; norm_num
        have e1 : pow2 (-1) = 1 / 2 := by decide!
        rw [e, e1]
        have : pow2 (-400) * (1 / 2) ≤ loL * (1 - pow2 (-53)) * (1 - pow2 (-30)) :=
          mul_le_mul aL1 (by rw [he]; norm_num) (by norm_num)
            (le_trans (pow2_pos _).le aL1)
        linarith
      · exact le_trans hy2 (le_trans aH3 (pow2_le_pow2 (by norm_num)))
      · have s1 := hsep hiL hhiL loH hloH
        have s2 : 1.02000009 * mL ≤ 1.02000009 * (hiL * (1 + pow2 (-53)) * (1 + pow2 (-30))) :=
          mul_le_mul_of_nonneg_left mL2 (by norm_num)
        have s3 : 1.0200001 * hiL * (1 - pow2 (-53)) ≤ loH * (1 - pow2 (-53)) :=
          mul_le_mul_of_nonneg_right s1 (by rw [hu]; norm_num)
        have s4 : 1.02000009 * (hiL * (1 + pow2 (-53)) * (1 + pow2 (-30))) ≤
            1.0200001 * hiL * (1 - pow2 (-53)) := by
          rw [hu, he]
          have : (1.02000009 : ℚ) * (hiL * (1 + 1 / 9007199254740992) * (1 + 1 / 1073741824)) =
              hiL * (1.02000009 * ((1 + 1 / 9007199254740992) * (1 + 1 / 1073741824))) := by
            ring
          rw [this]
          have : (1.0200001 : ℚ) * hiL * (1 - 1 / 9007199254740992) =
              hiL * (1.0200001 * (1 - 1 / 9007199254740992)) := by ring
          rw [this]
          exact mul_le_mul_of_nonneg_left (by norm_num) hhiLpos.le
        linarith)
  have hne0 : ¬ (prices.map InexactFloat64).length = 0 := by
    rw [List.length_map, hsplit.length_eq, List.length_append]
    omega
  unfold clusterLevels64
  rw [if_neg hne0]
  simp only
  unfold buildClusters64
  rw [hsorted, List.foldl_append, hA, hB, hsL, hsH, hlenL, hlenH]
  have c1 : decide ((lower.length : Int) ≥ 2) = true := by
    simp only [decide_eq_true_eq]; exact_mod_cast hl2
  have c2 : decide ((higher.length : Int) ≥ 2) = true := by
    simp only [decide_eq_true_eq]; exact_mod_cast hh2
  simp only [List.singleton_append, List.filter_cons, c1, c2, if_true, List.filter_nil]

theorem filter_type_levels64_same (type_ : String) (clusters : List cluster64) :
    (clusters.map (levelOf64 type_)).filter (fun r => r.Type_ == type_) =
      clusters.map (levelOf64 type_) := by
  apply List.filter_eq_self.mpr
  intro r hr
  obtain ⟨c, _, rfl⟩ := List.mem_map.mp hr
  simp [levelOf64]

theorem filter_type_levels64_other (type_ other : String) (hne : type_ ≠ other)
    (clusters : List cluster64) :
    (clusters.map (levelOf64 type_)).filter (fun r => r.Type_ == other) = [] := by
  apply List.filter_eq_nil_iff.mpr
  intro r hr
  obtain ⟨c, _, rfl⟩ := List.mem_map.mp hr
  simp [levelOf64, hne]

theorem detectSupportResistance64_perm_of_le_five (sortFloats : List float64 → List float64)
    (sortSlice : (SupportResistance64 → SupportResistance64 → Bool) →
      List SupportResistance64 → List SupportResistance64)
    (hsort : ∀ l : List SupportResistance64, (sortSlice strengthLess64 l).Perm l)
    (candles : List Candle) (h : (collectLevels64 sortFloats candles).length ≤ 5) :
    (detectSupportResistance64 sortFloats sortSlice candles).Perm (collectLevels64 sortFloats candles) := by
  have hperm := hsort (collectLevels64 sortFloats candles)
  unfold detectSupportResistance64
  simp only
  rw [if_neg (by rw [hperm.length_eq]; omega)]
  exact hperm

/-- C15 as amended: well-separated tight groups cluster exactly, with a margin
for the rounding of `float64`.  For every list of at most 1000000 prices
between `10^-100` and `10^100` that splits into two groups, each with at least
2 members and with maximum `≤ 1.0199999 *` its minimum, the minimum of the
higher group being `≥ 1.0200001 *` the maximum of the lower group,
`clusterLevels` with tolerance 0.02, computing in `float64` on the `float64`
values of the prices, returns exactly 2 clusters, the lower group and the
higher group, whose member counts are the two group sizes.  When these prices
are the swing highs (swing lows) of a candle sequence,
`detectSupportResistance` builds from them exactly 2 levels of type
"resistance" ("support"), which are the levels of that type in its result
whenever at most 5 levels were built (for every procedure that meets the
contract of `sort.Float64s` and every procedure of `sort.Slice` that
rearranges the slice). -/
theorem separated_groups_cluster_in_float (sortFloats : List float64 → List float64)
    (hfloats : SortFloat64sContract sortFloats) (prices lower higher : List ℚ)
    (hsplit : prices.Perm (lower ++ higher))
    (hl2 : lower.length ≥ 2) (hh2 : higher.length ≥ 2) (hsize : prices.length ≤ 1000000)
    (hrange : ∀ x ∈ prices, 1 / 10 ^ 100 ≤ x ∧ x ≤ 10 ^ 100)
    (hltight : ∀ x ∈ lower, ∀ y ∈ lower, y ≤ 1.0199999 * x)
    (hhtight : ∀ x ∈ higher, ∀ y ∈ higher, y ≤ 1.0199999 * x)
    (hsep : ∀ x ∈ lower, ∀ y ∈ higher, 1.0200001 * x ≤ y) :
    clusterLevels64 sortFloats (prices.map InexactFloat64) (float64.lit 0.02) =
      [⟨mean64 (sortFloats (lower.map InexactFloat64)), (lower.length : Int),
          sortFloats (lower.map InexactFloat64)⟩,
        ⟨mean64 (sortFloats (higher.map InexactFloat64)), (higher.length : Int),
          sortFloats (higher.map InexactFloat64)⟩] ∧
    (∀ candles : List Candle, swingHighs64 candles = prices.map InexactFloat64 →
      (collectLevels64 sortFloats candles).filter (fun r => r.Type_ == "resistance") =
        [⟨mean64 (sortFloats (lower.map InexactFloat64)), (lower.length : Int), "resistance",
            (lower.length : Int)⟩,
          ⟨mean64 (sortFloats (higher.map InexactFloat64)), (higher.length : Int),
            "resistance", (higher.length : Int)⟩] ∧
      ∀ sortSlice : (SupportResistance64 → SupportResistance64 → Bool) →
          List SupportResistance64 → List SupportResistance64,
        (∀ l : List SupportResistance64, (sortSlice strengthLess64 l).Perm l) →
          (collectLevels64 sortFloats candles).length ≤ 5 →
          ((detectSupportResistance64 sortFloats sortSlice candles).filter
              (fun r => r.Type_ == "resistance")).Perm
            [⟨mean64 (sortFloats (lower.map InexactFloat64)), (lower.length : Int),
                "resistance", (lower.length : Int)⟩,
              ⟨mean64 (sortFloats (higher.map InexactFloat64)), (higher.length : Int),
                "resistance", (higher.length : Int)⟩]) ∧
    (∀ candles : List Candle, swingLows64 candles = prices.map InexactFloat64 →
      (collectLevels64 sortFloats candles).filter (fun r => r.Type_ == "support") =
        [⟨mean64 (sortFloats (lower.map InexactFloat64)), (lower.length : Int), "support",
            (lower.length : Int)⟩,
          ⟨mean64 (sortFloats (higher.map InexactFloat64)), (higher.length : Int),
            "support", (higher.length : Int)⟩] ∧
      ∀ sortSlice : (SupportResistance64 → SupportResistance64 → Bool) →
          List SupportResistance64 → List SupportResistance64,
        (∀ l : List SupportResistance64, (sortSlice strengthLess64 l).Perm l) →
          (collectLevels64 sortFloats candles).length ≤ 5 →
          ((detectSupportResistance64 sortFloats sortSlice candles).filter
              (fun r => r.Type_ == "support")).Perm
            [⟨mean64 (sortFloats (lower.map InexactFloat64)), (lower.length : Int),
                "support", (lower.length : Int)⟩,
              ⟨mean64 (sortFloats (higher.map InexactFloat64)), (higher.length : Int),
                "support", (higher.length : Int)⟩]) := by
  have hcl := clusterLevels64_two_groups sortFloats hfloats prices lower higher hsplit hl2 hh2 hsize hrange hltight
    hhtight hsep
  have c1 : decide ((lower.length : Int) ≥ 2) = true := by
    simp only [decide_eq_true_eq]; exact_mod_cast hl2
  have c2 : decide ((higher.length : Int) ≥ 2) = true := by
    simp only [decide_eq_true_eq]; exact_mod_cast hh2
  refine ⟨hcl, ?_, ?_⟩
  · intro candles hsw
    have hfilter : (collectLevels64 sortFloats candles).filter (fun r => r.Type_ == "resistance") =
        [⟨mean64 (sortFloats (lower.map InexactFloat64)), (lower.length : Int), "resistance",
            (lower.length : Int)⟩,
          ⟨mean64 (sortFloats (higher.map InexactFloat64)), (higher.length : Int),
            "resistance", (higher.length : Int)⟩] := by
      unfold collectLevels64
      simp only
      rw [List.filter_append, filter_type_levels64_same,
        filter_type_levels64_other "support" "resistance" (by decide), List.append_nil, hsw, hcl]
      simp only [List.filter_cons, c1, c2, if_true, List.filter_nil, List.map_cons,
        List.map_nil, levelOf64]
    refine ⟨hfilter, ?_⟩
    intro sortSlice hsort h5
    rw [← hfilter]
    exact (detectSupportResistance64_perm_of_le_five sortFloats sortSlice hsort candles h5).filter _
  · intro candles hsw
    have hfilter : (collectLevels64 sortFloats candles).filter (fun r => r.Type_ == "support") =
        [⟨mean64 (sortFloats (lower.map InexactFloat64)), (lower.length : Int), "support",
            (lower.length : Int)⟩,
          ⟨mean64 (sortFloats (higher.map InexactFloat64)), (higher.length : Int),
            "support", (higher.length : Int)⟩] := by
      unfold collectLevels64
      simp only
      rw [List.filter_append, filter_type_levels64_same,
        filter_type_levels64_other "resistance" "support" (by decide), List.nil_append, hsw, hcl]
      simp only [List.filter_cons, c1, c2, if_true, List.filter_nil, List.map_cons,
        List.map_nil, levelOf64]
    refine ⟨hfilter, ?_⟩
    intro sortSlice hsort h5
    rw [← hfilter]
    exact (detectSupportResistance64_perm_of_le_five sortFloats sortSlice hsort candles h5).filter _

/-- The `float64` swing highs of `twoZoneBars`. -/
theorem twoZoneBars_swingHighs64 :
    swingHighs64 twoZoneBars = twoZonePrices.map InexactFloat64 := by
  decide!

/-- On `twoZoneBars` at most 5 levels are built. -/
theorem twoZoneBars_levels64 : (collectLevels64 sortFloat64s twoZoneBars).length ≤ 5 := by
  decide!

/-- Witness for C15 as amended on `twoZonePrices`, the swing highs of
`twoZoneBars`: two clusters of 5 members, two resistance levels of strength
5. -/
theorem separated_groups_cluster_in_float_witness :
    (SortFloat64sContract sortFloat64s ∧
      twoZonePrices.Perm (twoZonePrices.take 5 ++ twoZonePrices.drop 5) ∧
      (twoZonePrices.take 5).length ≥ 2 ∧ (twoZonePrices.drop 5).length ≥ 2 ∧
      twoZonePrices.length ≤ 1000000 ∧
      (∀ x ∈ twoZonePrices, 1 / 10 ^ 100 ≤ x ∧ x ≤ 10 ^ 100) ∧
      (∀ x ∈ twoZonePrices.take 5, ∀ y ∈ twoZonePrices.take 5, y ≤ 1.0199999 * x) ∧
      (∀ x ∈ twoZonePrices.drop 5, ∀ y ∈ twoZonePrices.drop 5, y ≤ 1.0199999 * x) ∧
      (∀ x ∈ twoZonePrices.take 5, ∀ y ∈ twoZonePrices.drop 5, 1.0200001 * x ≤ y)) ∧
    clusterLevels64 sortFloat64s (twoZonePrices.map InexactFloat64) (float64.lit 0.02) =
      [⟨mean64 (sortFloat64s ((twoZonePrices.take 5).map InexactFloat64)), 5,
          sortFloat64s ((twoZonePrices.take 5).map InexactFloat64)⟩,
        ⟨mean64 (sortFloat64s ((twoZonePrices.drop 5).map InexactFloat64)), 5,
          sortFloat64s ((twoZonePrices.drop 5).map InexactFloat64)⟩] ∧
    swingHighs64 twoZoneBars = twoZonePrices.map InexactFloat64 ∧
    (∀ l : List SupportResistance64, (insertionSortLessFunc strengthLess64 l).Perm l) ∧
    (collectLevels64 sortFloat64s twoZoneBars).length ≤ 5 ∧
    ((detectSupportResistance64 sortFloat64s insertionSortLessFunc twoZoneBars).filter
        (fun r => r.Type_ == "resistance")).Perm
      [⟨mean64 (sortFloat64s ((twoZonePrices.take 5).map InexactFloat64)), 5, "resistance", 5⟩,
        ⟨mean64 (sortFloat64s ((twoZonePrices.drop 5).map InexactFloat64)), 5, "resistance",
          5⟩] :=
  have h := separated_groups_cluster_in_float sortFloat64s sortFloat64s_contract twoZonePrices
    (twoZonePrices.take 5) (twoZonePrices.drop 5) (by rw [List.take_append_drop]) (by decide)
    (by decide) (by decide) (by decide!) (by decide!) (by decide!) (by decide!)
  ⟨⟨sortFloat64s_contract, by rw [List.take_append_drop], by decide, by decide, by decide,
      by decide!, by decide!, by decide!, by decide!⟩,
    h.1, twoZoneBars_swingHighs64, insertionSortLessFunc_perm strengthLess64,
    twoZoneBars_levels64,
    (h.2.1 twoZoneBars twoZoneBars_swingHighs64).2 insertionSortLessFunc
      (insertionSortLessFunc_perm strengthLess64) twoZoneBars_levels64⟩

/-- C15 as stated fails in two ways.  On `tiePrices`, the swing highs of
`tieZoneBars`, every hypothesis holds (the lower group 1, 1.02 has its maximum
exactly 2% above its minimum), yet the code, computing `|1.02 - 1| / 1` in
`float64` as `0.020000000000000018`, keeps 1 and 1.02 apart and returns one
cluster, and `detectSupportResistance` one level.  On `crowdedBars` the swing
highs 100, 100.5, 150, 150.5 form two well-separated tight groups, yet the
result of `detectSupportResistance` holds one level of type "resistance"
only: four support levels of strength 3 come first and the result ends after
5 levels.  (No slice sorted here is longer than 12, so the library runs the
insertion sorts `sortFloat64s` and `insertionSortLessFunc`.) -/
theorem separated_groups_missed_at_tie :
    (tiePrices.Perm ([1, 1.02] ++ [2, 2.01]) ∧
      (∀ x ∈ tiePrices, 0 < x) ∧
      (∀ x ∈ [(1 : ℚ), 1.02], ∀ y ∈ [(1 : ℚ), 1.02], y ≤ (1 + 0.02) * x) ∧
      (∀ x ∈ [(2 : ℚ), 2.01], ∀ y ∈ [(2 : ℚ), 2.01], y ≤ (1 + 0.02) * x) ∧
      (∀ x ∈ [(1 : ℚ), 1.02], ∀ y ∈ [(2 : ℚ), 2.01], y > (1 + 0.02) * x)) ∧
    withinTolerance64 (InexactFloat64 1.02) (InexactFloat64 1) (float64.lit 0.02) = false ∧
    (clusterLevels64 sortFloat64s (tiePrices.map InexactFloat64) (float64.lit 0.02)).map
      (fun c => c.Elements) = [[InexactFloat64 2, InexactFloat64 2.01]] ∧
    swingHighs64 tieZoneBars = tiePrices.map InexactFloat64 ∧
    ((detectSupportResistance64 sortFloat64s insertionSortLessFunc tieZoneBars).map
      (fun r => (r.Strength, r.Type_))) = [(2, "resistance")] ∧
    swingHighs64 crowdedBars = [(100 : ℚ), 100.5, 150, 150.5].map InexactFloat64 ∧
    ((∀ x ∈ [(100 : ℚ), 100.5], ∀ y ∈ [(100 : ℚ), 100.5], y ≤ (1 + 0.02) * x) ∧
      (∀ x ∈ [(150 : ℚ), 150.5], ∀ y ∈ [(150 : ℚ), 150.5], y ≤ (1 + 0.02) * x) ∧
      (∀ x ∈ [(100 : ℚ), 100.5], ∀ y ∈ [(150 : ℚ), 150.5], y > (1 + 0.02) * x)) ∧
    (detectSupportResistance64 sortFloat64s insertionSortLessFunc crowdedBars).map
      (fun r => (r.Strength, r.Type_)) =
        [(3, "support"), (3, "support"), (3, "support"), (3, "support"), (2, "resistance")] := by
  decide!

/-- A strict inequality is not margin enough: the prices 1 and
1.0199999999999999999 differ by less than 2%, but the second has the same
`float64` value as 1.02 and is kept apart from 1 as well. -/
theorem separated_groups_need_margin :
    (1.0199999999999999999 : ℚ) < (1 + 0.02) * 1 ∧
    InexactFloat64 1.0199999999999999999 = InexactFloat64 1.02 ∧
    (clusterLevels64 sortFloat64s ([(1 : ℚ), 1.0199999999999999999, 2, 2.01].map InexactFloat64)
      (float64.lit 0.02)).map (fun c => c.Elements) =
        [[InexactFloat64 2, InexactFloat64 2.01]] := by
  decide!

/-- The magnitude of the prices has to be bounded: three prices of `10^308`
and two of `1.5 * 10^308` form two tight groups, but the sum of the first two
overflows, the mean of their cluster is `+Inf`, and the third price of
`10^308` does not join it. -/
theorem separated_groups_need_range :
    (clusterLevels64 sortFloat64s ([(10 : ℚ) ^ 308, 10 ^ 308, 10 ^ 308, 1.5 * 10 ^ 308,
        1.5 * 10 ^ 308].map InexactFloat64) (float64.lit 0.02)).map
      (fun c => (c.Price, c.Count)) = [(float64.posInf, 2), (float64.posInf, 2)] := by
  decide!

end AiTrade
